import Mathlib

/-!
# Bloombox email checker: orchestrator, checkers, filters and list loader

A shallow embedding of `pkg/emailchecker/checker.go`, of the list-backed
checkers of `internal/validators`, of `internal/filter` and of
`internal/loader`.

Conventions of the embedding.

* A Go `map[string]T` is an association list `List (String × T)`; the order of
  the list is the order in which `range` visits the map. Theorems about loops
  over a map are stated for every list, hence for every iteration order.
* `time.Time` and `time.Duration` are integers (nanoseconds); every clock
  reading a call makes is an explicit input.
* Functions of the Go standard library and of third-party modules that the
  code calls are parameters: `mail.ParseAddress` and `unicode.ToLower` in
  `Stdlib`, the cuckoo filter module in `CuckooLib`, and the file system as a
  function from file names to what reading the file yields.
* `float64` arithmetic is modelled where the code uses it (`adjustCapacity`),
  by exact integers with the rounding of IEEE 754 binary64 written out.
* A run-time panic (a nil dereference, an index out of range, the division by
  zero inside `cuckoo.NewFilter`) is the value `none` of an `Option` result.
* `net.Resolver` and `sort.Slice` are parameters that carry the contract of the
  Go library (`Resolver`, `SortSlice`); the comparator handed to `sort.Slice`
  is the one of the source (`mxLess`).
* The semaphore of the engine is a transition system (`FanOut`) on the events of
  the goroutines; `Sched.ofRun` is the schedule a run of it gives one call.
-/

namespace Bloombox

/-! ## Data model (`pkg/emailchecker/types.go`) -/

/-- The type `MXRecord`. -/
structure MXRecord where
  Host : String
  Priority : Nat
  IP : String
deriving DecidableEq, Repr

/-- The type `SMTPResponse`. -/
structure SMTPResponse where
  Code : Int
  Message : String
  CanReceive : Bool
  IsMailbox : Bool
  IsCatchAll : Bool
deriving DecidableEq, Repr

/-- Values stored in `ValidationResult.Details` (`map[string]interface{}`). -/
inductive Detail where
  | str (s : String)
  | flag (b : Bool)
  | num (n : Int)
  | strs (l : List String)
  | mxRecords (l : List MXRecord)
  | smtp (r : SMTPResponse)
deriving DecidableEq, Repr

/-- The type `ValidationResult`: the result of a single validator. -/
structure ValidationResult where
  Valid : Bool
  Message : String
  Details : List (String × Detail)
  Duration : Int
  Error : String
deriving DecidableEq, Repr

/-- The type `CheckSummary`. -/
structure CheckSummary where
  IsDisposable : Bool
  IsFree : Bool
  IsRole : Bool
deriving DecidableEq, Repr

/-- The type `CheckResult`; `Summary` is a pointer in the source, `none` is `nil`. -/
structure CheckResult where
  Email : String
  Timestamp : Int
  Duration : Int
  Results : List (String × ValidationResult)
  IsValid : Bool
  Summary : Option CheckSummary
deriving DecidableEq, Repr

/-! ## `calculateSummary` -/

/-- One iteration of the `for name, validationResult := range result.Results`
loop of `calculateSummary`; the accumulator is `(result.IsValid, summary)`. -/
def summaryStep (acc : Bool × CheckSummary) (entry : String × ValidationResult) :
    Bool × CheckSummary :=
  let isValid := if !entry.2.Valid then false else acc.1
  let summary :=
    if entry.1 = "disposable" then
      (if !entry.2.Valid then { acc.2 with IsDisposable := true } else acc.2)
    else if entry.1 = "free" then
      (if !entry.2.Valid then { acc.2 with IsFree := true } else acc.2)
    else if entry.1 = "role" then
      (if !entry.2.Valid then { acc.2 with IsRole := true } else acc.2)
    else acc.2
  (isValid, summary)

/-- The loop of `calculateSummary`, started from `IsValid = true` and the zero
`CheckSummary`. -/
def summaryLoop (results : List (String × ValidationResult)) : Bool × CheckSummary :=
  results.foldl summaryStep (true, { IsDisposable := false, IsFree := false, IsRole := false })

/-- The method `calculateSummary`: overall validity and summary from the
validation results. -/
def calculateSummary (result : CheckResult) : CheckResult :=
  let out := summaryLoop result.Results
  { result with IsValid := out.1, Summary := some out.2 }

/-- The names whose entries feed the summary. -/
def isSummaryName (name : String) : Bool :=
  name = "disposable" || name = "free" || name = "role"

/-! ## Externals and normalisation -/

/-- The type `mail.Address` of `net/mail`. -/
structure MailAddress where
  Name : String
  Address : String
deriving DecidableEq, Repr

/-- The functions of the Go standard library the engine is parametric in:
`unicode.ToLower` on one rune and `mail.ParseAddress`, whose error is kept as
its message (`err.Error()`). -/
structure Stdlib where
  unicodeToLower : Char → Char
  ParseAddress : String → Except String MailAddress

/-- The predicate `unicode.IsSpace`: the code points with the White_Space property. -/
def isSpace (c : Char) : Bool :=
  let n := c.toNat
  (9 ≤ n && n ≤ 13) || n = 0x20 || n = 0x85 || n = 0xA0 || n = 0x1680 ||
    (0x2000 ≤ n && n ≤ 0x200A) || n = 0x2028 || n = 0x2029 || n = 0x202F ||
    n = 0x205F || n = 0x3000

/-- The function `strings.TrimSpace`: the string without its leading and
trailing white space. -/
def TrimSpace (s : String) : String :=
  String.mk ((s.data.dropWhile isSpace).reverse.dropWhile isSpace).reverse

/-- The function `strings.ToLower`: `unicode.ToLower` mapped over the runes. -/
def ToLower (lib : Stdlib) (s : String) : String :=
  String.mk (s.data.map lib.unicodeToLower)

/-- The function `strings.Split(s, sep)` for a one-character separator. -/
def Split (s : String) (sep : Char) : List String :=
  (s.data.splitOn sep).map String.mk

/-- The function `extractDomain` of `internal/validators/utils.go`. -/
def extractDomain (lib : Stdlib) (email : String) : String :=
  let parts := Split email '@'
  if parts.length ≠ 2 then "" else ToLower lib (parts.getD 1 "")

/-- The function `extractLocalPart` of `internal/validators/utils.go`. -/
def extractLocalPart (lib : Stdlib) (email : String) : String :=
  let parts := Split email '@'
  if parts.length ≠ 2 then "" else ToLower lib (parts.getD 0 "")

/-! ## Go maps as association lists -/

/-- The assignment `m[k] = v` on a map: the entry under `k` is replaced, or a
new entry is added. -/
def mapSet {β : Type} (m : List (String × β)) (k : String) (v : β) : List (String × β) :=
  match m with
  | [] => [(k, v)]
  | (k0, v0) :: rest => if k0 = k then (k, v) :: rest else (k0, v0) :: mapSet rest k v

/-- The lookup `v, ok := m[k]` on a map. -/
def mapGet {β : Type} (m : List (String × β)) (k : String) : Option β :=
  match m with
  | [] => none
  | (k0, v0) :: rest => if k0 = k then some v0 else mapGet rest k

/-- The statement `delete(m, k)` on a map. -/
def mapDelete {β : Type} (m : List (String × β)) (k : String) : List (String × β) :=
  match m with
  | [] => []
  | (k0, v0) :: rest => if k0 = k then mapDelete rest k else (k0, v0) :: mapDelete rest k

/-- The keys of a map, in iteration order. -/
def mapKeys {β : Type} (m : List (String × β)) : List String :=
  m.map Prod.fst

/-! ## Line-list loader (`internal/loader`) -/

/-- The body of the line loop of `LoadFromFile` and of `LoadFromString` (the
same statements in both): the item a line carries, if any. -/
def cleanLine (lib : Stdlib) (line : String) : Option String :=
  let line := TrimSpace line
  if line = "" ∨ line.data.head? = some '#' then none
  else
    let line :=
      if '#' ∈ line.data then TrimSpace (String.mk (line.data.takeWhile fun c => c ≠ '#'))
      else line
    let item := ToLower lib line
    if item ≠ "" then some item else none

/-- The method `FileLoader.LoadFromString`; its error is always nil. -/
def LoadFromString (lib : Stdlib) (content : String) : List String :=
  (Split content '\n').filterMap (cleanLine lib)

/-- What `os.Open` and the `bufio.Scanner` loop yield for a file name: an error
of `os.Open`, an error of the scanner, or the lines of the file. -/
inductive FileRead where
  | openError (err : String)
  | scanError (err : String)
  | lines (l : List String)
deriving DecidableEq, Repr

/-- The method `FileLoader.LoadFromFile`; `fs` stands for the file system. -/
def LoadFromFile (lib : Stdlib) (fs : String → FileRead) (filename : String) :
    Except String (List String) :=
  match fs filename with
  | FileRead.openError err => Except.error ("failed to open file " ++ filename ++ ": " ++ err)
  | FileRead.scanError err => Except.error ("error reading file " ++ filename ++ ": " ++ err)
  | FileRead.lines l => Except.ok (l.filterMap (cleanLine lib))

/-- One iteration of the loop of `removeDuplicates`; the accumulator is
`(seen, result)`. -/
def removeDuplicatesStep (acc : List (String × Bool) × List String) (item : String) :
    List (String × Bool) × List String :=
  if !((mapGet acc.1 item).getD false) then (mapSet acc.1 item true, acc.2 ++ [item])
  else acc

/-- The function `removeDuplicates` of `internal/loader/utils.go`. -/
def removeDuplicates (items : List String) : List String :=
  (items.foldl removeDuplicatesStep ([], [])).2

/-- The loop of `LoadFromFiles` over the file names; `allItems` is what the
files before have given. -/
def loadAllFiles (lib : Stdlib) (fs : String → FileRead) :
    List String → List String → Except String (List String)
  | [], allItems => Except.ok allItems
  | filename :: rest, allItems =>
    match LoadFromFile lib fs filename with
    | Except.error err =>
      Except.error ("failed to load from file " ++ filename ++ ": " ++ err)
    | Except.ok items => loadAllFiles lib fs rest (allItems ++ items)

/-- The method `FileLoader.LoadFromFiles`. -/
def LoadFromFiles (lib : Stdlib) (fs : String → FileRead) (filenames : List String) :
    Except String (List String) :=
  match loadAllFiles lib fs filenames [] with
  | Except.error err => Except.error err
  | Except.ok allItems => Except.ok (removeDuplicates allItems)

/-- The items of a list in the order of their first occurrence, each once. -/
def firstOccurrences : List String → List String
  | [] => []
  | x :: xs => x :: (firstOccurrences xs).filter fun y => decide (y ≠ x)

/-! ## Exact-map filter (`internal/filter/map.go`) -/

/-- The type `MapFilter`: `items map[string]bool`. -/
structure MapFilter where
  items : List (String × Bool)
deriving DecidableEq, Repr

/-- The constructor `NewMapFilter`. -/
def NewMapFilter : MapFilter := { items := [] }

/-- The method `MapFilter.Add`; it always returns a nil error. -/
def MapFilter.Add (mf : MapFilter) (item : String) : MapFilter :=
  { items := mapSet mf.items item true }

/-- The method `MapFilter.Contains`: `mf.items[item]`, false for an absent key. -/
def MapFilter.Contains (mf : MapFilter) (item : String) : Bool :=
  (mapGet mf.items item).getD false

/-- The error `MapFilter.Add` returns: always nil. -/
def MapFilter.AddError (_mf : MapFilter) (_item : String) : Option String :=
  none

/-- The method `MapFilter.Delete`, as the filter it leaves. -/
def MapFilter.Delete (mf : MapFilter) (item : String) : MapFilter :=
  if (mapGet mf.items item).getD false then { items := mapDelete mf.items item } else mf

/-- The method `MapFilter.Clear`. -/
def MapFilter.Clear (_mf : MapFilter) : MapFilter :=
  { items := [] }

/-- A call on a `MapFilter` that changes it. -/
inductive FilterOp where
  | Add (item : String)
  | Delete (item : String)
  | Clear
deriving DecidableEq, Repr

/-- The filter after one call. -/
def MapFilter.apply (mf : MapFilter) (op : FilterOp) : MapFilter :=
  match op with
  | FilterOp.Add item => mf.Add item
  | FilterOp.Delete item => mf.Delete item
  | FilterOp.Clear => mf.Clear

/-- The filter after a sequence of calls, first call first. -/
def MapFilter.run (mf : MapFilter) (ops : List FilterOp) : MapFilter :=
  ops.foldl MapFilter.apply mf

/-! ## Cuckoo filter (`internal/filter/cuckoo.go`) -/

/-- The third-party module `linvon/cuckoo-filter` the code is parametric in:
the type `cuckoo.Filter`, the filter `cuckoo.NewFilter` builds from its first
three arguments when it returns (the fourth is the constant `TableTypeSingle`),
and the methods `Add` and `Contain`. -/
structure CuckooLib where
  Filter : Type
  NewFilter : Nat → Nat → Nat → Filter
  Add : Filter → String → Filter × Bool
  Contain : Filter → String → Bool

/-- The call `cuckoo.NewFilter(tagsPerBucket, bitsPerItem, maxNumKeys,
TableTypeSingle)`. The module begins with the integer division
`maxNumKeys / tagsPerBucket`, which panics (integer divide by zero) when
`tagsPerBucket` is 0: `none` is that panic. -/
def cuckooNewFilter (ck : CuckooLib) (tagsPerBucket bitsPerItem maxNumKeys : Nat) :
    Option ck.Filter :=
  if tagsPerBucket = 0 then none
  else some (ck.NewFilter tagsPerBucket bitsPerItem maxNumKeys)

/-- Rounding of `m / 2 ^ e` to the nearest integer, ties to the even one: the
rounding of IEEE 754 binary64 arithmetic. -/
def roundHalfEven (m e : Nat) : Nat :=
  let q := m / 2 ^ e
  let r := m % 2 ^ e
  if 2 * r < 2 ^ e then q
  else if 2 * r > 2 ^ e then q + 1
  else if q % 2 = 0 then q else q + 1

/-- The expression `int(float64(capacity) * 1.2)` for `0 ≤ capacity < 2 ^ 53`,
where `float64(capacity)` is exact. The constant `1.2` is the binary64 number
`5404319552844595 / 2 ^ 52`; the exact product `m / 2 ^ 52` is rounded to 53
significant bits (`e` is the number of bits of `m` beyond 53) and the
conversion to `int` drops the fraction. -/
def adjustCapacity (capacity : Nat) : Nat :=
  let m := capacity * 5404319552844595
  let e := Nat.size m - 53
  roundHalfEven m e * 2 ^ e / 2 ^ 52

/-- The type `CuckooFilter`. -/
structure CuckooFilter (ck : CuckooLib) where
  filter : ck.Filter
  size : Int
  capacity : Nat

/-- The constructor `NewCuckooFilter`; the rate is a rational here, it is not
used. The adjusted capacity goes to `cuckoo.NewFilter` as its first argument,
so the constructor panics (`none`) when the adjusted capacity is 0. -/
def NewCuckooFilter (ck : CuckooLib) (capacity : Nat) (_falsePositiveRate : Rat) :
    Option (CuckooFilter ck) :=
  let bucketSize := 4
  let adjustedCapacity := adjustCapacity capacity
  match cuckooNewFilter ck adjustedCapacity bucketSize capacity with
  | none => none
  | some filter => some { filter := filter, size := 0, capacity := adjustedCapacity }

/-- The method `CuckooFilter.Add`: the filter afterwards and the error, if any. -/
def CuckooFilter.Add {ck : CuckooLib} (cf : CuckooFilter ck) (item : String) :
    CuckooFilter ck × Option String :=
  let added := ck.Add cf.filter item
  if added.2 then ({ cf with filter := added.1, size := cf.size + 1 }, none)
  else ({ cf with filter := added.1 }, some ("failed to add item to cuckoo filter: " ++ item))

/-- The method `CuckooFilter.Contains`. -/
def CuckooFilter.Contains {ck : CuckooLib} (cf : CuckooFilter ck) (item : String) : Bool :=
  ck.Contain cf.filter item

/-- The interface `filter.Filter` with its two implementations. -/
inductive Filter (ck : CuckooLib) where
  | exact (mf : MapFilter)
  | cuckoo (cf : CuckooFilter ck)

/-- The call `f.Add(item)` on the interface, as the filter it leaves; the
constructors discard the error. -/
def Filter.Add {ck : CuckooLib} (f : Filter ck) (item : String) : Filter ck :=
  match f with
  | Filter.exact mf => Filter.exact (mf.Add item)
  | Filter.cuckoo cf => Filter.cuckoo (cf.Add item).1

/-- The call `f.Contains(item)` on the interface. -/
def Filter.Contains {ck : CuckooLib} (f : Filter ck) (item : String) : Bool :=
  match f with
  | Filter.exact mf => mf.Contains item
  | Filter.cuckoo cf => cf.Contains item

/-! ## List-backed checkers (`internal/validators`) -/

/-- The loop `for _, item := range items` of the filter-backed constructors:
every loaded item is trimmed and lowercased and, when not empty, added. -/
def addItems {ck : CuckooLib} (lib : Stdlib) (f : Filter ck) (items : List String) :
    Filter ck :=
  items.foldl
    (fun f item =>
      let item := ToLower lib (TrimSpace item)
      if item ≠ "" then f.Add item else f)
    f

/-- The same loop of the map-backed constructors (`roleMap[role] = true`). -/
def addWords (lib : Stdlib) (m : List (String × Bool)) (words : List String) :
    List (String × Bool) :=
  words.foldl
    (fun m word =>
      let word := ToLower lib (TrimSpace word)
      if word ≠ "" then mapSet m word true else m)
    m

/-- The type `DisposableValidator`. -/
structure DisposableValidator (ck : CuckooLib) where
  filter : Filter ck
  enabled : Bool

/-- The constructor `NewDisposableValidator`: the checker or the error it
returns, or `none` when `NewCuckooFilter` panics. -/
def NewDisposableValidator (lib : Stdlib) (ck : CuckooLib) (fs : String → FileRead)
    (filename : String) (falsePositiveRate : Rat) :
    Option (Except String (DisposableValidator ck)) :=
  match LoadFromFile lib fs filename with
  | Except.error err => some (Except.error ("failed to load disposable emails file: " ++ err))
  | Except.ok domains =>
    let f : Option (Filter ck) :=
      if falsePositiveRate = 0 then some (Filter.exact NewMapFilter)
      else (NewCuckooFilter ck domains.length falsePositiveRate).map Filter.cuckoo
    f.map fun f => Except.ok { filter := addItems lib f domains, enabled := true }

/-- The method `DisposableValidator.Validate`; `elapsed` is the reading of
`time.Since(start)`. -/
def DisposableValidator.Validate {ck : CuckooLib} (lib : Stdlib) (v : DisposableValidator ck)
    (elapsed : Int) (email : String) : ValidationResult :=
  let domain := extractDomain lib email
  let isDisposable := v.filter.Contains domain
  { Valid := !isDisposable
    Message := if isDisposable then "Disposable email detected" else "Not a disposable email"
    Details := [("domain", Detail.str domain), ("is_disposable", Detail.flag isDisposable)]
    Duration := elapsed
    Error := "" }

/-- The type `FreeValidator`. -/
structure FreeValidator (ck : CuckooLib) where
  filter : Filter ck
  enabled : Bool

/-- The constructor `NewFreeValidator`: the checker or the error it returns, or
`none` when `NewCuckooFilter` panics. -/
def NewFreeValidator (lib : Stdlib) (ck : CuckooLib) (fs : String → FileRead)
    (filename : String) (falsePositiveRate : Rat) :
    Option (Except String (FreeValidator ck)) :=
  match LoadFromFile lib fs filename with
  | Except.error err => some (Except.error ("failed to load free emails file: " ++ err))
  | Except.ok domains =>
    let f : Option (Filter ck) :=
      if falsePositiveRate = 0 then some (Filter.exact NewMapFilter)
      else (NewCuckooFilter ck domains.length falsePositiveRate).map Filter.cuckoo
    f.map fun f => Except.ok { filter := addItems lib f domains, enabled := true }

/-- The type `RoleValidator`: `roleEmails map[string]bool`. -/
structure RoleValidator where
  roleEmails : List (String × Bool)
  enabled : Bool

/-- The constructor `NewRoleValidator`. -/
def NewRoleValidator (lib : Stdlib) (fs : String → FileRead) (filename : String) :
    Except String RoleValidator :=
  match LoadFromFile lib fs filename with
  | Except.error err => Except.error ("failed to load role emails file: " ++ err)
  | Except.ok roles => Except.ok { roleEmails := addWords lib [] roles, enabled := true }

/-- The method `RoleValidator.Validate`. -/
def RoleValidator.Validate (lib : Stdlib) (v : RoleValidator) (elapsed : Int)
    (email : String) : ValidationResult :=
  let localPart := extractLocalPart lib email
  let isRole := (mapGet v.roleEmails localPart).getD false
  { Valid := !isRole
    Message := if isRole then "Role-based email address" else "Not a role-based email"
    Details := [("local_part", Detail.str localPart), ("is_role", Detail.flag isRole)]
    Duration := elapsed
    Error := "" }

/-- The type `BanWordsValidator`: `banWords map[string]bool`. -/
structure BanWordsValidator where
  banWords : List (String × Bool)
  enabled : Bool

/-- The constructor `NewBanWordsValidator`. -/
def NewBanWordsValidator (lib : Stdlib) (fs : String → FileRead) (filename : String) :
    Except String BanWordsValidator :=
  match LoadFromFile lib fs filename with
  | Except.error err => Except.error ("failed to load ban words file: " ++ err)
  | Except.ok words => Except.ok { banWords := addWords lib [] words, enabled := true }

/-- The function `strings.Contains`. -/
def Contains (s substr : String) : Bool :=
  decide (substr.data <:+: s.data)

/-- One iteration of the loop `for banWord := range v.banWords` of
`BanWordsValidator.Validate`; the accumulator is `foundBanWords`. -/
def banWordsStep (localPartLower : String) (foundBanWords : List String)
    (entry : String × Bool) : List String :=
  if entry.1.utf8ByteSize ≥ 3 ∧ Contains localPartLower entry.1 = true then
    if entry.1 ∈ foundBanWords then foundBanWords else foundBanWords ++ [entry.1]
  else foundBanWords

/-- The slice `foundBanWords` that `BanWordsValidator.Validate` builds for the
lowercased local part. -/
def foundBanWords (v : BanWordsValidator) (localPartLower : String) : List String :=
  v.banWords.foldl (banWordsStep localPartLower)
    (if (mapGet v.banWords localPartLower).getD false then [localPartLower] else [])

/-- The method `BanWordsValidator.Validate`. -/
def BanWordsValidator.Validate (lib : Stdlib) (v : BanWordsValidator) (elapsed : Int)
    (email : String) : ValidationResult :=
  let localPart := extractLocalPart lib email
  let localPartLower := ToLower lib localPart
  let found := foundBanWords v localPartLower
  let hasBanWords := decide (found.length > 0)
  { Valid := !hasBanWords
    Message :=
      if hasBanWords then "Contains banned words: " ++ String.intercalate ", " found
      else "No banned words found"
    Details :=
      [("local_part", Detail.str localPart), ("has_ban_words", Detail.flag hasBanWords),
        ("ban_words_found", Detail.strs found), ("ban_words_count", Detail.num found.length)]
    Duration := elapsed
    Error := "" }

/-- The type `BlackListEmailsValidator`. -/
structure BlackListEmailsValidator (ck : CuckooLib) where
  filter : Filter ck
  enabled : Bool

/-- The constructor `NewBlackListEmailsValidator`: the checker or the error it
returns, or `none` when `NewCuckooFilter` panics. -/
def NewBlackListEmailsValidator (lib : Stdlib) (ck : CuckooLib) (fs : String → FileRead)
    (filename : String) (falsePositiveRate : Rat) :
    Option (Except String (BlackListEmailsValidator ck)) :=
  match LoadFromFile lib fs filename with
  | Except.error err =>
    some (Except.error ("failed to load blacklisted emails file: " ++ err))
  | Except.ok emails =>
    let f : Option (Filter ck) :=
      if falsePositiveRate = 0 ∨ emails.length < 1000 then some (Filter.exact NewMapFilter)
      else (NewCuckooFilter ck emails.length falsePositiveRate).map Filter.cuckoo
    f.map fun f => Except.ok { filter := addItems lib f emails, enabled := true }

/-- The method `BlackListEmailsValidator.Validate`. -/
def BlackListEmailsValidator.Validate {ck : CuckooLib} (lib : Stdlib)
    (v : BlackListEmailsValidator ck) (elapsed : Int) (email : String) : ValidationResult :=
  let emailLower := ToLower lib (TrimSpace email)
  let isBlacklisted := v.filter.Contains emailLower
  { Valid := !isBlacklisted
    Message := if isBlacklisted then "Email is blacklisted" else "Email not in blacklist"
    Details := [("email", Detail.str emailLower), ("is_blacklisted", Detail.flag isBlacklisted)]
    Duration := elapsed
    Error := "" }

/-- The type `BlackListDomainsValidator`. -/
structure BlackListDomainsValidator (ck : CuckooLib) where
  filter : Filter ck
  enabled : Bool

/-- The constructor `NewBlackListDomainsValidator`: a load error is replaced by
the empty list; `none` when `NewCuckooFilter` panics. -/
def NewBlackListDomainsValidator (lib : Stdlib) (ck : CuckooLib) (fs : String → FileRead)
    (filename : String) (falsePositiveRate : Rat) :
    Option (Except String (BlackListDomainsValidator ck)) :=
  let domains :=
    match LoadFromFile lib fs filename with
    | Except.error _ => []
    | Except.ok domains => domains
  let f : Option (Filter ck) :=
    if falsePositiveRate = 0 ∨ domains.length < 1000 then some (Filter.exact NewMapFilter)
    else (NewCuckooFilter ck domains.length falsePositiveRate).map Filter.cuckoo
  f.map fun f => Except.ok { filter := addItems lib f domains, enabled := true }

/-- The method `BlackListDomainsValidator.Validate`. -/
def BlackListDomainsValidator.Validate {ck : CuckooLib} (lib : Stdlib)
    (v : BlackListDomainsValidator ck) (elapsed : Int) (email : String) : ValidationResult :=
  let domain := extractDomain lib email
  let isBlacklisted := v.filter.Contains domain
  { Valid := !isBlacklisted
    Message := if isBlacklisted then "Domain is blacklisted" else "Domain not in blacklist"
    Details := [("domain", Detail.str domain), ("is_blacklisted", Detail.flag isBlacklisted)]
    Duration := elapsed
    Error := "" }

/-- The method `SyntaxValidator.Validate`. -/
def SyntaxValidator.Validate (lib : Stdlib) (elapsed : Int) (email : String) :
    ValidationResult :=
  match lib.ParseAddress email with
  | Except.error err =>
    { Valid := false, Message := "Invalid email syntax", Details := [],
      Duration := elapsed, Error := err }
  | Except.ok addr =>
    { Valid := true, Message := "Valid email syntax",
      Details := [("parsed_address", Detail.str addr.Address),
        ("display_name", Detail.str addr.Name)],
      Duration := elapsed, Error := "" }

/-! ## The engine (`pkg/emailchecker/checker.go`) -/

/-- The interface `Validator` as the engine uses it: the enabled flag behind
`IsEnabled`/`SetEnabled` and the answer of `Validate` on an address. -/
structure Validator where
  enabled : Bool
  Validate : String → ValidationResult

/-- The fields of `Config` the orchestrator reads. -/
structure Config where
  CacheSize : Nat
  CacheTimeout : Int
  ValidationTimeout : Int
  MaxConcurrentValidations : Nat
deriving DecidableEq, Repr

/-- The cache `lru.Cache[string, *CheckResult]` of `hashicorp/golang-lru`: its
capacity and its entries, most recently used first. -/
structure LRU where
  size : Nat
  items : List (String × CheckResult)
deriving DecidableEq, Repr

/-- The method `Cache.Get`: the value under `key`, which becomes the most
recently used entry. -/
def LRU.Get (c : LRU) (key : String) : Option CheckResult × LRU :=
  match mapGet c.items key with
  | some v => (some v, { c with items := (key, v) :: mapDelete c.items key })
  | none => (none, c)

/-- The method `Cache.Remove`. -/
def LRU.Remove (c : LRU) (key : String) : LRU :=
  { c with items := mapDelete c.items key }

/-- The method `Cache.Add`: an existing key is updated and moved to the front;
a new key is pushed to the front and the oldest entry is evicted when the
capacity is exceeded. -/
def LRU.Add (c : LRU) (key : String) (value : CheckResult) : LRU :=
  match mapGet c.items key with
  | some _ => { c with items := (key, value) :: mapDelete c.items key }
  | none =>
    let items := (key, value) :: c.items
    if items.length > c.size then { c with items := items.dropLast } else { c with items := items }

/-- The type `EmailChecker`; the semaphore is part of `Sched`. -/
structure EmailChecker where
  config : Config
  validators : List (String × Validator)
  cache : LRU

/-- The clock readings of one call of `CheckWithValidators`: `start` is
`time.Now()` at entry, `probe` the clock when the age of a cached entry is
taken, `stamp` the `time.Now()` stored as `Timestamp`, `finish` the clock
when `Duration` is taken. -/
structure Clock where
  start : Int
  probe : Int
  stamp : Int
  finish : Int
deriving DecidableEq, Repr

/-- What the scheduler decides during one fan-out: whether the task spawned at
position `i` gets a semaphore token, and the order in which the reports leave
the channel. -/
structure Sched where
  acquire : Nat → Bool
  arrive : List (String × ValidationResult) → List (String × ValidationResult)
  arrive_perm : ∀ l, (arrive l).Perm l

/-- The verb `%v` of `fmt` on the elements of a `[]string`: the elements
separated by single spaces. -/
def joinSpace : List String → String
  | [] => ""
  | [a] => a
  | a :: b :: rest => a ++ " " ++ joinSpace (b :: rest)

/-- The verb `%v` of `fmt` on a `[]string`. -/
def formatNames (names : List String) : String :=
  "[" ++ joinSpace names ++ "]"

/-- The method `buildCacheKey`: `fmt.Sprintf("%s:%v", email, validatorNames)`
for a non-empty selection. -/
def buildCacheKey (email : String) (validatorNames : List String) : String :=
  if validatorNames.length = 0 then email
  else email ++ ":" ++ formatNames validatorNames

/-- The method `getValidatorsToRun`. -/
def getValidatorsToRun (e : EmailChecker) (requested : List String) : List String :=
  if requested.length = 0 then
    (e.validators.filter fun entry => entry.2.enabled).map Prod.fst
  else
    requested.filter fun name =>
      match mapGet e.validators name with
      | some validator => validator.enabled
      | none => false

/-- The tasks `runValidators` spawns: one for each name that is registered
and enabled, in the order of `validatorNames`. -/
def spawnedTasks (e : EmailChecker) (validatorNames : List String) :
    List (String × Validator) :=
  validatorNames.filterMap fun name =>
    match mapGet e.validators name with
    | some validator => if validator.enabled then some (name, validator) else none
    | none => none

/-- The synthetic result of a task that finds no semaphore token. -/
def rateLimited : ValidationResult :=
  { Valid := false, Message := "skipped due to rate limiting", Details := [],
    Duration := 0, Error := "" }

/-- The body of one task of `runValidators`: its report on the channel. -/
def runTask (sched : Sched) (email : String) (task : Nat × String × Validator) :
    String × ValidationResult :=
  if sched.acquire task.1 then (task.2.1, task.2.2.Validate email)
  else (task.2.1, rateLimited)

/-- The collector loop of `runValidators`: `result.Results[res.name] = res.res`
for every report, in arrival order. -/
def collect (results : List (String × ValidationResult))
    (reports : List (String × ValidationResult)) : List (String × ValidationResult) :=
  reports.foldl (fun m report => mapSet m report.1 report.2) results

/-- The method `runValidators`; its second component lists the checkers whose
`Validate` was invoked. -/
def runValidators (e : EmailChecker) (sched : Sched) (result : CheckResult)
    (validatorNames : List String) : CheckResult × List String :=
  let tasks := (spawnedTasks e validatorNames).enum
  let reports := tasks.map (runTask sched result.Email)
  ({ result with Results := collect result.Results (sched.arrive reports) },
    (tasks.filter fun task => sched.acquire task.1).map fun task => task.2.1)

/-- What a call of `CheckWithValidators` yields: the returned `CheckResult`, the
engine afterwards, and the checkers whose `Validate` was invoked. -/
structure Outcome where
  result : CheckResult
  checker : EmailChecker
  invoked : List String

/-- Lines 168 to 200 of `CheckWithValidators`: the path taken when the cache
holds no fresh entry under `cacheKey`. -/
def checkUncached (lib : Stdlib) (e : EmailChecker) (clk : Clock) (sched : Sched)
    (email cacheKey : String) (validatorNames : List String) : Outcome :=
  let result : CheckResult :=
    { Email := email, Timestamp := clk.stamp, Duration := 0, Results := [],
      IsValid := false, Summary := none }
  match lib.ParseAddress email with
  | Except.error err =>
    { result :=
        { result with
          Duration := clk.finish - clk.start
          Results := mapSet result.Results "syntax"
            { Valid := false, Message := "Invalid email syntax", Details := [],
              Duration := 0, Error := err } }
      checker := e
      invoked := [] }
  | Except.ok _ =>
    let validatorsToRun := getValidatorsToRun e validatorNames
    let ran := runValidators e sched result validatorsToRun
    let result := calculateSummary ran.1
    let result := { result with Duration := clk.finish - clk.start }
    { result := result
      checker := { e with cache := e.cache.Add cacheKey result }
      invoked := ran.2 }

/-- The method `CheckWithValidators`. -/
def CheckWithValidators (lib : Stdlib) (e : EmailChecker) (clk : Clock) (sched : Sched)
    (email : String) (validatorNames : List String) : Outcome :=
  let email := ToLower lib (TrimSpace email)
  let cacheKey := buildCacheKey email validatorNames
  match e.cache.Get cacheKey with
  | (some cached, cache) =>
    if clk.probe - cached.Timestamp < e.config.CacheTimeout then
      { result := cached, checker := { e with cache := cache }, invoked := [] }
    else
      checkUncached lib { e with cache := cache.Remove cacheKey } clk sched email cacheKey
        validatorNames
  | (none, cache) =>
    checkUncached lib { e with cache := cache } clk sched email cacheKey validatorNames

/-- The method `Check`: `CheckWithValidators(email, nil)`. -/
def Check (lib : Stdlib) (e : EmailChecker) (clk : Clock) (sched : Sched)
    (email : String) : Outcome :=
  CheckWithValidators lib e clk sched email []

/-- Whether the cache holds under `key` an entry younger than `CacheTimeout`
at the clock reading `probe`. -/
def cacheFresh (e : EmailChecker) (probe : Int) (key : String) : Bool :=
  match mapGet e.cache.items key with
  | some cached => decide (probe - cached.Timestamp < e.config.CacheTimeout)
  | none => false

/-! ## A concrete engine for the worked examples -/

/-- The answers of `mail.ParseAddress` on the addresses of the worked examples:
bare `local@domain` addresses, a name-addr form and an address with a quoted
local part are accepted (the parser returns the local part without its
quotes), a string without `@` and a string with text after the domain are
rejected. Strings
outside this table are not used by the examples; they are answered with an
error. -/
def exampleParseAddress (s : String) : Except String MailAddress :=
  if s = "a@b.com" then Except.ok { Name := "", Address := "a@b.com" }
  else if s = "admin@acme.com" then Except.ok { Name := "", Address := "admin@acme.com" }
  else if s = "alice@example.com" then Except.ok { Name := "", Address := "alice@example.com" }
  else if s = "bob@mailinator.com" then Except.ok { Name := "", Address := "bob@mailinator.com" }
  else if s = "bob <bob@mailinator.com>" then
    Except.ok { Name := "bob", Address := "bob@mailinator.com" }
  else if s = "\"a@b\"@mailinator.com" then
    Except.ok { Name := "", Address := "a@b@mailinator.com" }
  else if s = "i@x.com" then Except.ok { Name := "", Address := "i@x.com" }
  else if s = "ı@x.com" then Except.ok { Name := "", Address := "ı@x.com" }
  else if s = "a@b.com:[role]" then
    Except.error "mail: expected single address, got \":[role]\""
  else if s = "not-an-email" then Except.error "mail: missing '@' or angle-addr"
  else Except.error "mail: no address"

/-- The standard library of the worked examples. `Char.toLower` lowers the
ASCII letters and fixes every other rune; it agrees with `unicode.ToLower` on
the runes of the examples (ASCII and U+0131). -/
def exampleStdlib : Stdlib :=
  { unicodeToLower := Char.toLower, ParseAddress := exampleParseAddress }

/-- The wrapper `ValidatorAdapter` around a `DisposableValidator`. -/
def DisposableValidator.adapter {ck : CuckooLib} (lib : Stdlib) (v : DisposableValidator ck)
    (elapsed : Int) : Validator :=
  { enabled := v.enabled, Validate := v.Validate lib elapsed }

/-- The wrapper `ValidatorAdapter` around a `RoleValidator`. -/
def RoleValidator.adapter (lib : Stdlib) (v : RoleValidator) (elapsed : Int) : Validator :=
  { enabled := v.enabled, Validate := v.Validate lib elapsed }

/-- The wrapper `ValidatorAdapter` around the `SyntaxValidator`. -/
def SyntaxValidator.adapter (lib : Stdlib) (enabled : Bool) (elapsed : Int) : Validator :=
  { enabled := enabled, Validate := SyntaxValidator.Validate lib elapsed }

/-- The cache and timeout settings of `DefaultConfig`: a cache of 1000 entries
kept for ten minutes. -/
def exampleConfig : Config :=
  { CacheSize := 1000, CacheTimeout := 600000000000, ValidationTimeout := 5000000000,
    MaxConcurrentValidations := 10 }

/-- A stand-in for the third-party cuckoo filter in the worked examples, which
run with `FalsePositiveRate = 0` and never build one. -/
def noCuckoo : CuckooLib :=
  { Filter := Unit
    NewFilter := fun _ _ _ => ()
    Add := fun _ _ => ((), false)
    Contain := fun _ _ => false }

/-- The list files of the worked examples: `mailinator.com` on the disposable
list, `admin` and `i` on the role list, three words on the ban list; any other
file cannot be opened. -/
def exampleFiles (filename : String) : FileRead :=
  if filename = "disposable.txt" then
    FileRead.lines ["# disposable providers", "Mailinator.com  # test", ""]
  else if filename = "roles.txt" then FileRead.lines ["admin", "i"]
  else if filename = "banwords.txt" then FileRead.lines ["spam", "xx", "pamela"]
  else FileRead.openError "open: no such file or directory"

/-- The disposable checker of the worked examples. -/
def exampleDisposable : DisposableValidator noCuckoo :=
  match NewDisposableValidator exampleStdlib noCuckoo exampleFiles "disposable.txt" 0 with
  | some (Except.ok v) => v
  | _ => { filter := Filter.exact NewMapFilter, enabled := false }

/-- The role checker of the worked examples. -/
def exampleRole : RoleValidator :=
  match NewRoleValidator exampleStdlib exampleFiles "roles.txt" with
  | Except.ok v => v
  | Except.error _ => { roleEmails := [], enabled := false }

/-- An engine with the syntax, disposable and role checkers registered and
enabled, `mailinator.com` on the disposable list, `admin` and `i` on the role
list, and an empty cache. -/
def exampleChecker : EmailChecker :=
  { config := exampleConfig
    validators :=
      [("syntax", SyntaxValidator.adapter exampleStdlib true 0),
       ("disposable", exampleDisposable.adapter exampleStdlib 0),
       ("role", exampleRole.adapter exampleStdlib 0)]
    cache := { size := 1000, items := [] } }

/-- A schedule in which every task gets a token and the reports arrive in
spawn order. -/
def exampleSched : Sched :=
  { acquire := fun _ => true, arrive := fun l => l, arrive_perm := fun l => List.Perm.refl l }

/-- A call whose four clock readings are all `t`. -/
def clockAt (t : Int) : Clock :=
  { start := t, probe := t, stamp := t, finish := t }

/-- The normalisation at the head of `CheckWithValidators`. -/
@[reducible] def normalizeEmail (lib : Stdlib) (email : String) : String :=
  ToLower lib (TrimSpace email)

/-- The cache key of a request. -/
@[reducible] def requestKey (lib : Stdlib) (email : String) (names : List String) : String :=
  buildCacheKey (normalizeEmail lib email) names

/-- The entry the syntax gate writes on a parse failure with message `msg`. -/
def syntaxRejection (msg : String) : ValidationResult :=
  { Valid := false, Message := "Invalid email syntax", Details := [], Duration := 0,
    Error := msg }

/-- The example engine after the request `("a@b.com", ["role"])` at time 0. -/
def checkerAfterRoleRequest : EmailChecker :=
  (CheckWithValidators exampleStdlib exampleChecker (clockAt 0) exampleSched
    "a@b.com" ["role"]).checker

/-- The example engine after the request `("admin@acme.com", ["syntax role"])`
at time 0; no checker is registered under the name `syntax role`. -/
def checkerAfterJoinedRequest : EmailChecker :=
  (CheckWithValidators exampleStdlib exampleChecker (clockAt 0) exampleSched
    "admin@acme.com" ["syntax role"]).checker

/-- The uppercase of a string under a rune-level uppercase mapping `upper`. -/
def uppercase (upper : Char → Char) (s : String) : String :=
  String.mk (s.data.map upper)

/-- The simple uppercase mapping of Unicode on the runes of the worked
examples: the ASCII letters, and U+0131 (dotless i), whose uppercase is `I`. -/
def exampleToUpper (c : Char) : Char :=
  if c = Char.ofNat 0x131 then 'I' else c.toUpper

/-- The `Valid` flag of the entry under `name`, when there is one. -/
def validFlag (results : List (String × ValidationResult)) (name : String) : Option Bool :=
  (mapGet results name).map ValidationResult.Valid

/-! ## Registry (`SetValidatorEnabled`) -/

/-- The method `SetValidatorEnabled`: the engine afterwards and the error, if
any. -/
def SetValidatorEnabled (e : EmailChecker) (name : String) (enabled : Bool) :
    EmailChecker × Option String :=
  match mapGet e.validators name with
  | none => (e, some ("validator " ++ name ++ " not found"))
  | some validator =>
    ({ e with validators := mapSet e.validators name { validator with enabled := enabled } },
      none)

/-! ## Network checkers (`internal/validators/mx.go`, `smtp.go`) -/

/-- The type `net.MX`; `Pref` is a `uint16`. -/
structure MX where
  Host : String
  Pref : Nat
deriving DecidableEq, Repr

/-- The answers of the `net.Resolver` during one call: `LookupMX` on a domain
and `LookupIPAddr` on a host, each an error message or the records (addresses
in their `String()` form). The resolver of the Go library, built here with
`PreferGo: true`, reports an answer without MX records as the error
`no such host`, so a lookup that returns no error returns at least one
record: `LookupMX_records`. -/
structure Resolver where
  LookupMX : String → Except String (List MX)
  LookupIPAddr : String → Except String (List String)
  LookupMX_records : ∀ domain records, LookupMX domain = Except.ok records → records ≠ []

/-- The comparator both `mx.go` and `smtp.go` hand to `sort.Slice`:
`mxRecords[i].Pref < mxRecords[j].Pref`. -/
def mxLess (a b : MX) : Bool :=
  decide (a.Pref < b.Pref)

/-- The function `sort.Slice` of the Go library on a slice of MX records, for
any comparator `less`: the slice afterwards. The library promises a
permutation of the slice and, for a comparator that is a strict weak order
(never `less` both ways, and `not less` transitive), that no element is `less`
than one before it; the sort is not stable, so the order of elements that
compare equal is not fixed. -/
structure SortSlice where
  Slice : (MX → MX → Bool) → List MX → List MX
  perm : ∀ less l, (Slice less l).Perm l
  sorted : ∀ less l, (∀ a b, less a b = true → less b a = false) →
    (∀ a b c, less b a = false → less c b = false → less c a = false) →
    (Slice less l).Pairwise fun a b => less b a = false

/-- The loop of `MXValidator.Validate` that fills `mxDetails`. -/
def mxDetailsOf (res : Resolver) (mxRecords : List MX) : List MXRecord :=
  mxRecords.map fun mx =>
    { Host := mx.Host
      Priority := mx.Pref
      IP :=
        match res.LookupIPAddr mx.Host with
        | Except.ok (ip :: _) => ip
        | _ => "" }

/-- The method `MXValidator.Validate`; `none` is the run-time panic of an index
out of range. -/
def MXValidator.Validate (lib : Stdlib) (res : Resolver) (srt : SortSlice) (elapsed : Int)
    (email : String) : Option ValidationResult :=
  let domain := extractDomain lib email
  match res.LookupMX domain with
  | Except.error err =>
    match res.LookupIPAddr domain with
    | Except.error _ =>
      some { Valid := false, Message := "No MX or A records found", Details := [],
             Duration := elapsed, Error := err }
    | Except.ok ips =>
      some { Valid := true
             Message := "No MX record, but domain has A record (implicit MX)"
             Details := [("implicit_mx", Detail.flag true), ("a_records", Detail.num ips.length)]
             Duration := elapsed
             Error := "" }
  | Except.ok mxRecords =>
    let mxRecords := srt.Slice mxLess mxRecords
    let mxDetails := mxDetailsOf res mxRecords
    match mxDetails[0]? with
    | none => none
    | some first =>
      some { Valid := true
             Message := "Valid MX records found"
             Details :=
               [("mx_records", Detail.mxRecords mxDetails),
                ("mx_count", Detail.num mxRecords.length),
                ("primary_mx", Detail.str first.Host)]
             Duration := elapsed
             Error := "" }

/-- The fields of `SMTPConfig` that `validateViaSMTP` branches on. -/
structure SMTPConfig where
  FromDomain : String
  FromEmail : String
  EnableVRFY : Bool
  EnableRCPT : Bool
deriving DecidableEq, Repr

/-- What `client.Rcpt(email)` returns: nil, a `*textproto.Error` with its code
and message, or another error with its text. -/
inductive RcptOutcome where
  | accepted
  | protocolError (code : Int) (msg : String)
  | otherError (text : String)
deriving DecidableEq, Repr

/-- The errors of the steps of one SMTP session before `RCPT TO` (`none` is
nil) and the outcome of `RCPT TO`. -/
structure SMTPSession where
  dial : Option String
  newClient : Option String
  hello : Option String
  mail : Option String
  rcpt : RcptOutcome
deriving DecidableEq, Repr

/-- The method `SMTPValidator.tryRCPT`. -/
def tryRCPT (outcome : RcptOutcome) : SMTPResponse :=
  let response : SMTPResponse :=
    { Code := 0, Message := "", CanReceive := false, IsMailbox := false, IsCatchAll := false }
  match outcome with
  | RcptOutcome.protocolError code msg =>
    let response := { response with Code := code, Message := msg }
    if code ≥ 200 ∧ code < 300 then { response with CanReceive := true, IsMailbox := true }
    else if code = 550 then
      { response with CanReceive := false, Message := "Mailbox does not exist" }
    else if code = 551 then { response with CanReceive := false, Message := "User not local" }
    else if code ≥ 400 ∧ code < 500 then
      { response with CanReceive := false, Message := "Temporary failure" }
    else { response with CanReceive := false }
  | RcptOutcome.otherError text =>
    { response with Code := 0, Message := text, CanReceive := false }
  | RcptOutcome.accepted =>
    { response with Code := 250, Message := "Recipient accepted", CanReceive := true,
                    IsMailbox := true }

/-- The method `SMTPValidator.validateViaSMTP`; `tryVRFY` returns nil. -/
def validateViaSMTP (config : SMTPConfig) (session : SMTPSession) : SMTPResponse :=
  let response : SMTPResponse :=
    { Code := 0, Message := "", CanReceive := false, IsMailbox := false, IsCatchAll := false }
  match session.dial with
  | some err => { response with Code := 0, Message := "Connection failed: " ++ err }
  | none =>
    match session.newClient with
    | some err => { response with Code := 0, Message := "SMTP client creation failed: " ++ err }
    | none =>
      match session.hello with
      | some err => { response with Code := 0, Message := "HELO failed: " ++ err }
      | none =>
        match session.mail with
        | some err => { response with Code := 0, Message := "MAIL FROM failed: " ++ err }
        | none =>
          if config.EnableRCPT then tryRCPT session.rcpt
          else
            { response with Code := 250, Message := "SMTP connection successful",
                            CanReceive := true }

/-- The method `SMTPValidator.Validate`; `session` is the session with the
primary MX. -/
def SMTPValidator.Validate (lib : Stdlib) (res : Resolver) (srt : SortSlice)
    (config : SMTPConfig) (session : SMTPSession) (elapsed : Int) (email : String) :
    ValidationResult :=
  let domain := extractDomain lib email
  match res.LookupMX domain with
  | Except.error err =>
    { Valid := false, Message := "Could not resolve MX records", Details := [],
      Duration := elapsed, Error := err }
  | Except.ok mxRecords =>
    match srt.Slice mxLess mxRecords with
    | [] =>
      { Valid := false, Message := "No MX records found", Details := [], Duration := elapsed,
        Error := "" }
    | primary :: _ =>
      let smtpResult := validateViaSMTP config session
      { Valid := smtpResult.CanReceive
        Message := smtpResult.Message
        Details := [("smtp_response", Detail.smtp smtpResult),
          ("mx_host", Detail.str primary.Host)]
        Duration := elapsed
        Error := "" }

/-! ## Batch summary (`cmd/server/utils.go`) -/

/-- The function `countValid`. -/
def countValid (results : List CheckResult) : Nat :=
  results.foldl (fun count result => if result.IsValid then count + 1 else count) 0

/-- One iteration of the loops of `countDisposable`, `countFree` and
`countRole`: `result.Summary` is a pointer, and reading a field through nil is
a run-time panic (`none`). -/
def countFlagStep (flag : CheckSummary → Bool) (count : Option Nat) (result : CheckResult) :
    Option Nat :=
  match count, result.Summary with
  | none, _ => none
  | some _, none => none
  | some n, some summary => if flag summary then some (n + 1) else some n

/-- The function `countDisposable`. -/
def countDisposable (results : List CheckResult) : Option Nat :=
  results.foldl (countFlagStep CheckSummary.IsDisposable) (some 0)

/-- The function `countFree`. -/
def countFree (results : List CheckResult) : Option Nat :=
  results.foldl (countFlagStep CheckSummary.IsFree) (some 0)

/-- The function `countRole`. -/
def countRole (results : List CheckResult) : Option Nat :=
  results.foldl (countFlagStep CheckSummary.IsRole) (some 0)

/-- The `summary` object of the response of `handleBatch`. -/
structure BatchSummary where
  total : Nat
  valid : Nat
  invalid : Int
  disposable : Nat
  free : Nat
  role : Nat
deriving DecidableEq, Repr

/-- The `summary` that `handleBatch` builds from the results; `none` when one
of the counting functions panics. -/
def batchSummary (results : List CheckResult) : Option BatchSummary :=
  match countDisposable results, countFree results, countRole results with
  | some d, some f, some r =>
    some { total := results.length, valid := countValid results,
           invalid := (results.length : Int) - countValid results,
           disposable := d, free := f, role := r }
  | _, _, _ => none

/-! ## The semaphore of `runValidators` as a transition system -/

/-- Where a task of `runValidators` stands: spawned and before its `select`,
holding a token and running its checker, skipped through the `default`
branch, or returned after its `Validate`. -/
inductive TaskPhase where
  | spawned
  | validating
  | skipped
  | finished
deriving DecidableEq, Repr

/-- The channel `e.semaphore` and the tasks of all requests in flight:
`capacity` is `MaxConcurrentValidations`, `tokens` the number of buffered
elements. -/
structure FanOut where
  capacity : Nat
  tokens : Nat
  tasks : List TaskPhase
deriving DecidableEq, Repr

/-- What can happen next: a task is spawned, task `i` executes its `select`,
or task `i` returns from `Validate` and its deferred receive runs. -/
inductive TaskEvent where
  | spawn
  | select (i : Nat)
  | exit (i : Nat)
deriving DecidableEq, Repr

/-- One step of the system; `none` when the event cannot happen in the state.
The `select` sends when the channel has room and takes `default` otherwise. -/
def FanOut.step (s : FanOut) (ev : TaskEvent) : Option FanOut :=
  match ev with
  | TaskEvent.spawn => some { s with tasks := s.tasks ++ [TaskPhase.spawned] }
  | TaskEvent.select i =>
    if s.tasks[i]? = some TaskPhase.spawned then
      if s.tokens < s.capacity then
        some { s with tokens := s.tokens + 1, tasks := s.tasks.set i TaskPhase.validating }
      else some { s with tasks := s.tasks.set i TaskPhase.skipped }
    else none
  | TaskEvent.exit i =>
    if s.tasks[i]? = some TaskPhase.validating then
      some { s with tokens := s.tokens - 1, tasks := s.tasks.set i TaskPhase.finished }
    else none

/-- The state after a sequence of events, when each can happen in turn. -/
def FanOut.run (s : FanOut) : List TaskEvent → Option FanOut
  | [] => some s
  | ev :: rest =>
    match s.step ev with
    | none => none
    | some next => next.run rest

/-- The engine at start: an empty semaphore of the configured capacity. -/
def FanOut.init (capacity : Nat) : FanOut :=
  { capacity := capacity, tokens := 0, tasks := [] }

/-- The field `semaphore` of the engine as `New` makes it:
`make(chan struct{}, config.MaxConcurrentValidations)`, empty. -/
def EmailChecker.semaphore (e : EmailChecker) : FanOut :=
  FanOut.init e.config.MaxConcurrentValidations

/-- Whether the task at position `i` of the system sent on the semaphore: it is
running its checker or has returned from it. -/
def FanOut.granted (s : FanOut) (i : Nat) : Bool :=
  match s.tasks[i]? with
  | some TaskPhase.validating => true
  | some TaskPhase.finished => true
  | _ => false

/-- The schedule of one call of `runValidators` inside a run of the system that
has reached the state `s`: the task the call spawned at position `i` is the
task `pos i` of the system and got a token exactly when that task sent on the
semaphore; the reports arrive in the order of `order`. -/
def Sched.ofRun (s : FanOut) (pos : Nat → Nat) (order : Sched) : Sched :=
  { acquire := fun i => s.granted (pos i)
    arrive := order.arrive
    arrive_perm := order.arrive_perm }

/-- The example engine with a semaphore of one token. -/
def oneTokenChecker : EmailChecker :=
  { exampleChecker with config := { exampleConfig with MaxConcurrentValidations := 1 } }

/-- A run of the three tasks of one request on the one-token engine: the first
task takes the token, the second finds the channel full, the first returns,
the third takes the token and returns. -/
def oneTokenRun : List TaskEvent :=
  [TaskEvent.spawn, TaskEvent.spawn, TaskEvent.spawn, TaskEvent.select 0, TaskEvent.select 1,
    TaskEvent.exit 0, TaskEvent.select 2, TaskEvent.exit 2]

/-- The state the one-token run ends in. -/
def oneTokenFinal : FanOut :=
  { capacity := 1, tokens := 0,
    tasks := [TaskPhase.finished, TaskPhase.skipped, TaskPhase.finished] }

/-- The request record `runValidators` fills for `a@b.com`. -/
def exampleRequest : CheckResult :=
  { Email := "a@b.com", Timestamp := 0, Duration := 0, Results := [], IsValid := false,
    Summary := none }

/-- An insertion sort by the comparator, as the `sort.Slice` of the worked
examples. -/
def exampleSortSlice : SortSlice :=
  { Slice := fun less => List.insertionSort fun a b => less b a = false
    perm := fun less l => List.perm_insertionSort _ l
    sorted := fun less l hasymm htrans =>
      have : IsTotal MX fun a b => less b a = false :=
        ⟨fun a b => by
          cases h : less b a with
          | false => exact Or.inl rfl
          | true => exact Or.inr (hasymm b a h)⟩
      have : IsTrans MX fun a b => less b a = false := ⟨fun a b c h1 h2 => htrans a b c h1 h2⟩
      List.sorted_insertionSort _ l }

/-- A resolver that knows two MX records for `acme.com`, the address of the
one of lower preference, and answers every other lookup with an error. -/
def exampleResolver : Resolver :=
  { LookupMX := fun domain =>
      if domain = "acme.com" then
        Except.ok [{ Host := "backup.acme.com.", Pref := 20 }, { Host := "mx.acme.com.", Pref := 10 }]
      else Except.error "lookup: no such host"
    LookupIPAddr := fun host =>
      if host = "mx.acme.com." then Except.ok ["192.0.2.1"]
      else Except.error "lookup: no such host"
    LookupMX_records := fun domain records h => by
      intro hnil
      subst hnil
      dsimp only at h
      split at h <;> cases h }

/-- The example engine after the request `("a@b.com", ["role"])` at time 0 and
a later `SetValidatorEnabled("role", false)`. -/
def checkerRoleDisabledAfterRequest : EmailChecker :=
  (SetValidatorEnabled checkerAfterRoleRequest "role" false).1

/-- A schedule in which the semaphore is full throughout: no task gets a
token; the reports arrive in spawn order. -/
def saturatedSched : Sched :=
  { acquire := fun _ => false, arrive := fun l => l, arrive_perm := fun l => List.Perm.refl l }

/-- List files that hold no item: a comment line and a blank line, whatever
the name. -/
def itemlessFiles (_filename : String) : FileRead :=
  FileRead.lines ["# no entries yet", ""]

/-! ## Lemmas on the aggregation loop -/

theorem foldl_summaryStep_valid (l : List (String × ValidationResult))
    (acc : Bool × CheckSummary) :
    (l.foldl summaryStep acc).1 = true ↔
      acc.1 = true ∧ ∀ entry ∈ l, entry.2.Valid = true := by
  induction l generalizing acc with
  | nil => simp
  | cons e l ih =>
    rw [List.foldl_cons, ih]
    cases hv : e.2.Valid <;> simp [summaryStep, hv]

/-- The three flags after one step of the loop. -/
theorem summaryStep_disposable (acc : Bool × CheckSummary) (e : String × ValidationResult) :
    (summaryStep acc e).2.IsDisposable =
      (acc.2.IsDisposable || (decide (e.1 = "disposable") && !e.2.Valid)) := by
  simp only [summaryStep]
  split_ifs <;> simp_all

theorem summaryStep_free (acc : Bool × CheckSummary) (e : String × ValidationResult) :
    (summaryStep acc e).2.IsFree =
      (acc.2.IsFree || (decide (e.1 = "free") && !e.2.Valid)) := by
  simp only [summaryStep]
  split_ifs <;> simp_all

theorem summaryStep_role (acc : Bool × CheckSummary) (e : String × ValidationResult) :
    (summaryStep acc e).2.IsRole =
      (acc.2.IsRole || (decide (e.1 = "role") && !e.2.Valid)) := by
  simp only [summaryStep]
  split_ifs <;> simp_all

theorem foldl_summaryStep_disposable (l : List (String × ValidationResult))
    (acc : Bool × CheckSummary) :
    (l.foldl summaryStep acc).2.IsDisposable = true ↔
      acc.2.IsDisposable = true ∨
        ∃ entry ∈ l, entry.1 = "disposable" ∧ entry.2.Valid = false := by
  induction l generalizing acc with
  | nil => simp
  | cons e l ih =>
    rw [List.foldl_cons, ih]
    rw [summaryStep_disposable]
    by_cases hn : e.1 = "disposable" <;> cases hv : e.2.Valid <;> simp [hn, hv]

theorem foldl_summaryStep_free (l : List (String × ValidationResult))
    (acc : Bool × CheckSummary) :
    (l.foldl summaryStep acc).2.IsFree = true ↔
      acc.2.IsFree = true ∨
        ∃ entry ∈ l, entry.1 = "free" ∧ entry.2.Valid = false := by
  induction l generalizing acc with
  | nil => simp
  | cons e l ih =>
    rw [List.foldl_cons, ih]
    rw [summaryStep_free]
    by_cases hn : e.1 = "free" <;> cases hv : e.2.Valid <;> simp [hn, hv]

theorem foldl_summaryStep_role (l : List (String × ValidationResult))
    (acc : Bool × CheckSummary) :
    (l.foldl summaryStep acc).2.IsRole = true ↔
      acc.2.IsRole = true ∨
        ∃ entry ∈ l, entry.1 = "role" ∧ entry.2.Valid = false := by
  induction l generalizing acc with
  | nil => simp
  | cons e l ih =>
    rw [List.foldl_cons, ih]
    rw [summaryStep_role]
    by_cases hn : e.1 = "role" <;> cases hv : e.2.Valid <;> simp [hn, hv]

/-- An entry under a name other than the three summary names leaves the
summary accumulator as it was. -/
theorem summaryStep_snd_of_not_summaryName (acc : Bool × CheckSummary)
    (e : String × ValidationResult) (h : isSummaryName e.1 = false) :
    (summaryStep acc e).2 = acc.2 := by
  simp [isSummaryName] at h
  simp [summaryStep, h]

/-- The summary accumulator after a step depends on the previous summary only. -/
theorem summaryStep_snd_congr (a b : Bool × CheckSummary) (e : String × ValidationResult)
    (h : a.2 = b.2) : (summaryStep a e).2 = (summaryStep b e).2 := by
  simp [summaryStep, h]

theorem foldl_summaryStep_filter (l : List (String × ValidationResult))
    (a b : Bool × CheckSummary) (h : a.2 = b.2) :
    (l.foldl summaryStep a).2 =
      ((l.filter fun e => isSummaryName e.1).foldl summaryStep b).2 := by
  induction l generalizing a b with
  | nil => simpa using h
  | cons e l ih =>
    cases hs : isSummaryName e.1
    · rw [List.foldl_cons, List.filter_cons_of_neg (by simp [hs])]
      exact ih _ _ ((summaryStep_snd_of_not_summaryName a e hs).trans h)
    · rw [List.foldl_cons, List.filter_cons_of_pos (by simp [hs]), List.foldl_cons]
      exact ih _ _ (summaryStep_snd_congr a b e h)

/-! ## Lemmas on maps -/

theorem mem_mapKeys_mapSet {β : Type} (m : List (String × β)) (k : String) (v : β)
    (n : String) : n ∈ mapKeys (mapSet m k v) ↔ n = k ∨ n ∈ mapKeys m := by
  induction m with
  | nil => simp [mapSet, mapKeys]
  | cons hd tl ih =>
    obtain ⟨k0, v0⟩ := hd
    simp only [mapKeys] at ih
    by_cases h : k0 = k
    · subst h
      simp [mapSet, mapKeys]
    · simp only [mapSet, h, if_false, mapKeys, List.map_cons, List.mem_cons, ih]
      tauto

theorem nodup_mapKeys_mapSet {β : Type} (m : List (String × β)) (k : String) (v : β)
    (h : (mapKeys m).Nodup) : (mapKeys (mapSet m k v)).Nodup := by
  induction m with
  | nil => simp [mapSet, mapKeys]
  | cons hd tl ih =>
    obtain ⟨k0, v0⟩ := hd
    have htl : (mapKeys tl).Nodup := by
      simp only [mapKeys, List.map_cons, List.nodup_cons] at h
      exact h.2
    have hk0 : k0 ∉ mapKeys tl := by
      simp only [mapKeys, List.map_cons, List.nodup_cons] at h
      exact h.1
    by_cases hk : k0 = k
    · subst hk
      simpa [mapSet, mapKeys] using h
    · have hmem := mem_mapKeys_mapSet tl k v k0
      have hnot : k0 ∉ mapKeys (mapSet tl k v) := by
        rw [hmem]
        tauto
      have ih2 := ih htl
      simp only [mapSet, hk, if_false]
      simp only [mapKeys, List.map_cons, List.nodup_cons] at hnot ih2 ⊢
      exact ⟨hnot, ih2⟩

theorem mapGet_eq_none_iff {β : Type} (m : List (String × β)) (k : String) :
    mapGet m k = none ↔ k ∉ mapKeys m := by
  induction m with
  | nil => simp [mapGet, mapKeys]
  | cons hd tl ih =>
    obtain ⟨k0, v0⟩ := hd
    simp only [mapKeys] at ih
    by_cases h : k0 = k
    · simp [mapGet, mapKeys, h]
    · have h2 : ¬ k = k0 := fun hh => h hh.symm
      simp [mapGet, mapKeys, h, h2, ih]

theorem mapGet_eq_some_iff {β : Type} (m : List (String × β)) (k : String) (v : β)
    (hnd : (mapKeys m).Nodup) : mapGet m k = some v ↔ (k, v) ∈ m := by
  induction m with
  | nil => simp [mapGet]
  | cons hd tl ih =>
    obtain ⟨k0, v0⟩ := hd
    simp only [mapKeys, List.map_cons, List.nodup_cons] at hnd
    have ih2 := ih hnd.2
    by_cases h : k0 = k
    · subst h
      have hno : ∀ w, (k0, w) ∉ tl := fun w hw => hnd.1 (List.mem_map_of_mem Prod.fst hw)
      simp only [mapGet, if_true, Option.some.injEq, List.mem_cons, Prod.mk.injEq, true_and]
      constructor
      · intro hv
        exact Or.inl hv.symm
      · rintro (hv | hv)
        · exact hv.symm
        · exact absurd hv (hno v)
    · have h2 : ¬ k = k0 := fun hh => h hh.symm
      simp [mapGet, h, h2, ih2]

theorem mem_mapKeys_mapDelete {β : Type} (m : List (String × β)) (k n : String) :
    n ∈ mapKeys (mapDelete m k) ↔ n ≠ k ∧ n ∈ mapKeys m := by
  induction m with
  | nil => simp [mapDelete, mapKeys]
  | cons hd tl ih =>
    obtain ⟨k0, v0⟩ := hd
    simp only [mapKeys] at ih
    by_cases hk : k0 = k
    · subst hk
      simp only [mapDelete, if_true, mapKeys, ih, List.map_cons, List.mem_cons]
      tauto
    · simp only [mapDelete, hk, if_false, mapKeys, List.map_cons, List.mem_cons, ih]
      constructor
      · rintro (h | h)
        · exact ⟨fun hh => hk (h ▸ hh), Or.inl h⟩
        · exact ⟨h.1, Or.inr h.2⟩
      · rintro ⟨h1, h2 | h2⟩
        · exact Or.inl h2
        · exact Or.inr ⟨h1, h2⟩

theorem mapDelete_eq_self {β : Type} (m : List (String × β)) (k : String)
    (h : mapGet m k = none) : mapDelete m k = m := by
  induction m with
  | nil => simp [mapDelete]
  | cons hd tl ih =>
    obtain ⟨k0, v0⟩ := hd
    by_cases hk : k0 = k
    · simp [mapGet, hk] at h
    · simp only [mapGet, hk, if_false] at h
      simp [mapDelete, hk, ih h]

theorem mapGet_mapDelete_self {β : Type} (m : List (String × β)) (k : String) :
    mapGet (mapDelete m k) k = none := by
  rw [mapGet_eq_none_iff, mem_mapKeys_mapDelete]
  simp

theorem mapDelete_mapDelete {β : Type} (m : List (String × β)) (k : String) :
    mapDelete (mapDelete m k) k = mapDelete m k :=
  mapDelete_eq_self _ _ (mapGet_mapDelete_self m k)

theorem mapGet_mapDelete_of_ne {β : Type} (m : List (String × β)) (k n : String)
    (h : n ≠ k) : mapGet (mapDelete m k) n = mapGet m n := by
  induction m with
  | nil => simp [mapDelete, mapGet]
  | cons hd tl ih =>
    obtain ⟨k0, v0⟩ := hd
    by_cases hk : k0 = k
    · subst hk
      have hne : ¬ k0 = n := fun hh => h hh.symm
      simp [mapDelete, mapGet, hne, ih]
    · by_cases hn : k0 = n
      · subst hn
        simp [mapDelete, mapGet, hk]
      · simp [mapDelete, mapGet, hk, hn, ih]

theorem mem_mapKeys_collect (reports m : List (String × ValidationResult)) (n : String) :
    n ∈ mapKeys (collect m reports) ↔ n ∈ mapKeys m ∨ n ∈ reports.map Prod.fst := by
  induction reports generalizing m with
  | nil => simp [collect]
  | cons r rs ih =>
    have ih2 := ih (mapSet m r.1 r.2)
    simp only [collect, List.foldl_cons] at ih2 ⊢
    rw [ih2, mem_mapKeys_mapSet]
    simp only [List.map_cons, List.mem_cons]
    tauto

theorem nodup_mapKeys_collect (reports m : List (String × ValidationResult))
    (h : (mapKeys m).Nodup) : (mapKeys (collect m reports)).Nodup := by
  induction reports generalizing m with
  | nil => simpa [collect] using h
  | cons r rs ih =>
    have ih2 := ih (mapSet m r.1 r.2) (nodup_mapKeys_mapSet m r.1 r.2 h)
    simpa [collect] using ih2

/-! ## Lemmas on the cache probe -/

/-- Without a fresh entry under the key, the call continues after the probe
with the key removed from the cache. -/
theorem CheckWithValidators_of_not_fresh (lib : Stdlib) (e : EmailChecker) (clk : Clock)
    (sched : Sched) (email : String) (names : List String)
    (h : cacheFresh e clk.probe
      (buildCacheKey (ToLower lib (TrimSpace email)) names) = false) :
    CheckWithValidators lib e clk sched email names =
      checkUncached lib
        { e with cache := e.cache.Remove (buildCacheKey (ToLower lib (TrimSpace email)) names) }
        clk sched (ToLower lib (TrimSpace email))
        (buildCacheKey (ToLower lib (TrimSpace email)) names) names := by
  simp only [CheckWithValidators, LRU.Get]
  simp only [cacheFresh] at h
  cases hget : mapGet e.cache.items (buildCacheKey (ToLower lib (TrimSpace email)) names) with
  | none =>
    simp only [LRU.Remove, mapDelete_eq_self _ _ hget]
  | some cached =>
    rw [hget] at h
    have hstale : ¬ (clk.probe - cached.Timestamp < e.config.CacheTimeout) := by
      simpa using h
    simp only [hstale, if_false, LRU.Remove]
    have hdel : mapDelete
        ((buildCacheKey (ToLower lib (TrimSpace email)) names, cached) ::
          mapDelete e.cache.items (buildCacheKey (ToLower lib (TrimSpace email)) names))
        (buildCacheKey (ToLower lib (TrimSpace email)) names) =
        mapDelete e.cache.items (buildCacheKey (ToLower lib (TrimSpace email)) names) := by
      simp [mapDelete, mapDelete_mapDelete]
    rw [hdel]

/-- With a fresh entry under the key, the call returns it and runs nothing. -/
theorem CheckWithValidators_of_fresh (lib : Stdlib) (e : EmailChecker) (clk : Clock)
    (sched : Sched) (email : String) (names : List String) (cached : CheckResult)
    (hget : mapGet e.cache.items
      (buildCacheKey (ToLower lib (TrimSpace email)) names) = some cached)
    (hage : clk.probe - cached.Timestamp < e.config.CacheTimeout) :
    (CheckWithValidators lib e clk sched email names).result = cached ∧
      (CheckWithValidators lib e clk sched email names).invoked = [] := by
  simp [CheckWithValidators, LRU.Get, hget, hage]

/-- The result of the path after the probe when the parser rejects. -/
theorem checkUncached_of_error (lib : Stdlib) (e : EmailChecker) (clk : Clock)
    (sched : Sched) (email key : String) (names : List String) (msg : String)
    (h : lib.ParseAddress email = Except.error msg) :
    checkUncached lib e clk sched email key names =
      { result :=
          { Email := email, Timestamp := clk.stamp, Duration := clk.finish - clk.start,
            Results := [("syntax",
              { Valid := false, Message := "Invalid email syntax", Details := [],
                Duration := 0, Error := msg })],
            IsValid := false, Summary := none }
        checker := e
        invoked := [] } := by
  simp [checkUncached, h, mapSet]

/-- A call that finds no fresh entry and whose input the parser rejects. -/
theorem CheckWithValidators_of_rejected (lib : Stdlib) (e : EmailChecker) (clk : Clock)
    (sched : Sched) (email : String) (names : List String) (msg : String)
    (hparse : lib.ParseAddress (normalizeEmail lib email) = Except.error msg)
    (hmiss : cacheFresh e clk.probe (requestKey lib email names) = false) :
    CheckWithValidators lib e clk sched email names =
      { result :=
          { Email := normalizeEmail lib email, Timestamp := clk.stamp,
            Duration := clk.finish - clk.start,
            Results := [("syntax", syntaxRejection msg)],
            IsValid := false, Summary := none }
        checker := { e with cache := e.cache.Remove (requestKey lib email names) }
        invoked := [] } := by
  rw [CheckWithValidators_of_not_fresh lib e clk sched email names hmiss,
    checkUncached_of_error _ _ _ _ _ _ _ msg hparse]
  rfl

/-! ## Claims on `calculateSummary` -/

/-- C1: for every results map (the empty one included), `calculateSummary`
sets `IsValid` to true exactly when every entry present in `Results` has
`Valid = true`. -/
theorem calculateSummary_isValid_iff (result : CheckResult) :
    (calculateSummary result).IsValid = true ↔
      ∀ entry ∈ result.Results, entry.2.Valid = true := by
  simp [calculateSummary, summaryLoop, foldl_summaryStep_valid]

/-- C2: after `calculateSummary` the summary is present, each of its three
flags is true exactly when `Results` holds an entry under the matching name
whose `Valid` is false, and dropping every entry under another name leaves the
summary unchanged. -/
theorem calculateSummary_flags_iff (result : CheckResult) :
    ∃ s, (calculateSummary result).Summary = some s ∧
      (s.IsDisposable = true ↔
        ∃ entry ∈ result.Results, entry.1 = "disposable" ∧ entry.2.Valid = false) ∧
      (s.IsFree = true ↔
        ∃ entry ∈ result.Results, entry.1 = "free" ∧ entry.2.Valid = false) ∧
      (s.IsRole = true ↔
        ∃ entry ∈ result.Results, entry.1 = "role" ∧ entry.2.Valid = false) ∧
      (calculateSummary
        { result with Results := result.Results.filter fun e => isSummaryName e.1 }).Summary
        = some s := by
  refine ⟨(summaryLoop result.Results).2, rfl, ?_, ?_, ?_, ?_⟩
  · simp [summaryLoop, foldl_summaryStep_disposable]
  · simp [summaryLoop, foldl_summaryStep_free]
  · simp [summaryLoop, foldl_summaryStep_role]
  · simp only [calculateSummary, summaryLoop]
    exact congrArg some (foldl_summaryStep_filter _ _ _ rfl).symm

/-! ## Claims on the syntax gate and the cache -/

theorem mapGet_LRU_Add (c : LRU) (key : String) (value : CheckResult) (h : 0 < c.size) :
    mapGet (c.Add key value).items key = some value := by
  unfold LRU.Add
  cases hget : mapGet c.items key with
  | some v => simp [mapGet]
  | none =>
    simp only
    split
    · rename_i hlen
      cases hitems : c.items with
      | nil =>
        rw [hitems] at hlen
        simp at hlen
        omega
      | cons a l => simp [List.dropLast, mapGet]
    · simp [mapGet]

/-- C3 (counterexample): after the request `("a@b.com", ["role"])` the cache
holds its result under the key `a@b.com:[role]`; the address `a@b.com:[role]`
is rejected by the parser, yet a `Check` of it five nanoseconds later returns
the cached result, keyed `role`, with `IsValid = true` and a summary. -/
theorem syntax_gate_behind_cache_hit :
    (∃ msg, exampleStdlib.ParseAddress (normalizeEmail exampleStdlib "a@b.com:[role]") =
        Except.error msg) ∧
      mapKeys (Check exampleStdlib checkerAfterRoleRequest (clockAt 5) exampleSched
        "a@b.com:[role]").result.Results = ["role"] ∧
      (Check exampleStdlib checkerAfterRoleRequest (clockAt 5) exampleSched
        "a@b.com:[role]").result.IsValid = true ∧
      (Check exampleStdlib checkerAfterRoleRequest (clockAt 5) exampleSched
        "a@b.com:[role]").result.Summary ≠ none := by
  refine ⟨⟨_, rfl⟩, by decide, by decide, by decide⟩

/-- C3 (amended): when the parser rejects the normalized input and the cache
holds no unexpired entry under the request's key, `CheckWithValidators`
returns a result whose map is the single entry `syntax` with `Valid = false`
and the parser's message, with `IsValid = false` and no summary, for every
checker selection. -/
theorem CheckWithValidators_syntax_rejected (lib : Stdlib) (e : EmailChecker) (clk : Clock)
    (sched : Sched) (email : String) (names : List String) (msg : String)
    (hparse : lib.ParseAddress (normalizeEmail lib email) = Except.error msg)
    (hmiss : cacheFresh e clk.probe (requestKey lib email names) = false) :
    (CheckWithValidators lib e clk sched email names).result.Results =
        [("syntax", syntaxRejection msg)] ∧
      (CheckWithValidators lib e clk sched email names).result.IsValid = false ∧
      (CheckWithValidators lib e clk sched email names).result.Summary = none := by
  rw [CheckWithValidators_of_rejected lib e clk sched email names msg hparse hmiss]
  exact ⟨rfl, rfl, rfl⟩

theorem CheckWithValidators_syntax_rejected_witness :
    (CheckWithValidators exampleStdlib exampleChecker (clockAt 0) exampleSched
        "not-an-email" ["role"]).result.Results =
        [("syntax", syntaxRejection "mail: missing '@' or angle-addr")] ∧
      (CheckWithValidators exampleStdlib exampleChecker (clockAt 0) exampleSched
        "not-an-email" ["role"]).result.IsValid = false ∧
      (CheckWithValidators exampleStdlib exampleChecker (clockAt 0) exampleSched
        "not-an-email" ["role"]).result.Summary = none :=
  CheckWithValidators_syntax_rejected exampleStdlib exampleChecker (clockAt 0) exampleSched
    "not-an-email" ["role"] "mail: missing '@' or angle-addr" rfl rfl

/-- C4 (counterexample): the cache holds the result of `("a@b.com", ["role"])`
under `a@b.com:[role]`; a `Check` of the address `a@b.com:[role]` after the
entry expired is rejected by the syntax gate and leaves the cache without
that entry. -/
theorem syntax_rejection_drops_expired_entry :
    mapKeys checkerAfterRoleRequest.cache.items = ["a@b.com:[role]"] ∧
      mapKeys (Check exampleStdlib checkerAfterRoleRequest (clockAt 700000000000)
        exampleSched "a@b.com:[role]").result.Results = ["syntax"] ∧
      mapKeys (Check exampleStdlib checkerAfterRoleRequest (clockAt 700000000000)
        exampleSched "a@b.com:[role]").checker.cache.items = [] := by
  refine ⟨by decide, by decide, by decide⟩

/-- C4 (amended): a call rejected by the syntax gate adds no entry to the
cache. The cache afterwards is the cache before without the request's own
key (whose entry, if there was one, had expired); entries under other keys
keep their values, a cache without an entry under the key is left as it was,
and a second identical call is rejected by the syntax gate again. -/
theorem syntax_rejection_cache_frame (lib : Stdlib) (e : EmailChecker) (clk : Clock)
    (sched : Sched) (email : String) (names : List String) (msg : String)
    (hparse : lib.ParseAddress (normalizeEmail lib email) = Except.error msg)
    (hmiss : cacheFresh e clk.probe (requestKey lib email names) = false) :
    (CheckWithValidators lib e clk sched email names).checker.cache.items =
        mapDelete e.cache.items (requestKey lib email names) ∧
      (CheckWithValidators lib e clk sched email names).checker.cache.size = e.cache.size ∧
      (∀ key, key ≠ requestKey lib email names →
        mapGet (CheckWithValidators lib e clk sched email names).checker.cache.items key =
          mapGet e.cache.items key) ∧
      (mapGet e.cache.items (requestKey lib email names) = none →
        (CheckWithValidators lib e clk sched email names).checker.cache = e.cache) ∧
      (∀ (clk2 : Clock) (sched2 : Sched),
        (CheckWithValidators lib (CheckWithValidators lib e clk sched email names).checker
          clk2 sched2 email names).result.Results = [("syntax", syntaxRejection msg)]) := by
  rw [CheckWithValidators_of_rejected lib e clk sched email names msg hparse hmiss]
  refine ⟨rfl, rfl, ?_, ?_, ?_⟩
  · intro key hkey
    exact mapGet_mapDelete_of_ne _ _ _ hkey
  · intro hnone
    simp only [LRU.Remove, mapDelete_eq_self _ _ hnone]
  · intro clk2 sched2
    rw [CheckWithValidators_of_rejected lib _ clk2 sched2 email names msg hparse
      (by simp [cacheFresh, LRU.Remove, mapGet_mapDelete_self])]

theorem syntax_rejection_cache_frame_witness :
    (CheckWithValidators exampleStdlib checkerAfterRoleRequest (clockAt 5) exampleSched
        "not-an-email" []).checker.cache.items =
        mapDelete checkerAfterRoleRequest.cache.items
          (requestKey exampleStdlib "not-an-email" []) ∧
      (CheckWithValidators exampleStdlib checkerAfterRoleRequest (clockAt 5) exampleSched
        "not-an-email" []).checker.cache = checkerAfterRoleRequest.cache :=
  ⟨(syntax_rejection_cache_frame exampleStdlib checkerAfterRoleRequest (clockAt 5)
      exampleSched "not-an-email" [] "mail: missing '@' or angle-addr" rfl rfl).1,
    (syntax_rejection_cache_frame exampleStdlib checkerAfterRoleRequest (clockAt 5)
      exampleSched "not-an-email" [] "mail: missing '@' or angle-addr" rfl rfl).2.2.2.1 rfl⟩

/-- C7: when `CheckWithValidators` computes a result for a key (the parser
accepts, no fresh entry is cached) the result is stored under that key, and
every later call with the same key, made on an engine whose cache still holds
that entry and at a clock reading at which its age is below `CacheTimeout`,
returns that very `CheckResult` and invokes no checker. -/
theorem cache_hit_returns_cached_result (lib : Stdlib) (e : EmailChecker) (clk : Clock)
    (sched : Sched) (email : String) (names : List String) (addr : MailAddress)
    (e2 : EmailChecker) (clk2 : Clock) (sched2 : Sched) (email2 : String)
    (names2 : List String)
    (hsize : 0 < e.cache.size)
    (hparse : lib.ParseAddress (normalizeEmail lib email) = Except.ok addr)
    (hmiss : cacheFresh e clk.probe (requestKey lib email names) = false)
    (hkey : requestKey lib email2 names2 = requestKey lib email names)
    (hstill : mapGet e2.cache.items (requestKey lib email names) =
      some (CheckWithValidators lib e clk sched email names).result)
    (hage : clk2.probe - (CheckWithValidators lib e clk sched email names).result.Timestamp
      < e2.config.CacheTimeout) :
    mapGet (CheckWithValidators lib e clk sched email names).checker.cache.items
        (requestKey lib email names) =
        some (CheckWithValidators lib e clk sched email names).result ∧
      (CheckWithValidators lib e2 clk2 sched2 email2 names2).result =
        (CheckWithValidators lib e clk sched email names).result ∧
      (CheckWithValidators lib e2 clk2 sched2 email2 names2).invoked = [] := by
  refine ⟨?_, ?_⟩
  · rw [CheckWithValidators_of_not_fresh lib e clk sched email names hmiss]
    simp only [checkUncached, hparse]
    exact mapGet_LRU_Add _ _ _ hsize
  · rw [← hkey] at hstill
    exact CheckWithValidators_of_fresh lib e2 clk2 sched2 email2 names2 _ hstill hage

theorem cache_hit_returns_cached_result_witness :
    (CheckWithValidators exampleStdlib
        (CheckWithValidators exampleStdlib exampleChecker (clockAt 0) exampleSched
          "bob@mailinator.com" []).checker
        (clockAt 5) exampleSched " Bob@Mailinator.COM" []).result =
        (CheckWithValidators exampleStdlib exampleChecker (clockAt 0) exampleSched
          "bob@mailinator.com" []).result ∧
      (CheckWithValidators exampleStdlib
        (CheckWithValidators exampleStdlib exampleChecker (clockAt 0) exampleSched
          "bob@mailinator.com" []).checker
        (clockAt 5) exampleSched " Bob@Mailinator.COM" []).invoked = [] :=
  (cache_hit_returns_cached_result exampleStdlib exampleChecker (clockAt 0) exampleSched
    "bob@mailinator.com" [] { Name := "", Address := "bob@mailinator.com" }
    (CheckWithValidators exampleStdlib exampleChecker (clockAt 0) exampleSched
      "bob@mailinator.com" []).checker
    (clockAt 5) exampleSched " Bob@Mailinator.COM" []
    (by decide) rfl rfl (by decide) (by decide) (by decide)).2

/-! ## Claims on the selection of checkers -/

theorem runTask_fst (sched : Sched) (email : String) (task : Nat × String × Validator) :
    (runTask sched email task).1 = task.2.1 := by
  unfold runTask
  split <;> rfl

theorem reports_keys (sched : Sched) (email : String) (tasks : List (String × Validator)) :
    (tasks.enum.map (runTask sched email)).map Prod.fst = tasks.map Prod.fst := by
  rw [List.map_map]
  have hfun : (Prod.fst ∘ runTask sched email) =
      (Prod.fst ∘ (Prod.snd : Nat × String × Validator → String × Validator)) := by
    funext task
    exact runTask_fst sched email task
  rw [hfun, ← List.map_map, List.enum_map_snd]

theorem mem_spawnedTasks_keys (e : EmailChecker) (l : List String) (n : String) :
    n ∈ (spawnedTasks e l).map Prod.fst ↔
      n ∈ l ∧ ∃ v, mapGet e.validators n = some v ∧ v.enabled = true := by
  simp only [spawnedTasks, List.mem_map, List.mem_filterMap]
  constructor
  · rintro ⟨⟨k, v⟩, ⟨a, ha, hsome⟩, hk⟩
    cases hget : mapGet e.validators a with
    | none => simp [hget] at hsome
    | some w =>
      rw [hget] at hsome
      by_cases hen : w.enabled = true
      · simp only [hen, if_true, Option.some.injEq, Prod.mk.injEq] at hsome
        obtain ⟨h1, h2⟩ := hsome
        simp only at hk
        subst hk
        subst h1
        exact ⟨ha, w, hget, hen⟩
      · simp [hen] at hsome
  · rintro ⟨hn, v, hget, hen⟩
    exact ⟨(n, v), ⟨n, hn, by simp [hget, hen]⟩, rfl⟩

theorem mem_getValidatorsToRun (e : EmailChecker) (requested : List String) (n : String)
    (hnd : (mapKeys e.validators).Nodup) :
    n ∈ getValidatorsToRun e requested ↔
      (∃ v, (n, v) ∈ e.validators ∧ v.enabled = true) ∧ (requested = [] ∨ n ∈ requested) := by
  unfold getValidatorsToRun
  cases requested with
  | nil =>
    simp only [List.length_nil, if_true, List.mem_map, List.mem_filter, true_or, and_true]
    constructor
    · rintro ⟨⟨k, v⟩, ⟨hmem, hen⟩, hk⟩
      simp only at hk
      subst hk
      exact ⟨v, hmem, hen⟩
    · rintro ⟨v, hmem, hen⟩
      exact ⟨(n, v), ⟨hmem, hen⟩, rfl⟩
  | cons a l =>
    simp only [List.length_cons, Nat.succ_ne_zero, if_false, List.mem_filter,
      false_or, reduceCtorEq]
    constructor
    · rintro ⟨hmem, hen⟩
      cases hget : mapGet e.validators n with
      | none => simp [hget] at hen
      | some v =>
        rw [hget] at hen
        exact ⟨⟨v, (mapGet_eq_some_iff _ _ _ hnd).1 hget, hen⟩, hmem⟩
    · rintro ⟨⟨v, hv, hen⟩, hmem⟩
      refine ⟨hmem, ?_⟩
      rw [(mapGet_eq_some_iff _ _ _ hnd).2 hv]
      exact hen

/-- The results map on the path after the probe, when the parser accepts. -/
theorem checkUncached_results_of_ok (lib : Stdlib) (e : EmailChecker) (clk : Clock)
    (sched : Sched) (email key : String) (names : List String) (addr : MailAddress)
    (h : lib.ParseAddress email = Except.ok addr) :
    (checkUncached lib e clk sched email key names).result.Results =
      collect []
        (sched.arrive
          ((spawnedTasks e (getValidatorsToRun e names)).enum.map (runTask sched email))) := by
  simp [checkUncached, h, runValidators, calculateSummary]

/-- C5: for an address the parser accepts and a call that finds no fresh
cached entry, the results map has one entry per name of the effective
selection and no other: a name is a key exactly when it is registered and
enabled and, for a non-empty request, among the requested names. -/
theorem results_keys_eq_effective_selection (lib : Stdlib) (e : EmailChecker) (clk : Clock)
    (sched : Sched) (email : String) (names : List String) (addr : MailAddress)
    (hnd : (mapKeys e.validators).Nodup)
    (hparse : lib.ParseAddress (normalizeEmail lib email) = Except.ok addr)
    (hmiss : cacheFresh e clk.probe (requestKey lib email names) = false) :
    (mapKeys (CheckWithValidators lib e clk sched email names).result.Results).Nodup ∧
      ∀ n, n ∈ mapKeys (CheckWithValidators lib e clk sched email names).result.Results ↔
        (∃ v, (n, v) ∈ e.validators ∧ v.enabled = true) ∧ (names = [] ∨ n ∈ names) := by
  rw [CheckWithValidators_of_not_fresh lib e clk sched email names hmiss,
    checkUncached_results_of_ok _ _ _ _ _ _ _ addr hparse]
  refine ⟨nodup_mapKeys_collect _ _ (by simp [mapKeys]), ?_⟩
  intro n
  rw [mem_mapKeys_collect, (sched.arrive_perm _).map Prod.fst |>.mem_iff, reports_keys,
    mem_spawnedTasks_keys]
  have hsel := mem_getValidatorsToRun
    { e with cache := e.cache.Remove (requestKey lib email names) } names n hnd
  simp only at hsel ⊢
  rw [hsel]
  simp only [mapKeys, List.map_nil, List.not_mem_nil, false_or]
  constructor
  · rintro ⟨h, _⟩
    exact h
  · rintro ⟨⟨v, hv, hen⟩, hreq⟩
    exact ⟨⟨⟨v, hv, hen⟩, hreq⟩, v, (mapGet_eq_some_iff _ _ _ hnd).2 hv, hen⟩

theorem results_keys_eq_effective_selection_witness :
    (mapKeys (CheckWithValidators exampleStdlib exampleChecker (clockAt 0)
        exampleSched "bob@mailinator.com" ["role", "mx", "disposable"]).result.Results).Nodup ∧
      ("mx" ∈ mapKeys (CheckWithValidators exampleStdlib exampleChecker (clockAt 0)
          exampleSched "bob@mailinator.com" ["role", "mx", "disposable"]).result.Results ↔
        (∃ v, ("mx", v) ∈ exampleChecker.validators ∧ v.enabled = true) ∧
          ((["role", "mx", "disposable"] : List String) = [] ∨
            "mx" ∈ (["role", "mx", "disposable"] : List String))) :=
  ⟨(results_keys_eq_effective_selection exampleStdlib exampleChecker (clockAt 0) exampleSched
      "bob@mailinator.com" ["role", "mx", "disposable"]
      { Name := "", Address := "bob@mailinator.com" } (by decide) rfl rfl).1,
    (results_keys_eq_effective_selection exampleStdlib exampleChecker (clockAt 0) exampleSched
      "bob@mailinator.com" ["role", "mx", "disposable"]
      { Name := "", Address := "bob@mailinator.com" } (by decide) rfl rfl).2 "mx"⟩

/-! ## Claims on the cache key -/

theorem joinSpace_data (l : List String) :
    (joinSpace l).data = [' '].intercalate (l.map String.data) := by
  induction l with
  | nil => rfl
  | cons a tl ih =>
    cases tl with
    | nil => simp [joinSpace, List.intercalate]
    | cons b rest =>
      simp only [joinSpace, String.data_append, ih]
      simp [List.intercalate, List.intersperse]

theorem joinSpace_injective (xs ys : List String) (hx : xs ≠ []) (hy : ys ≠ [])
    (hxs : ∀ n ∈ xs, ' ' ∉ n.data) (hys : ∀ n ∈ ys, ' ' ∉ n.data)
    (h : joinSpace xs = joinSpace ys) : xs = ys := by
  have hd : [' '].intercalate (xs.map String.data) = [' '].intercalate (ys.map String.data) := by
    rw [← joinSpace_data, ← joinSpace_data, h]
  have hsx : ([' '].intercalate (xs.map String.data)).splitOn ' ' = xs.map String.data :=
    List.splitOn_intercalate (xs.map String.data) ' '
      (by
        intro l hl
        obtain ⟨n, hn, rfl⟩ := List.mem_map.1 hl
        exact hxs n hn)
      (by simpa using hx)
  have hsy : ([' '].intercalate (ys.map String.data)).splitOn ' ' = ys.map String.data :=
    List.splitOn_intercalate (ys.map String.data) ' '
      (by
        intro l hl
        obtain ⟨n, hn, rfl⟩ := List.mem_map.1 hl
        exact hys n hn)
      (by simpa using hy)
  rw [hd, hsy] at hsx
  have hinj : Function.Injective String.data := fun a b hab => String.ext hab
  exact (List.map_injective_iff.2 hinj hsx).symm

/-- C8 (counterexample): the selections `["mx", "smtp"]` and `["smtp", "mx"]`
hold the same names in a different order and get different keys. -/
theorem buildCacheKey_depends_on_order :
    (["mx", "smtp"] : List String).Perm ["smtp", "mx"] ∧
      buildCacheKey "a@b.com" ["mx", "smtp"] = "a@b.com:[mx smtp]" ∧
      buildCacheKey "a@b.com" ["smtp", "mx"] = "a@b.com:[smtp mx]" ∧
      buildCacheKey "a@b.com" ["mx", "smtp"] ≠ buildCacheKey "a@b.com" ["smtp", "mx"] :=
  ⟨List.Perm.swap _ _ _, by decide, by decide, by decide⟩

/-- C8 (amended): for every normalized address and every two non-empty
selections of names without a space, `buildCacheKey` returns the same key
exactly when the two selections list the same names in the same order: the
selection is appended after `:` as given, without canonicalization. -/
theorem buildCacheKey_eq_iff_same_list (email : String) (xs ys : List String)
    (hx : xs ≠ []) (hy : ys ≠ [])
    (hxs : ∀ n ∈ xs, ' ' ∉ n.data) (hys : ∀ n ∈ ys, ' ' ∉ n.data) :
    buildCacheKey email xs = buildCacheKey email ys ↔ xs = ys := by
  constructor
  · intro h
    have hlx : xs.length ≠ 0 := by simpa using hx
    have hly : ys.length ≠ 0 := by simpa using hy
    simp only [buildCacheKey, hlx, hly, if_false, formatNames] at h
    have hdata := congrArg String.data h
    simp only [String.data_append, List.append_assoc, List.append_cancel_left_eq,
      List.append_cancel_right_eq] at hdata
    exact joinSpace_injective xs ys hx hy hxs hys (String.ext hdata)
  · intro h
    rw [h]

theorem buildCacheKey_eq_iff_same_list_witness :
    buildCacheKey "a@b.com" ["mx", "smtp"] = buildCacheKey "a@b.com" ["smtp", "mx"] ↔
      (["mx", "smtp"] : List String) = ["smtp", "mx"] :=
  buildCacheKey_eq_iff_same_list "a@b.com" ["mx", "smtp"] ["smtp", "mx"]
    (by decide) (by decide) (by decide) (by decide)

/-- C9 (evaluation of the code): three requests that differ in the address or
in the set of selected names and get the same cache key; and the result the
engine cached for `("admin@acme.com", ["syntax role"])`, which ran no checker,
is what it returns for `("admin@acme.com", ["syntax", "role"])`, while an
engine with an empty cache reports the role address as invalid. -/
theorem buildCacheKey_collisions :
    buildCacheKey "a@b.com" ["mx smtp"] = buildCacheKey "a@b.com" ["mx", "smtp"] ∧
      buildCacheKey "a@b.com:[role]" [] = buildCacheKey "a@b.com" ["role"] ∧
      buildCacheKey "admin@acme.com" ["syntax role"] =
        buildCacheKey "admin@acme.com" ["syntax", "role"] ∧
      (CheckWithValidators exampleStdlib checkerAfterJoinedRequest (clockAt 5) exampleSched
        "admin@acme.com" ["syntax", "role"]).result.Results = [] ∧
      (CheckWithValidators exampleStdlib checkerAfterJoinedRequest (clockAt 5) exampleSched
        "admin@acme.com" ["syntax", "role"]).result.IsValid = true ∧
      mapKeys (CheckWithValidators exampleStdlib exampleChecker (clockAt 5) exampleSched
        "admin@acme.com" ["syntax", "role"]).result.Results = ["syntax", "role"] ∧
      (CheckWithValidators exampleStdlib exampleChecker (clockAt 5) exampleSched
        "admin@acme.com" ["syntax", "role"]).result.IsValid = false := by
  refine ⟨by decide, by decide, by decide, by decide, by decide, by decide, by decide⟩

/-! ## Claims on normalisation -/

theorem dropWhile_map_of_agree (p : Char → Bool) (f : Char → Char) (l : List Char)
    (h : ∀ c ∈ l, p (f c) = p c) : (l.map f).dropWhile p = (l.dropWhile p).map f := by
  induction l with
  | nil => rfl
  | cons a tl ih =>
    have ha : p (f a) = p a := h a (List.mem_cons_self _ _)
    have htl : ∀ c ∈ tl, p (f c) = p c := fun c hc => h c (List.mem_cons_of_mem _ hc)
    cases hp : p a
    · simp [List.dropWhile, ha, hp]
    · simp [List.dropWhile, ha, hp, ih htl]

theorem TrimSpace_uppercase (upper : Char → Char) (s : String)
    (h : ∀ c ∈ s.data, isSpace (upper c) = isSpace c) :
    TrimSpace (uppercase upper s) = uppercase upper (TrimSpace s) := by
  apply String.ext
  simp only [TrimSpace, uppercase]
  rw [dropWhile_map_of_agree isSpace upper s.data h, ← List.map_reverse,
    dropWhile_map_of_agree isSpace upper, ← List.map_reverse]
  intro c hc
  exact h c ((List.dropWhile_sublist isSpace).subset (List.mem_reverse.1 hc))

theorem mem_TrimSpace_data (s : String) (c : Char) (hc : c ∈ (TrimSpace s).data) :
    c ∈ s.data := by
  simp only [TrimSpace, List.mem_reverse] at hc
  exact (List.dropWhile_sublist isSpace).subset
    (List.mem_reverse.1 ((List.dropWhile_sublist isSpace).subset hc))

theorem normalizeEmail_uppercase (lib : Stdlib) (upper : Char → Char) (email : String)
    (h : ∀ c ∈ email.data,
      lib.unicodeToLower (upper c) = lib.unicodeToLower c ∧ isSpace (upper c) = isSpace c) :
    normalizeEmail lib (uppercase upper email) = normalizeEmail lib email := by
  simp only [normalizeEmail]
  rw [TrimSpace_uppercase upper email fun c hc => (h c hc).2]
  apply String.ext
  simp only [ToLower, uppercase, List.map_map]
  apply List.map_congr_left
  intro c hc
  exact (h c (mem_TrimSpace_data email c hc)).1

/-- C6 (counterexample): the uppercase of `ı@x.com` is `I@X.COM`, which is
normalized to `i@x.com`; with `i` on the role list the role entry of
`Check("ı@x.com")` is valid and that of `Check("I@X.COM")` is not. -/
theorem Check_uppercase_changes_valid :
    uppercase exampleToUpper "ı@x.com" = "I@X.COM" ∧
      validFlag (Check exampleStdlib exampleChecker (clockAt 0) exampleSched
        "ı@x.com").result.Results "role" = some true ∧
      validFlag (Check exampleStdlib exampleChecker (clockAt 0) exampleSched
        (uppercase exampleToUpper "ı@x.com")).result.Results "role" = some false := by
  refine ⟨by decide, by decide, by decide⟩

/-- C6 (amended): for every address each of whose runes `c` is lowered to the
same rune as its uppercase and is white space exactly when its uppercase is
(every ASCII address), and for every engine state, clock and schedule,
`Check(e)` and `Check(uppercase(e))` return the same `CheckResult`: the same
key set and the same `Valid` flag under every key. -/
theorem Check_uppercase_eq (lib : Stdlib) (e : EmailChecker) (clk : Clock) (sched : Sched)
    (upper : Char → Char) (email : String)
    (h : ∀ c ∈ email.data,
      lib.unicodeToLower (upper c) = lib.unicodeToLower c ∧ isSpace (upper c) = isSpace c) :
    (Check lib e clk sched (uppercase upper email)).result =
        (Check lib e clk sched email).result ∧
      mapKeys (Check lib e clk sched (uppercase upper email)).result.Results =
        mapKeys (Check lib e clk sched email).result.Results ∧
      ∀ name, validFlag (Check lib e clk sched (uppercase upper email)).result.Results name =
        validFlag (Check lib e clk sched email).result.Results name := by
  have hcall : Check lib e clk sched (uppercase upper email) = Check lib e clk sched email := by
    have hn := normalizeEmail_uppercase lib upper email h
    simp only [normalizeEmail] at hn
    simp only [Check, CheckWithValidators, hn]
  rw [hcall]
  exact ⟨rfl, rfl, fun _ => rfl⟩

theorem Check_uppercase_eq_witness :
    (Check exampleStdlib exampleChecker (clockAt 0) exampleSched
        (uppercase exampleToUpper "Alice@Example.com")).result =
      (Check exampleStdlib exampleChecker (clockAt 0) exampleSched
        "Alice@Example.com").result :=
  (Check_uppercase_eq exampleStdlib exampleChecker (clockAt 0) exampleSched exampleToUpper
    "Alice@Example.com" (by decide)).1

/-! ## Claims on the disposable checker -/

/-- C10 (evaluation of the code): the parser accepts `bob <bob@mailinator.com>`
with the address `bob@mailinator.com`, whose domain `mailinator.com` is on the
disposable list; `extractDomain` of the normalized input is `mailinator.com>`,
so the disposable entry is valid, `IsValid` is true and the summary does not
flag the address, while the bare address `bob@mailinator.com` is flagged. -/
theorem disposable_not_flagged_for_name_addr :
    exampleStdlib.ParseAddress (normalizeEmail exampleStdlib "bob <bob@mailinator.com>") =
        Except.ok { Name := "bob", Address := "bob@mailinator.com" } ∧
      extractDomain exampleStdlib "bob@mailinator.com" = "mailinator.com" ∧
      exampleDisposable.filter.Contains "mailinator.com" = true ∧
      extractDomain exampleStdlib "bob <bob@mailinator.com>" = "mailinator.com>" ∧
      validFlag (Check exampleStdlib exampleChecker (clockAt 0) exampleSched
        "bob <bob@mailinator.com>").result.Results "disposable" = some true ∧
      (Check exampleStdlib exampleChecker (clockAt 0) exampleSched
        "bob <bob@mailinator.com>").result.IsValid = true ∧
      (Check exampleStdlib exampleChecker (clockAt 0) exampleSched
        "bob <bob@mailinator.com>").result.Summary =
        some { IsDisposable := false, IsFree := false, IsRole := false } ∧
      validFlag (Check exampleStdlib exampleChecker (clockAt 0) exampleSched
        "bob@mailinator.com").result.Results "disposable" = some false := by
  refine ⟨rfl, by decide, by decide, by decide, by decide, by decide, by decide, by decide⟩

/-! ## Claims on the address parts -/

theorem length_splitOn (l : List Char) (a : Char) :
    (l.splitOn a).length = l.count a + 1 := by
  simp only [List.splitOn]
  induction l with
  | nil => simp
  | cons x xs ih =>
    rw [List.splitOnP_cons]
    by_cases hx : x = a
    · subst hx
      simp [ih]
    · have hne : (x == a) = false := by simpa using hx
      simp [hne, ih, List.count_cons, hx]

theorem splitOn_of_count_one (l : List Char) (a : Char) (h : l.count a = 1) :
    ∃ p0 p1, l.splitOn a = [p0, p1] ∧ p0 ++ a :: p1 = l := by
  have hlen := length_splitOn l a
  rw [h] at hlen
  match hs : l.splitOn a, hlen with
  | [p0, p1], _ =>
    refine ⟨p0, p1, rfl, ?_⟩
    have hi : [a].intercalate (l.splitOn a) = l := List.intercalate_splitOn l a
    rw [hs] at hi
    simpa [List.intercalate, List.intersperse] using hi

/-- C20: for a lowercase mapping that fixes `@`, a string with exactly one `@`
is put together again, in lowercase, by `extractLocalPart`, `@` and
`extractDomain`; for a string with no `@` or more than one, both functions
return the empty string. -/
theorem extract_parts_of_address (lib : Stdlib) (e : String)
    (hAt : lib.unicodeToLower '@' = '@') :
    (e.data.count '@' = 1 →
        extractLocalPart lib e ++ "@" ++ extractDomain lib e = ToLower lib e) ∧
      (e.data.count '@' ≠ 1 → extractLocalPart lib e = "" ∧ extractDomain lib e = "") := by
  constructor
  · intro h
    obtain ⟨p0, p1, hs, hl⟩ := splitOn_of_count_one e.data '@' h
    have hlp : extractLocalPart lib e = ToLower lib (String.mk p0) := by
      simp [extractLocalPart, Split, hs]
    have hdm : extractDomain lib e = ToLower lib (String.mk p1) := by
      simp [extractDomain, Split, hs]
    rw [hlp, hdm]
    apply String.ext
    simp [ToLower, ← hl, hAt]
  · intro h
    have hlen : (Split e '@').length ≠ 2 := by
      simp only [Split, List.length_map, length_splitOn]
      omega
    simp [extractLocalPart, extractDomain, hlen]

theorem extract_parts_of_address_witness :
    extractLocalPart exampleStdlib "Bob@Mailinator.COM" ++ "@" ++
        extractDomain exampleStdlib "Bob@Mailinator.COM" =
      ToLower exampleStdlib "Bob@Mailinator.COM" :=
  (extract_parts_of_address exampleStdlib "Bob@Mailinator.COM" (by decide)).1 (by decide)

/-! ## Claims on the role and ban-word checkers -/

theorem mapGet_mapSet {β : Type} (m : List (String × β)) (k n : String) (v : β) :
    mapGet (mapSet m k v) n = if n = k then some v else mapGet m n := by
  induction m with
  | nil =>
    by_cases h : n = k
    · simp [mapSet, mapGet, h]
    · have h2 : ¬ k = n := fun hh => h hh.symm
      simp [mapSet, mapGet, h, h2]
  | cons hd tl ih =>
    obtain ⟨k0, v0⟩ := hd
    by_cases hk : k0 = k
    · subst hk
      by_cases h : n = k0
      · simp [mapSet, mapGet, h]
      · have h2 : ¬ k0 = n := fun hh => h hh.symm
        simp [mapSet, mapGet, h, h2]
    · by_cases h0 : k0 = n
      · subst h0
        simp [mapSet, mapGet, hk]
      · simp [mapSet, mapGet, hk, h0, ih]

/-- The keys set by the word loop: what was set before, and the non-empty
normal forms of the words. -/
theorem addWords_getD (lib : Stdlib) (words : List String) (m : List (String × Bool))
    (k : String) :
    (mapGet (addWords lib m words) k).getD false = true ↔
      (mapGet m k).getD false = true ∨
        ∃ w ∈ words, ToLower lib (TrimSpace w) ≠ "" ∧ ToLower lib (TrimSpace w) = k := by
  induction words generalizing m with
  | nil => simp [addWords]
  | cons w ws ih =>
    simp only [addWords, List.foldl_cons] at ih ⊢
    rw [ih]
    by_cases hw : ToLower lib (TrimSpace w) = ""
    · simp [hw]
    · simp only [hw, ne_eq, not_false_eq_true, if_true, mapGet_mapSet, List.mem_cons,
        exists_eq_or_imp, true_and]
      by_cases hk : k = ToLower lib (TrimSpace w)
      · subst hk
        simp
      · have hk2 : ¬ ToLower lib (TrimSpace w) = k := fun hh => hk hh.symm
        simp [hk, hk2]

theorem mem_mapKeys_addWords (lib : Stdlib) (words : List String) (m : List (String × Bool))
    (k : String) :
    k ∈ mapKeys (addWords lib m words) ↔
      k ∈ mapKeys m ∨
        ∃ w ∈ words, ToLower lib (TrimSpace w) ≠ "" ∧ ToLower lib (TrimSpace w) = k := by
  induction words generalizing m with
  | nil => simp [addWords]
  | cons w ws ih =>
    simp only [addWords, List.foldl_cons] at ih ⊢
    rw [ih]
    by_cases hw : ToLower lib (TrimSpace w) = ""
    · simp [hw]
    · simp only [hw, ne_eq, not_false_eq_true, if_true, mem_mapKeys_mapSet, List.mem_cons,
        exists_eq_or_imp, true_and]
      constructor
      · rintro ((h | h) | h)
        · exact Or.inr (Or.inl h.symm)
        · exact Or.inl h
        · exact Or.inr (Or.inr h)
      · rintro (h | h | h)
        · exact Or.inl (Or.inr h)
        · exact Or.inl (Or.inl h.symm)
        · exact Or.inr h

/-- C11: for a role list whose entries are not blank, the role checker built
from it returns `Valid = false` exactly when the lowercased local part of the
address is equal to an entry of the trimmed, lowercased list; any other local
part, also one that contains an entry as a proper substring, is valid. -/
theorem role_invalid_iff_exact_match (lib : Stdlib) (fs : String → FileRead)
    (filename : String) (roles : List String) (elapsed : Int) (email : String)
    (hload : LoadFromFile lib fs filename = Except.ok roles)
    (hroles : ∀ r ∈ roles, ToLower lib (TrimSpace r) ≠ "") :
    ∃ v, NewRoleValidator lib fs filename = Except.ok v ∧
      ((v.Validate lib elapsed email).Valid = false ↔
        extractLocalPart lib email ∈ roles.map fun r => ToLower lib (TrimSpace r)) ∧
      (extractLocalPart lib email ∉ (roles.map fun r => ToLower lib (TrimSpace r)) →
        (v.Validate lib elapsed email).Valid = true) := by
  have hiff : (mapGet (addWords lib [] roles) (extractLocalPart lib email)).getD false = true ↔
      extractLocalPart lib email ∈ roles.map fun r => ToLower lib (TrimSpace r) := by
    rw [addWords_getD]
    simp only [mapGet, Option.getD_none, Bool.false_eq_true, false_or, List.mem_map]
    constructor
    · rintro ⟨w, hw, _, heq⟩
      exact ⟨w, hw, heq⟩
    · rintro ⟨w, hw, heq⟩
      exact ⟨w, hw, hroles w hw, heq⟩
  refine ⟨{ roleEmails := addWords lib [] roles, enabled := true }, ?_, ?_, ?_⟩
  · simp [NewRoleValidator, hload]
  · simp only [RoleValidator.Validate, Bool.not_eq_false']
    exact hiff
  · intro hnot
    simp only [RoleValidator.Validate, Bool.not_eq_true']
    cases hget : (mapGet (addWords lib [] roles) (extractLocalPart lib email)).getD false with
    | false => rfl
    | true => exact absurd (hiff.1 hget) hnot

theorem role_invalid_iff_exact_match_witness :
    ∃ v, NewRoleValidator exampleStdlib exampleFiles "roles.txt" = Except.ok v ∧
      ((v.Validate exampleStdlib 0 "administrator@acme.com").Valid = false ↔
        extractLocalPart exampleStdlib "administrator@acme.com" ∈
          (["admin", "i"] : List String).map fun r => ToLower exampleStdlib (TrimSpace r)) ∧
      (extractLocalPart exampleStdlib "administrator@acme.com" ∉
          ((["admin", "i"] : List String).map fun r => ToLower exampleStdlib (TrimSpace r)) →
        (v.Validate exampleStdlib 0 "administrator@acme.com").Valid = true) :=
  role_invalid_iff_exact_match exampleStdlib exampleFiles "roles.txt" ["admin", "i"] 0
    "administrator@acme.com" rfl (by decide)

theorem mem_foldl_banWordsStep (p : String) (entries : List (String × Bool))
    (found : List String) (w : String) :
    w ∈ entries.foldl (banWordsStep p) found ↔
      w ∈ found ∨ (w ∈ mapKeys entries ∧ 3 ≤ w.utf8ByteSize ∧ w.data <:+: p.data) := by
  induction entries generalizing found with
  | nil => simp [mapKeys]
  | cons entry rest ih =>
    rw [List.foldl_cons, ih]
    simp only [mapKeys, List.map_cons, List.mem_cons] at ih ⊢
    by_cases hc : entry.1.utf8ByteSize ≥ 3 ∧ Contains p entry.1 = true
    · have hc2 : 3 ≤ entry.1.utf8ByteSize ∧ entry.1.data <:+: p.data := by
        simpa [Contains] using hc
      by_cases hin : entry.1 ∈ found
      · simp only [banWordsStep, hc, and_self, if_true, hin]
        constructor
        · rintro (h | ⟨h1, h2⟩)
          · exact Or.inl h
          · exact Or.inr ⟨Or.inr h1, h2⟩
        · rintro (h | ⟨h1 | h1, h2⟩)
          · exact Or.inl h
          · exact Or.inl (h1 ▸ hin)
          · exact Or.inr ⟨h1, h2⟩
      · simp only [banWordsStep, hc, and_self, if_true, hin, if_false, List.mem_append,
          List.mem_singleton]
        constructor
        · rintro ((h | h) | ⟨h1, h2⟩)
          · exact Or.inl h
          · exact Or.inr ⟨Or.inl h, h ▸ hc2⟩
          · exact Or.inr ⟨Or.inr h1, h2⟩
        · rintro (h | ⟨h1 | h1, h2⟩)
          · exact Or.inl (Or.inl h)
          · exact Or.inl (Or.inr h1)
          · exact Or.inr ⟨h1, h2⟩
    · have hc2 : ¬ (3 ≤ entry.1.utf8ByteSize ∧ entry.1.data <:+: p.data) := by
        simpa [Contains] using hc
      simp only [banWordsStep, hc, if_false]
      constructor
      · rintro (h | ⟨h1, h2⟩)
        · exact Or.inl h
        · exact Or.inr ⟨Or.inr h1, h2⟩
      · rintro (h | ⟨h1 | h1, h2⟩)
        · exact Or.inl h
        · exact absurd (h1 ▸ h2) hc2
        · exact Or.inr ⟨h1, h2⟩

theorem nodup_foldl_banWordsStep (p : String) (entries : List (String × Bool))
    (found : List String) (h : found.Nodup) :
    (entries.foldl (banWordsStep p) found).Nodup := by
  induction entries generalizing found with
  | nil => simpa using h
  | cons entry rest ih =>
    rw [List.foldl_cons]
    apply ih
    unfold banWordsStep
    split
    · split
      · exact h
      · rename_i hin
        exact List.Nodup.append h (List.nodup_singleton _) (by simpa using hin)
    · exact h

/-- C12: for a ban-word list whose entries are not blank and an address with
lowercased local part `p`, the slice `ban_words_found` of the banwords
checker has no repeated word and holds exactly the words `w` of the trimmed,
lowercased list with `w = p`, or `len(w) ≥ 3` and `w` a substring of `p`;
`ban_words_count` is its length and `Valid` is true exactly when it is empty. -/
theorem banwords_found_exact (lib : Stdlib) (fs : String → FileRead)
    (filename : String) (words : List String) (elapsed : Int) (email : String)
    (hload : LoadFromFile lib fs filename = Except.ok words)
    (hwords : ∀ w ∈ words, ToLower lib (TrimSpace w) ≠ "") :
    ∃ v, NewBanWordsValidator lib fs filename = Except.ok v ∧
      (foundBanWords v (ToLower lib (extractLocalPart lib email))).Nodup ∧
      (∀ w, w ∈ foundBanWords v (ToLower lib (extractLocalPart lib email)) ↔
        w ∈ (words.map fun x => ToLower lib (TrimSpace x)) ∧
          (w = ToLower lib (extractLocalPart lib email) ∨
            (3 ≤ w.utf8ByteSize ∧
              w.data <:+: (ToLower lib (extractLocalPart lib email)).data))) ∧
      mapGet (v.Validate lib elapsed email).Details "ban_words_found" =
        some (Detail.strs (foundBanWords v (ToLower lib (extractLocalPart lib email)))) ∧
      mapGet (v.Validate lib elapsed email).Details "ban_words_count" =
        some (Detail.num
          (foundBanWords v (ToLower lib (extractLocalPart lib email))).length) ∧
      ((v.Validate lib elapsed email).Valid = true ↔
        foundBanWords v (ToLower lib (extractLocalPart lib email)) = []) := by
  have hset : ∀ k, (k ∈ mapKeys (addWords lib [] words) ↔
      k ∈ words.map fun x => ToLower lib (TrimSpace x)) ∧
      ((mapGet (addWords lib [] words) k).getD false = true ↔
        k ∈ words.map fun x => ToLower lib (TrimSpace x)) := by
    intro k
    rw [mem_mapKeys_addWords, addWords_getD]
    simp only [mapKeys, List.map_nil, List.not_mem_nil, mapGet, Option.getD_none,
      Bool.false_eq_true, false_or, List.mem_map]
    refine ⟨⟨?_, ?_⟩, ⟨?_, ?_⟩⟩
    · rintro ⟨w, hw, _, heq⟩
      exact ⟨w, hw, heq⟩
    · rintro ⟨w, hw, heq⟩
      exact ⟨w, hw, hwords w hw, heq⟩
    · rintro ⟨w, hw, _, heq⟩
      exact ⟨w, hw, heq⟩
    · rintro ⟨w, hw, heq⟩
      exact ⟨w, hw, hwords w hw, heq⟩
  refine ⟨{ banWords := addWords lib [] words, enabled := true }, ?_, ?_, ?_, ?_, ?_, ?_⟩
  · simp [NewBanWordsValidator, hload]
  · apply nodup_foldl_banWordsStep
    split
    · exact List.nodup_singleton _
    · exact List.nodup_nil
  · intro w
    simp only [foundBanWords]
    rw [mem_foldl_banWordsStep, (hset w).1]
    by_cases hp : (mapGet (addWords lib [] words)
        (ToLower lib (extractLocalPart lib email))).getD false = true
    · have hmem := (hset _).2.1 hp
      rw [if_pos hp]
      simp only [List.mem_singleton]
      constructor
      · rintro (h | ⟨h1, h2⟩)
        · exact ⟨h ▸ hmem, Or.inl h⟩
        · exact ⟨h1, Or.inr h2⟩
      · rintro ⟨h1, h | h⟩
        · exact Or.inl h
        · exact Or.inr ⟨h1, h⟩
    · have hnot : ToLower lib (extractLocalPart lib email) ∉
          words.map fun x => ToLower lib (TrimSpace x) := fun hh => hp ((hset _).2.2 hh)
      rw [if_neg hp]
      simp only [List.not_mem_nil, false_or]
      constructor
      · rintro ⟨h1, h2⟩
        exact ⟨h1, Or.inr h2⟩
      · rintro ⟨h1, h | h⟩
        · exact absurd (h ▸ h1) hnot
        · exact ⟨h1, h⟩
  · simp [BanWordsValidator.Validate, mapGet]
  · simp [BanWordsValidator.Validate, mapGet]
  · simp [BanWordsValidator.Validate, List.length_eq_zero]

theorem banwords_found_exact_witness :
    ∃ v, NewBanWordsValidator exampleStdlib exampleFiles "banwords.txt" = Except.ok v ∧
      (foundBanWords v (ToLower exampleStdlib
        (extractLocalPart exampleStdlib "xxspamela@acme.com"))).Nodup :=
  (banwords_found_exact exampleStdlib exampleFiles "banwords.txt" ["spam", "xx", "pamela"] 0
    "xxspamela@acme.com" rfl (by decide)).imp fun _ h => ⟨h.1, h.2.1⟩

/-- The ban list `spam`, `xx`, `pamela` on the local part `xxspamela`: the word
`xx` is a substring of length two and is not reported. -/
theorem foundBanWords_example :
    foundBanWords { banWords := addWords exampleStdlib [] ["spam", "xx", "pamela"], enabled := true }
        (ToLower exampleStdlib (extractLocalPart exampleStdlib "xxspamela@acme.com")) =
      ["spam", "pamela"] := by
  decide

/-! ## Claims on the exact-map filter -/

theorem contains_apply (mf : MapFilter) (op : FilterOp) (y : String) :
    (mf.apply op).Contains y = true ↔
      op = FilterOp.Add y ∨
        (mf.Contains y = true ∧ op ≠ FilterOp.Delete y ∧ op ≠ FilterOp.Clear) := by
  cases op with
  | Add x =>
    simp only [MapFilter.apply, MapFilter.Add, MapFilter.Contains, mapGet_mapSet]
    by_cases h : y = x
    · subst h
      simp
    · have h2 : ¬ x = y := fun hh => h hh.symm
      simp [h, h2]
  | Delete x =>
    simp only [MapFilter.apply, MapFilter.Delete, MapFilter.Contains]
    by_cases hx : (mapGet mf.items x).getD false = true
    · rw [if_pos hx]
      by_cases h : y = x
      · subst h
        simp [mapGet_mapDelete_self]
      · have h2 : ¬ x = y := fun hh => h hh.symm
        simp [mapGet_mapDelete_of_ne _ _ _ h, h2]
    · rw [if_neg hx]
      by_cases h : y = x
      · subst h
        simp [hx]
      · have h2 : ¬ x = y := fun hh => h hh.symm
        simp [h2]
  | Clear => simp [MapFilter.apply, MapFilter.Clear, MapFilter.Contains, mapGet]

theorem contains_run (ops : List FilterOp) (mf : MapFilter) (y : String) :
    (mf.run ops).Contains y = true ↔
      (∃ pre post, ops = pre ++ FilterOp.Add y :: post ∧
          ∀ op ∈ post, op ≠ FilterOp.Delete y ∧ op ≠ FilterOp.Clear) ∨
        (mf.Contains y = true ∧ ∀ op ∈ ops, op ≠ FilterOp.Delete y ∧ op ≠ FilterOp.Clear) := by
  induction ops generalizing mf with
  | nil => simp [MapFilter.run]
  | cons op rest ih =>
    have ih2 := ih (mf.apply op)
    simp only [MapFilter.run, List.foldl_cons] at ih2 ⊢
    rw [ih2, contains_apply]
    constructor
    · rintro (⟨pre, post, hsplit, hpost⟩ | ⟨hop | ⟨hc, hd, hcl⟩, hrest⟩)
      · exact Or.inl ⟨op :: pre, post, by rw [hsplit]; rfl, hpost⟩
      · exact Or.inl ⟨[], rest, by rw [hop]; rfl, hrest⟩
      · refine Or.inr ⟨hc, ?_⟩
        intro o ho
        rcases List.mem_cons.1 ho with h | h
        · exact h ▸ ⟨hd, hcl⟩
        · exact hrest o h
    · rintro (⟨pre, post, hsplit, hpost⟩ | ⟨hc, hall⟩)
      · cases pre with
        | nil =>
          simp only [List.nil_append, List.cons.injEq] at hsplit
          refine Or.inr ⟨Or.inl hsplit.1, ?_⟩
          rw [hsplit.2]
          exact hpost
        | cons p pre2 =>
          simp only [List.cons_append, List.cons.injEq] at hsplit
          exact Or.inl ⟨pre2, post, hsplit.2, hpost⟩
      · refine Or.inr ⟨Or.inr ⟨hc, hall op (List.mem_cons_self _ _)⟩, ?_⟩
        intro o ho
        exact hall o (List.mem_cons_of_mem _ ho)

/-- C17: on a `MapFilter` that starts empty, `Add` never returns an error, and
after any sequence of `Add`, `Delete` and `Clear` calls `Contains(y)` is true
exactly when some call `Add(y)` is followed by no `Delete(y)` and no `Clear`;
so `Contains(x)` is true right after `Add(x)` and `Contains(y)` is false when
`y` was never added. -/
theorem MapFilter_contains_iff_added_and_kept :
    (∀ (mf : MapFilter) (item : String), mf.AddError item = none) ∧
      (∀ (ops : List FilterOp) (y : String),
        (NewMapFilter.run ops).Contains y = true ↔
          ∃ pre post, ops = pre ++ FilterOp.Add y :: post ∧
            ∀ op ∈ post, op ≠ FilterOp.Delete y ∧ op ≠ FilterOp.Clear) ∧
      (∀ (ops : List FilterOp) (x : String),
        (NewMapFilter.run (ops ++ [FilterOp.Add x])).Contains x = true) ∧
      (∀ (ops : List FilterOp) (y : String), FilterOp.Add y ∉ ops →
        (NewMapFilter.run ops).Contains y = false) := by
  have hmain : ∀ (ops : List FilterOp) (y : String),
      (NewMapFilter.run ops).Contains y = true ↔
        ∃ pre post, ops = pre ++ FilterOp.Add y :: post ∧
          ∀ op ∈ post, op ≠ FilterOp.Delete y ∧ op ≠ FilterOp.Clear := by
    intro ops y
    rw [contains_run]
    simp [NewMapFilter, MapFilter.Contains, mapGet]
  refine ⟨fun _ _ => rfl, hmain, ?_, ?_⟩
  · intro ops x
    rw [hmain]
    exact ⟨ops, [], rfl, by simp⟩
  · intro ops y hnot
    cases hc : (NewMapFilter.run ops).Contains y with
    | false => rfl
    | true =>
      obtain ⟨pre, post, hsplit, _⟩ := (hmain ops y).1 hc
      exact absurd (by rw [hsplit]; simp) hnot

/-! ## Claims on the loader -/

theorem foldl_removeDuplicatesStep (items : List String) (seen : List (String × Bool))
    (result : List String)
    (hinv : ∀ x, (mapGet seen x).getD false = true ↔ x ∈ result) :
    (items.foldl removeDuplicatesStep (seen, result)).2 =
      result ++ (firstOccurrences items).filter fun y => decide (y ∉ result) := by
  induction items generalizing seen result with
  | nil => simp [firstOccurrences]
  | cons x xs ih =>
    rw [List.foldl_cons]
    by_cases hx : x ∈ result
    · have hseen : (mapGet seen x).getD false = true := (hinv x).2 hx
      have hstep : removeDuplicatesStep (seen, result) x = (seen, result) := by
        simp [removeDuplicatesStep, hseen]
      rw [hstep, ih seen result hinv]
      simp only [firstOccurrences, List.filter_cons, hx, not_true_eq_false, decide_False,
        Bool.false_eq_true, if_false, List.filter_filter, List.append_cancel_left_eq]
      apply List.filter_congr
      intro y _
      by_cases hy : y ∈ result
      · simp [hy]
      · have hne : y ≠ x := fun h => hy (h ▸ hx)
        simp [hy, hne]
    · have hseen : (mapGet seen x).getD false = false := by
        cases h : (mapGet seen x).getD false with
        | false => rfl
        | true => exact absurd ((hinv x).1 h) hx
      have hstep : removeDuplicatesStep (seen, result) x =
          (mapSet seen x true, result ++ [x]) := by
        simp [removeDuplicatesStep, hseen]
      have hinv2 : ∀ y, (mapGet (mapSet seen x true) y).getD false = true ↔
          y ∈ result ++ [x] := by
        intro y
        rw [mapGet_mapSet]
        by_cases hy : y = x
        · simp [hy]
        · simp [hy, hinv y]
      rw [hstep, ih _ _ hinv2]
      simp only [firstOccurrences, List.filter_cons, hx, not_false_eq_true, decide_True,
        if_true, List.filter_filter, List.append_assoc, List.singleton_append,
        List.append_cancel_left_eq, List.cons.injEq, true_and]
      apply List.filter_congr
      intro y _
      by_cases hy : y ∈ result <;> by_cases hyx : y = x <;> simp [hy, hyx]

theorem removeDuplicates_eq_firstOccurrences (items : List String) :
    removeDuplicates items = firstOccurrences items := by
  have h := foldl_removeDuplicatesStep items [] [] (by simp [mapGet])
  simpa [removeDuplicates] using h

theorem mem_firstOccurrences (items : List String) (x : String) :
    x ∈ firstOccurrences items ↔ x ∈ items := by
  induction items with
  | nil => simp [firstOccurrences]
  | cons a l ih =>
    simp only [firstOccurrences, List.mem_cons, List.mem_filter, ih, decide_eq_true_eq]
    by_cases h : x = a
    · simp [h]
    · simp [h]

theorem nodup_firstOccurrences (items : List String) : (firstOccurrences items).Nodup := by
  induction items with
  | nil => simp [firstOccurrences]
  | cons a l ih =>
    simp only [firstOccurrences, List.nodup_cons, List.mem_filter, decide_eq_true_eq]
    exact ⟨fun h => h.2 rfl, ih.filter _⟩

theorem pairwise_firstOccurrences (items : List String) :
    (firstOccurrences items).Pairwise fun x y => items.indexOf x < items.indexOf y := by
  induction items with
  | nil => simp [firstOccurrences]
  | cons a l ih =>
    simp only [firstOccurrences, List.pairwise_cons, List.mem_filter, decide_eq_true_eq]
    constructor
    · rintro y ⟨_, hy⟩
      rw [List.indexOf_cons_self, List.indexOf_cons_ne _ (Ne.symm hy)]
      exact Nat.succ_pos _
    · refine (ih.filter _).imp_of_mem ?_
      intro x y hx hy hlt
      have hxa : x ≠ a := by simpa using (List.mem_filter.1 hx).2
      have hya : y ≠ a := by simpa using (List.mem_filter.1 hy).2
      rw [List.indexOf_cons_ne _ (Ne.symm hxa), List.indexOf_cons_ne _ (Ne.symm hya)]
      exact Nat.succ_lt_succ hlt

theorem loadAllFiles_of_ok (lib : Stdlib) (fs : String → FileRead) (filenames : List String)
    (lists : List (List String)) (allItems : List String)
    (hok : List.Forall₂ (fun f items => LoadFromFile lib fs f = Except.ok items)
      filenames lists) :
    loadAllFiles lib fs filenames allItems = Except.ok (allItems ++ lists.flatten) := by
  induction hok generalizing allItems with
  | nil => simp [loadAllFiles]
  | cons h _ ih =>
    simp only [loadAllFiles, h]
    rw [ih]
    simp

/-- C16: when every file of the list loads, `LoadFromFiles` returns
`removeDuplicates` of the concatenation of the per-file item lists; that
result has no repeated item, has exactly the items of the concatenation, and
lists them in the order of their first occurrence in it. -/
theorem LoadFromFiles_dedups_concatenation (lib : Stdlib) (fs : String → FileRead)
    (filenames : List String) (lists : List (List String))
    (hok : List.Forall₂ (fun f items => LoadFromFile lib fs f = Except.ok items)
      filenames lists) :
    LoadFromFiles lib fs filenames = Except.ok (removeDuplicates lists.flatten) ∧
      (removeDuplicates lists.flatten).Nodup ∧
      (∀ x, x ∈ removeDuplicates lists.flatten ↔ x ∈ lists.flatten) ∧
      (removeDuplicates lists.flatten).Pairwise
        (fun x y => lists.flatten.indexOf x < lists.flatten.indexOf y) := by
  refine ⟨?_, ?_, ?_, ?_⟩
  · simp [LoadFromFiles, loadAllFiles_of_ok lib fs filenames lists [] hok]
  · rw [removeDuplicates_eq_firstOccurrences]
    exact nodup_firstOccurrences _
  · intro x
    rw [removeDuplicates_eq_firstOccurrences]
    exact mem_firstOccurrences _ x
  · rw [removeDuplicates_eq_firstOccurrences]
    exact pairwise_firstOccurrences _

theorem LoadFromFiles_dedups_concatenation_witness :
    LoadFromFiles exampleStdlib exampleFiles ["roles.txt", "disposable.txt", "roles.txt"] =
      Except.ok (removeDuplicates
        ([["admin", "i"], ["mailinator.com"], ["admin", "i"]] : List (List String)).flatten) :=
  (LoadFromFiles_dedups_concatenation exampleStdlib exampleFiles
    ["roles.txt", "disposable.txt", "roles.txt"]
    [["admin", "i"], ["mailinator.com"], ["admin", "i"]]
    (List.Forall₂.cons rfl (List.Forall₂.cons rfl (List.Forall₂.cons rfl List.Forall₂.nil)))).1

theorem mem_of_mem_splitOnP (q : Char → Bool) (l : List Char) (piece : List Char)
    (c : Char) (hp : piece ∈ l.splitOnP q) (hc : c ∈ piece) : c ∈ l := by
  induction l generalizing piece with
  | nil =>
    simp only [List.splitOnP_nil, List.mem_singleton] at hp
    rw [hp] at hc
    exact hc
  | cons x xs ih =>
    rw [List.splitOnP_cons] at hp
    by_cases hx : q x = true
    · rw [if_pos hx] at hp
      rcases List.mem_cons.1 hp with h | h
      · rw [h] at hc
        exact absurd hc (List.not_mem_nil _)
      · exact List.mem_cons_of_mem _ (ih piece h hc)
    · rw [if_neg hx] at hp
      cases hs : List.splitOnP q xs with
      | nil => exact absurd hs (List.splitOnP_ne_nil _ _)
      | cons hd tl =>
        rw [hs] at hp ih
        simp only [List.modifyHead_cons, List.mem_cons] at hp
        rcases hp with h | h
        · rw [h] at hc
          rcases List.mem_cons.1 hc with h2 | h2
          · rw [h2]
            exact List.mem_cons_self _ _
          · exact List.mem_cons_of_mem _ (ih hd (List.mem_cons_self _ _) h2)
        · exact List.mem_cons_of_mem _ (ih piece (List.mem_cons_of_mem _ h) hc)

theorem mem_of_mem_Split (s : String) (sep : Char) (line : String) (c : Char)
    (hl : line ∈ Split s sep) (hc : c ∈ line.data) : c ∈ s.data := by
  simp only [Split, List.mem_map] at hl
  obtain ⟨piece, hp, rfl⟩ := hl
  exact mem_of_mem_splitOnP _ _ piece c hp hc

theorem TrimSpace_data (s : String) :
    (TrimSpace s).data = (s.data.dropWhile isSpace).rdropWhile isSpace := rfl

theorem TrimSpace_idempotent (s : String) : TrimSpace (TrimSpace s) = TrimSpace s := by
  apply String.ext
  rw [TrimSpace_data (TrimSpace s), TrimSpace_data s]
  have hdrop : ((s.data.dropWhile isSpace).rdropWhile isSpace).dropWhile isSpace =
      (s.data.dropWhile isSpace).rdropWhile isSpace := by
    rw [List.dropWhile_eq_self_iff]
    intro hl
    obtain ⟨rest, hrest⟩ :=
      List.rdropWhile_prefix isSpace (s.data.dropWhile isSpace)
    have hm : (s.data.dropWhile isSpace).dropWhile isSpace = s.data.dropWhile isSpace :=
      List.dropWhile_idempotent _ _
    rw [List.dropWhile_eq_self_iff] at hm
    revert hl hrest
    cases (s.data.dropWhile isSpace).rdropWhile isSpace with
    | nil =>
      intro hl
      simp at hl
    | cons a t =>
      intro hl hrest
      have hpos : 0 < (s.data.dropWhile isSpace).length := by
        rw [← hrest]
        simp
      have := hm hpos
      simp only [← hrest, List.cons_append, List.get_eq_getElem, List.getElem_cons_zero] at this
      simpa using this
  rw [hdrop, List.rdropWhile_idempotent]

/-- What `cleanLine` returns is the lowercase of a trimmed, non-empty text
without `#` made of characters of the line. -/
theorem cleanLine_eq_some (lib : Stdlib) (line item : String)
    (h : cleanLine lib line = some item) :
    ∃ t, item = ToLower lib t ∧ TrimSpace t = t ∧ '#' ∉ t.data ∧ item ≠ "" ∧
      ∀ c ∈ t.data, c ∈ line.data := by
  unfold cleanLine at h
  simp only at h
  split at h
  · exact absurd h (by simp)
  · by_cases hhash : '#' ∈ (TrimSpace line).data
    · rw [if_pos hhash] at h
      split at h
      · rename_i hne
        refine ⟨TrimSpace (String.mk ((TrimSpace line).data.takeWhile fun c => c ≠ '#')),
          (Option.some.inj h).symm, TrimSpace_idempotent _, ?_, ?_, ?_⟩
        · intro hin
          have h1 := mem_TrimSpace_data _ _ hin
          have h2 := List.mem_takeWhile_imp h1
          simp at h2
        · rw [← Option.some.inj h]
          exact hne
        · intro c hc
          have h1 := mem_TrimSpace_data _ _ hc
          exact mem_TrimSpace_data _ _ ((List.takeWhile_sublist _).subset h1)
      · exact absurd h (by simp)
    · rw [if_neg hhash] at h
      split at h
      · rename_i hne
        refine ⟨TrimSpace line, (Option.some.inj h).symm, TrimSpace_idempotent _, hhash, ?_, ?_⟩
        · rw [← Option.some.inj h]
          exact hne
        · intro c hc
          exact mem_TrimSpace_data _ _ hc
      · exact absurd h (by simp)

/-- C14: when lowercasing, on the characters of the content, is idempotent,
yields `#` only from `#` and keeps white space and non-space apart (as
`unicode.ToLower` does), every item returned by `LoadFromString` is non-empty,
contains no `#`, is its own `TrimSpace` and is its own lowercase. -/
theorem LoadFromString_items_clean (lib : Stdlib) (content : String)
    (hlower : ∀ c ∈ content.data,
      lib.unicodeToLower (lib.unicodeToLower c) = lib.unicodeToLower c ∧
        (lib.unicodeToLower c = '#' → c = '#') ∧
        isSpace (lib.unicodeToLower c) = isSpace c)
    (item : String) (hitem : item ∈ LoadFromString lib content) :
    item ≠ "" ∧ '#' ∉ item.data ∧ TrimSpace item = item ∧ ToLower lib item = item := by
  simp only [LoadFromString, List.mem_filterMap] at hitem
  obtain ⟨line, hline, hclean⟩ := hitem
  obtain ⟨t, ht, htrim, hhash, hne, hsub⟩ := cleanLine_eq_some lib line item hclean
  have hchars : ∀ c ∈ t.data, c ∈ content.data := fun c hc =>
    mem_of_mem_Split content '\n' line c hline (hsub c hc)
  refine ⟨hne, ?_, ?_, ?_⟩
  · rw [ht]
    simp only [ToLower, List.mem_map, not_exists, not_and]
    intro c hc heq
    exact hhash ((hlower c (hchars c hc)).2.1 heq ▸ hc)
  · rw [ht]
    have h1 := TrimSpace_uppercase lib.unicodeToLower t
      (fun c hc => (hlower c (hchars c hc)).2.2)
    simp only [uppercase] at h1
    simp only [ToLower]
    rw [h1, htrim]
  · rw [ht]
    apply String.ext
    simp only [ToLower, List.map_map]
    apply List.map_congr_left
    intro c hc
    exact (hlower c (hchars c hc)).1

theorem LoadFromString_items_clean_witness :
    "mailinator.com" ≠ "" ∧ '#' ∉ "mailinator.com".data ∧
      TrimSpace "mailinator.com" = "mailinator.com" ∧
      ToLower exampleStdlib "mailinator.com" = "mailinator.com" :=
  LoadFromString_items_clean exampleStdlib "# providers\n  Mailinator.COM # test\n\nADMIN\n"
    (by decide) "mailinator.com" (by decide)

theorem splitOnP_append_sep (q : Char → Bool) (l1 l2 : List Char) (sep : Char)
    (hsep : q sep = true) :
    (l1 ++ sep :: l2).splitOnP q = l1.splitOnP q ++ l2.splitOnP q := by
  induction l1 with
  | nil => simp [List.splitOnP_cons, hsep]
  | cons x xs ih =>
    rw [List.cons_append, List.splitOnP_cons, List.splitOnP_cons, ih]
    by_cases hx : q x = true
    · simp [hx]
    · rw [if_neg hx, if_neg hx]
      cases hs : List.splitOnP q xs with
      | nil => exact absurd hs (List.splitOnP_ne_nil _ _)
      | cons hd tl => simp

/-- The items of two contents joined by a newline. -/
theorem LoadFromString_append (lib : Stdlib) (a b : String) :
    LoadFromString lib (a ++ "\n" ++ b) = LoadFromString lib a ++ LoadFromString lib b := by
  have hdata : (a ++ "\n" ++ b).data = a.data ++ '\n' :: b.data := by
    simp [String.data_append]
  simp only [LoadFromString, Split, hdata, List.splitOn]
  rw [splitOnP_append_sep _ _ _ _ (by simp), List.map_append, List.filterMap_append]

/-- C15 (counterexample): a content with the same item on two lines gives a
list with that item twice. -/
theorem LoadFromString_keeps_duplicates :
    LoadFromString exampleStdlib "mailinator.com\nMailinator.com" =
        ["mailinator.com", "mailinator.com"] ∧
      ¬ (LoadFromString exampleStdlib "mailinator.com\nMailinator.com").Nodup := by
  refine ⟨by decide, by decide⟩

theorem length_filterMap_eq_filter {α β : Type} (f : α → Option β) (l : List α) :
    (l.filterMap f).length = (l.filter fun a => (f a).isSome).length := by
  induction l with
  | nil => rfl
  | cons a t ih => cases h : f a <;> simp [List.filterMap_cons, List.filter_cons, h, ih]

theorem count_filterMap_eq_filter {α β : Type} [DecidableEq β] (f : α → Option β)
    (l : List α) (x : β) :
    (l.filterMap f).count x = (l.filter fun a => decide (f a = some x)).length := by
  induction l with
  | nil => rfl
  | cons a t ih =>
    cases h : f a with
    | none => simp [List.filterMap_cons, List.filter_cons, h, ih]
    | some y =>
      by_cases hy : y = x
      · simp [List.filterMap_cons, List.filter_cons, h, ih, hy]
      · simp [List.filterMap_cons, List.filter_cons, h, ih, hy, List.count_cons]

/-- C15 (amended): `LoadFromString` returns one entry for every line that
carries an item, in line order, and keeps repeated items: the list is the
items of the lines in order, it has as many entries as there are lines that
carry an item, and an item occurs in it as many times as there are lines that
carry it, so the list has no duplicate exactly when no two lines carry the same
item; the items of two contents joined by a newline are those of the first
followed by those of the second. The list is free of duplicates, with the same
items, once `removeDuplicates` is applied to it, as `LoadFromFiles` does. -/
theorem LoadFromString_line_by_line (lib : Stdlib) (content : String) :
    LoadFromString lib content = (Split content '\n').filterMap (cleanLine lib) ∧
      (LoadFromString lib content).length =
        ((Split content '\n').filter fun line => (cleanLine lib line).isSome).length ∧
      (∀ x, (LoadFromString lib content).count x =
        ((Split content '\n').filter fun line => decide (cleanLine lib line = some x)).length) ∧
      ((LoadFromString lib content).Nodup ↔
        ∀ x, ((Split content '\n').filter
          fun line => decide (cleanLine lib line = some x)).length ≤ 1) ∧
      (∀ b, LoadFromString lib (content ++ "\n" ++ b) =
        LoadFromString lib content ++ LoadFromString lib b) ∧
      (removeDuplicates (LoadFromString lib content)).Nodup ∧
      ∀ x, x ∈ removeDuplicates (LoadFromString lib content) ↔
        x ∈ LoadFromString lib content := by
  refine ⟨rfl, length_filterMap_eq_filter _ _, count_filterMap_eq_filter _ _, ?_,
    LoadFromString_append lib content, ?_, ?_⟩
  · rw [List.nodup_iff_count_le_one]
    constructor
    · intro h x
      rw [← count_filterMap_eq_filter]
      exact h x
    · intro h x
      have := h x
      rw [← count_filterMap_eq_filter] at this
      exact this
  · rw [removeDuplicates_eq_firstOccurrences]
    exact nodup_firstOccurrences _
  · intro x
    rw [removeDuplicates_eq_firstOccurrences]
    exact mem_firstOccurrences _ x

/-! ## Claims on the cuckoo filter -/

theorem roundHalfEven_bounds (m e : Nat) :
    2 * (roundHalfEven m e * 2 ^ e) ≤ 2 * m + 2 ^ e ∧
      2 * m ≤ 2 * (roundHalfEven m e * 2 ^ e) + 2 ^ e := by
  have hdm : m / 2 ^ e * 2 ^ e + m % 2 ^ e = m := Nat.div_add_mod' m (2 ^ e)
  have hr : m % 2 ^ e < 2 ^ e := Nat.mod_lt _ (Nat.pos_pow_of_pos e (by decide))
  have hmul : (m / 2 ^ e + 1) * 2 ^ e = m / 2 ^ e * 2 ^ e + 2 ^ e := by ring
  simp only [roundHalfEven]
  split_ifs <;> (try rw [hmul]) <;> omega

theorem mul_pow_step (q k e P : Nat) (he : e ≤ 52) (hP : P = 2 ^ e)
    (h : q * P < k * 2 ^ 52) : q * P + P ≤ k * 2 ^ 52 := by
  have h52 : (2 : Nat) ^ 52 = 2 ^ (52 - e) * P := by
    rw [hP, ← pow_add, Nat.sub_add_cancel he]
  rw [h52, ← Nat.mul_assoc] at h ⊢
  have hlt : q < k * 2 ^ (52 - e) := Nat.lt_of_mul_lt_mul_right h
  calc q * P + P = (q + 1) * P := by ring
    _ ≤ k * 2 ^ (52 - e) * P := Nat.mul_le_mul_right P hlt

/-- Below `2 ^ 50` the binary64 product with `1.2`, truncated, is the integer
quotient `6 * n / 5`. -/
theorem adjustCapacity_eq (n : Nat) (hn : n < 2 ^ 50) : adjustCapacity n = 6 * n / 5 := by
  rcases Nat.eq_zero_or_pos n with h0 | hpos
  · subst h0
    simp [adjustCapacity, roundHalfEven]
  · unfold adjustCapacity
    simp only
    have hm1 : 2 ^ 52 ≤ n * 5404319552844595 := by norm_num; omega
    have hm2 : n * 5404319552844595 < 2 ^ 103 := by norm_num at hn ⊢; omega
    have hs1 : 53 ≤ Nat.size (n * 5404319552844595) := by
      have h52 : 52 < Nat.size (n * 5404319552844595) := Nat.lt_size.2 hm1
      omega
    have hs2 : Nat.size (n * 5404319552844595) ≤ 103 := Nat.size_le.2 hm2
    obtain ⟨e, he⟩ : ∃ e, Nat.size (n * 5404319552844595) = 53 + e :=
      ⟨_, (Nat.add_sub_cancel' hs1).symm⟩
    have hlow : 2 ^ (52 + e) ≤ n * 5404319552844595 := by
      apply Nat.lt_size.1
      omega
    have hhigh : n * 5404319552844595 < 2 ^ (53 + e) := by
      apply Nat.size_le.1
      omega
    have hP : 2 ^ e ≤ 2 ^ 50 := Nat.pow_le_pow_right (by decide) (by omega)
    rw [he, Nat.add_sub_cancel_left]
    have hb := roundHalfEven_bounds (n * 5404319552844595) e
    have hstep := mul_pow_step (roundHalfEven (n * 5404319552844595) e) (6 * n / 5) e (2 ^ e)
      (by omega) rfl
    rw [pow_add] at hlow hhigh
    generalize roundHalfEven (n * 5404319552844595) e * 2 ^ e = X at *
    generalize 2 ^ e = P at *
    norm_num at hlow hhigh hP hn hstep ⊢
    omega

theorem floor_six_fifths (n : Nat) : ⌊(12 / 10 : ℚ) * n⌋₊ = 6 * n / 5 := by
  have h : (12 / 10 : ℚ) * n = ((6 * n : ℕ) : ℚ) / ((5 : ℕ) : ℚ) := by
    push_cast
    ring
  rw [h, Nat.floor_div_eq_div]

/-- The binary64 product with `1.2`, truncated, is at least 1 for every
positive count. -/
theorem adjustCapacity_pos (n : Nat) (hn : 0 < n) : 0 < adjustCapacity n := by
  unfold adjustCapacity
  simp only
  have hm1 : 2 ^ 52 ≤ n * 5404319552844595 := by norm_num; omega
  have hs1 : 53 ≤ Nat.size (n * 5404319552844595) := by
    have h52 : 52 < Nat.size (n * 5404319552844595) := Nat.lt_size.2 hm1
    omega
  obtain ⟨e, he⟩ : ∃ e, Nat.size (n * 5404319552844595) = 53 + e :=
    ⟨_, (Nat.add_sub_cancel' hs1).symm⟩
  have hlow : 2 ^ (52 + e) ≤ n * 5404319552844595 := by
    apply Nat.lt_size.1
    omega
  rw [he, Nat.add_sub_cancel_left]
  have hb := (roundHalfEven_bounds (n * 5404319552844595) e).2
  have hP : 0 < 2 ^ e := Nat.pos_pow_of_pos e (by decide)
  rw [pow_add] at hlow
  generalize roundHalfEven (n * 5404319552844595) e = R at hb ⊢
  have h1 : 2 ^ 53 * 2 ^ e ≤ (2 * R + 1) * 2 ^ e := by
    have hexp : (2 * R + 1) * 2 ^ e = 2 * (R * 2 ^ e) + 2 ^ e := by ring
    have h53 : (2 : Nat) ^ 53 * 2 ^ e = 2 * (2 ^ 52 * 2 ^ e) := by ring
    rw [hexp, h53]
    omega
  have h2 : 2 ^ 53 ≤ 2 * R + 1 := Nat.le_of_mul_le_mul_right h1 hP
  have h3 : 2 ^ 52 ≤ R := by omega
  apply Nat.div_pos _ (by decide)
  calc 2 ^ 52 ≤ R := h3
    _ = R * 1 := (Nat.mul_one R).symm
    _ ≤ R * 2 ^ e := Nat.mul_le_mul_left R hP

/-- For no item `NewCuckooFilter` panics: `cuckoo.NewFilter` gets 0 first. -/
theorem NewCuckooFilter_zero (ck : CuckooLib) (p : Rat) : NewCuckooFilter ck 0 p = none := by
  have h0 : adjustCapacity 0 = 0 := adjustCapacity_eq 0 (by norm_num)
  unfold NewCuckooFilter cuckooNewFilter
  simp only
  rw [if_pos h0]

/-- For at least one item `NewCuckooFilter` returns a filter. -/
theorem NewCuckooFilter_of_pos (ck : CuckooLib) (n : Nat) (p : Rat) (hn : 0 < n) :
    NewCuckooFilter ck n p =
      some { filter := ck.NewFilter (adjustCapacity n) 4 n, size := 0,
             capacity := adjustCapacity n } := by
  have hpos : adjustCapacity n ≠ 0 := Nat.pos_iff_ne_zero.1 (adjustCapacity_pos n hn)
  unfold NewCuckooFilter cuckooNewFilter
  simp only
  rw [if_neg hpos]

/-- C18 (counterexample): for one item the recorded capacity is 1, and the
ceiling of 1.2 is 2. -/
theorem NewCuckooFilter_capacity_one :
    (NewCuckooFilter noCuckoo 1 (1 / 100)).map CuckooFilter.capacity = some 1 ∧
      ⌈(12 / 10 : ℚ) * (1 : ℕ)⌉₊ = 2 := by
  constructor
  · rw [NewCuckooFilter_of_pos noCuckoo 1 (1 / 100) (by decide)]
    simp only [Option.map_some']
    rw [adjustCapacity_eq 1 (by norm_num)]
  · rw [Nat.ceil_eq_iff (by norm_num)]
    norm_num

/-- C18 (amended): for every item count `n` with `1 ≤ n < 2 ^ 50`,
`NewCuckooFilter(n, p)` returns a filter whose recorded capacity is 1.2 times
`n` with the fraction dropped, the floor of `1.2 * n`. -/
theorem NewCuckooFilter_capacity_floor (ck : CuckooLib) (n : Nat) (p : Rat)
    (h1 : 1 ≤ n) (hn : n < 2 ^ 50) :
    ∃ cf, NewCuckooFilter ck n p = some cf ∧ cf.capacity = ⌊(12 / 10 : ℚ) * n⌋₊ := by
  refine ⟨_, NewCuckooFilter_of_pos ck n p h1, ?_⟩
  simp only
  rw [adjustCapacity_eq n hn, floor_six_fifths]

theorem NewCuckooFilter_capacity_floor_witness :
    ∃ cf, NewCuckooFilter noCuckoo 1999 (1 / 100) = some cf ∧
      cf.capacity = ⌊(12 / 10 : ℚ) * (1999 : ℕ)⌋₊ :=
  NewCuckooFilter_capacity_floor noCuckoo 1999 (1 / 100) (by norm_num) (by norm_num)

/-! ## Claims on the constructors of the list-backed checkers -/

theorem addItems_nil {ck : CuckooLib} (lib : Stdlib) (f : Filter ck) :
    addItems lib f [] = f := rfl

/-- With a rate other than 0 and a list file without items the disposable
constructor panics. -/
theorem NewDisposableValidator_of_itemless (lib : Stdlib) (ck : CuckooLib)
    (fs : String → FileRead) (filename : String) (rate : Rat)
    (hload : LoadFromFile lib fs filename = Except.ok []) (hrate : rate ≠ 0) :
    NewDisposableValidator lib ck fs filename rate = none := by
  simp [NewDisposableValidator, hload, hrate, NewCuckooFilter_zero]

/-- With a rate other than 0 and a list file without items the free
constructor panics. -/
theorem NewFreeValidator_of_itemless (lib : Stdlib) (ck : CuckooLib)
    (fs : String → FileRead) (filename : String) (rate : Rat)
    (hload : LoadFromFile lib fs filename = Except.ok []) (hrate : rate ≠ 0) :
    NewFreeValidator lib ck fs filename rate = none := by
  simp [NewFreeValidator, hload, hrate, NewCuckooFilter_zero]

/-- The filter choice of the two blacklist constructors never panics: the
cuckoo filter is built for at least 1000 items only. -/
theorem blacklist_filter_isSome (ck : CuckooLib) (rate : Rat) (items : List String) :
    ∃ f : Filter ck,
      (if rate = 0 ∨ items.length < 1000 then some (Filter.exact NewMapFilter)
        else (NewCuckooFilter ck items.length rate).map Filter.cuckoo) = some f := by
  by_cases h : rate = 0 ∨ items.length < 1000
  · exact ⟨_, if_pos h⟩
  · have hlen : 0 < items.length := by
      have : ¬ items.length < 1000 := fun hh => h (Or.inr hh)
      omega
    rw [if_neg h, NewCuckooFilter_of_pos ck _ rate hlen]
    exact ⟨_, rfl⟩

/-- C19 (evaluation of the code): a disposable or free list file that loads
without an item (a comment and a blank line here) and the rate 0.01 make
`NewDisposableValidator` and `NewFreeValidator` panic in `NewCuckooFilter(0,
rate)`, although the load did not fail; with the rate 0, and in the blacklist
constructors, which take the map for fewer than 1000 items, the same file gives
a checker. Apart from that panic the claim holds: `NewBlackListDomainsValidator`
always returns a checker, valid on every address when the file does not load,
and the other constructors return an error exactly when the file does not
load. -/
theorem constructors_panic_on_itemless_list :
    LoadFromFile exampleStdlib itemlessFiles "disposable.txt" = Except.ok [] ∧
      NewDisposableValidator exampleStdlib noCuckoo itemlessFiles "disposable.txt" (1 / 100) =
        none ∧
      NewFreeValidator exampleStdlib noCuckoo itemlessFiles "free.txt" (1 / 100) = none ∧
      (NewDisposableValidator exampleStdlib noCuckoo itemlessFiles "disposable.txt" 0).isSome =
        true ∧
      (NewBlackListEmailsValidator exampleStdlib noCuckoo itemlessFiles "blacklist.txt"
        (1 / 100)).isSome = true ∧
      (∀ (lib : Stdlib) (ck : CuckooLib) (fs : String → FileRead) (filename : String)
          (rate : Rat), LoadFromFile lib fs filename = Except.ok [] → rate ≠ 0 →
        NewDisposableValidator lib ck fs filename rate = none ∧
          NewFreeValidator lib ck fs filename rate = none) ∧
      (∀ (lib : Stdlib) (ck : CuckooLib) (fs : String → FileRead) (filename : String)
          (rate : Rat),
        (∃ v, NewBlackListDomainsValidator lib ck fs filename rate = some (Except.ok v)) ∧
          ((LoadFromFile lib fs filename).isOk = false →
            ∃ v, NewBlackListDomainsValidator lib ck fs filename rate = some (Except.ok v) ∧
              ∀ (elapsed : Int) (email : String),
                (v.Validate lib elapsed email).Valid = true) ∧
          ((LoadFromFile lib fs filename).isOk = false →
            (∃ err, NewDisposableValidator lib ck fs filename rate = some (Except.error err)) ∧
            (∃ err, NewFreeValidator lib ck fs filename rate = some (Except.error err)) ∧
            (∃ err, NewBlackListEmailsValidator lib ck fs filename rate =
              some (Except.error err))) ∧
          (∀ items, LoadFromFile lib fs filename = Except.ok items →
            (rate = 0 ∨ items ≠ [] →
              (∃ v, NewDisposableValidator lib ck fs filename rate = some (Except.ok v)) ∧
              (∃ v, NewFreeValidator lib ck fs filename rate = some (Except.ok v))) ∧
            (∃ v, NewBlackListEmailsValidator lib ck fs filename rate =
              some (Except.ok v))) ∧
          (NewRoleValidator lib fs filename).isOk = (LoadFromFile lib fs filename).isOk ∧
          (NewBanWordsValidator lib fs filename).isOk =
            (LoadFromFile lib fs filename).isOk) := by
  have hload : ∀ name, LoadFromFile exampleStdlib itemlessFiles name = Except.ok [] := by
    intro name
    simp only [LoadFromFile, itemlessFiles]
    exact congrArg Except.ok (by decide)
  have hrate : (1 / 100 : Rat) ≠ 0 := by norm_num
  refine ⟨hload _, NewDisposableValidator_of_itemless _ _ _ _ _ (hload _) hrate,
    NewFreeValidator_of_itemless _ _ _ _ _ (hload _) hrate, ?_, ?_, ?_, ?_⟩
  · simp [NewDisposableValidator, hload]
  · simp [NewBlackListEmailsValidator, hload]
  · intro lib ck fs filename rate hl hr
    exact ⟨NewDisposableValidator_of_itemless _ _ _ _ _ hl hr,
      NewFreeValidator_of_itemless _ _ _ _ _ hl hr⟩
  · intro lib ck fs filename rate
    cases hl : LoadFromFile lib fs filename with
    | error err =>
      refine ⟨?_, ?_, ?_, ?_, ?_, ?_⟩
      · refine ⟨{ filter := Filter.exact NewMapFilter, enabled := true }, ?_⟩
        simp [NewBlackListDomainsValidator, hl, addItems]
      · intro _
        refine ⟨{ filter := Filter.exact NewMapFilter, enabled := true }, ?_, ?_⟩
        · simp [NewBlackListDomainsValidator, hl, addItems]
        · intro elapsed email
          simp [BlackListDomainsValidator.Validate, Filter.Contains, MapFilter.Contains,
            NewMapFilter, mapGet]
      · intro _
        refine ⟨⟨"failed to load disposable emails file: " ++ err, ?_⟩,
          ⟨"failed to load free emails file: " ++ err, ?_⟩,
          ⟨"failed to load blacklisted emails file: " ++ err, ?_⟩⟩
        · simp only [NewDisposableValidator, hl]
        · simp only [NewFreeValidator, hl]
        · simp only [NewBlackListEmailsValidator, hl]
      · intro items hitems
        exact absurd hitems (by simp)
      · simp [NewRoleValidator, hl, Except.isOk, Except.toBool]
      · simp [NewBanWordsValidator, hl, Except.isOk, Except.toBool]
    | ok loaded =>
      obtain ⟨f, hf⟩ := blacklist_filter_isSome ck rate loaded
      refine ⟨?_, ?_, ?_, ?_, ?_, ?_⟩
      · refine ⟨{ filter := addItems lib f loaded, enabled := true }, ?_⟩
        simp only [NewBlackListDomainsValidator, hl, hf, Option.map_some']
      · intro h
        simp [Except.isOk, Except.toBool] at h
      · intro h
        simp [Except.isOk, Except.toBool] at h
      · intro items hitems
        have heq : loaded = items := by
          cases hitems
          rfl
        subst heq
        refine ⟨?_, ?_⟩
        · intro hcase
          by_cases hr : rate = 0
          · subst hr
            refine ⟨⟨{ filter := addItems lib (Filter.exact NewMapFilter) loaded,
                       enabled := true }, ?_⟩,
              ⟨{ filter := addItems lib (Filter.exact NewMapFilter) loaded,
                 enabled := true }, ?_⟩⟩
            · simp only [NewDisposableValidator, hl, if_true, Option.map_some']
            · simp only [NewFreeValidator, hl, if_true, Option.map_some']
          · have hne : loaded ≠ [] := hcase.resolve_left hr
            have hlen : 0 < loaded.length := List.length_pos.2 hne
            refine ⟨⟨{ filter := addItems lib (Filter.cuckoo
                        { filter := ck.NewFilter (adjustCapacity loaded.length) 4 loaded.length,
                          size := 0, capacity := adjustCapacity loaded.length }) loaded,
                       enabled := true }, ?_⟩,
              ⟨{ filter := addItems lib (Filter.cuckoo
                  { filter := ck.NewFilter (adjustCapacity loaded.length) 4 loaded.length,
                    size := 0, capacity := adjustCapacity loaded.length }) loaded,
                 enabled := true }, ?_⟩⟩
            · simp only [NewDisposableValidator, hl, if_neg hr,
                NewCuckooFilter_of_pos ck _ rate hlen, Option.map_some']
            · simp only [NewFreeValidator, hl, if_neg hr,
                NewCuckooFilter_of_pos ck _ rate hlen, Option.map_some']
        · refine ⟨{ filter := addItems lib f loaded, enabled := true }, ?_⟩
          simp only [NewBlackListEmailsValidator, hl, hf, Option.map_some']
      · simp [NewRoleValidator, hl, Except.isOk, Except.toBool]
      · simp [NewBanWordsValidator, hl, Except.isOk, Except.toBool]

/-! ## Claims on the grammar of the syntax gate -/

/-- C13 (counterexample): the input `"a@b"@mailinator.com` holds two
`@`; the parser accepts it (quoted local part), so the syntax gate lets it
through: the result has an entry for every enabled checker, the syntax entry
is valid, `extractDomain` is empty and the disposable entry is valid although
`mailinator.com` is on the list. -/
theorem syntax_gate_accepts_two_at_signs :
    ("\"a@b\"@mailinator.com" : String).data.count '@' = 2 ∧
      mapKeys (Check exampleStdlib exampleChecker (clockAt 0) exampleSched
        "\"a@b\"@mailinator.com").result.Results = ["syntax", "disposable", "role"] ∧
      validFlag (Check exampleStdlib exampleChecker (clockAt 0) exampleSched
        "\"a@b\"@mailinator.com").result.Results "syntax" = some true ∧
      extractDomain exampleStdlib "\"a@b\"@mailinator.com" = "" ∧
      validFlag (Check exampleStdlib exampleChecker (clockAt 0) exampleSched
        "\"a@b\"@mailinator.com").result.Results "disposable" = some true ∧
      (Check exampleStdlib exampleChecker (clockAt 0) exampleSched
        "\"a@b\"@mailinator.com").result.IsValid = true := by
  refine ⟨by decide, by decide, by decide, by decide, by decide, by decide⟩

/-! ## Claims on the registry -/

theorem mapKeys_mapSet_of_mem {β : Type} (m : List (String × β)) (k : String) (v : β)
    (h : k ∈ mapKeys m) : mapKeys (mapSet m k v) = mapKeys m := by
  induction m with
  | nil => simp [mapKeys] at h
  | cons hd tl ih =>
    obtain ⟨k0, v0⟩ := hd
    by_cases hk : k0 = k
    · subst hk
      simp [mapSet, mapKeys]
    · have htl : k ∈ mapKeys tl := by
        simp only [mapKeys, List.map_cons, List.mem_cons] at h
        rcases h with h | h
        · exact absurd h.symm hk
        · exact h
      have ih2 := ih htl
      simp only [mapKeys] at ih2
      simp [mapSet, hk, mapKeys, ih2]

/-- C21: `SetValidatorEnabled(name, b)` returns an error exactly when `name`
is not registered, and then leaves the engine as it was; for a registered name
the checker under `name` gets the flag `b` and keeps its `Validate`, the entry
of every other name is unchanged, and so are the registered names. -/
theorem SetValidatorEnabled_spec (e : EmailChecker) (name : String) (b : Bool) :
    ((SetValidatorEnabled e name b).2.isSome = true ↔ name ∉ mapKeys e.validators) ∧
      (name ∉ mapKeys e.validators → (SetValidatorEnabled e name b).1 = e) ∧
      (∀ v, mapGet e.validators name = some v →
        mapGet (SetValidatorEnabled e name b).1.validators name =
          some { v with enabled := b }) ∧
      (∀ n, n ≠ name →
        mapGet (SetValidatorEnabled e name b).1.validators n = mapGet e.validators n) ∧
      mapKeys (SetValidatorEnabled e name b).1.validators = mapKeys e.validators := by
  cases hget : mapGet e.validators name with
  | none =>
    have hnot : name ∉ mapKeys e.validators := (mapGet_eq_none_iff _ _).1 hget
    simp [SetValidatorEnabled, hget, hnot]
  | some v =>
    have hmem : name ∈ mapKeys e.validators := by
      by_contra hnot
      rw [(mapGet_eq_none_iff _ _).2 hnot] at hget
      exact absurd hget (by simp)
    refine ⟨?_, ?_, ?_, ?_, ?_⟩
    · simp [SetValidatorEnabled, hget, hmem]
    · intro hnot
      exact absurd hmem hnot
    · intro w hw
      cases hw
      simp [SetValidatorEnabled, hget, mapGet_mapSet]
    · intro n hn
      simp [SetValidatorEnabled, hget, mapGet_mapSet, hn]
    · simp only [SetValidatorEnabled, hget]
      exact mapKeys_mapSet_of_mem _ _ _ hmem

/-! ## Claims on the network checkers -/

/-- C22 (counterexample): a `*textproto.Error` with code 220, which is neither
550 nor 551 nor a 4xx code, gives `CanReceive = true`. -/
theorem tryRCPT_protocol_error_2xx :
    (tryRCPT (RcptOutcome.protocolError 220 "mx.acme.com ready")).CanReceive = true ∧
      (tryRCPT (RcptOutcome.protocolError 220 "mx.acme.com ready")).IsMailbox = true ∧
      (tryRCPT (RcptOutcome.protocolError 220 "mx.acme.com ready")).Code = 220 := by
  refine ⟨by decide, by decide, by decide⟩

/-- The sorted slice of a successful lookup is not empty. -/
theorem sorted_lookup_ne_nil (res : Resolver) (srt : SortSlice) (domain : String)
    (records : List MX) (hlook : res.LookupMX domain = Except.ok records) :
    srt.Slice mxLess records ≠ [] := by
  intro hnil
  have hperm := srt.perm mxLess records
  rw [hnil] at hperm
  exact res.LookupMX_records domain records hlook (List.Perm.nil_eq hperm).symm

/-- C22 (amended): `tryRCPT` classifies every outcome of `RCPT TO`. Acceptance
gives code 250, `CanReceive` and `IsMailbox`. A protocol error keeps its code:
a 2xx code gives `CanReceive` and `IsMailbox` with the server's message, 550
gives `Mailbox does not exist`, 551 `User not local`, any other 4xx
`Temporary failure`, and any other code the server's message, all four with
`CanReceive = false`. Any other error gives code 0, its text and
`CanReceive = false`. The session's response is that of `tryRCPT` when the
steps up to `MAIL FROM` succeed and RCPT is enabled, the connection-only probe
(code 250, `CanReceive`) when they succeed and RCPT is disabled, and code 0
with `CanReceive = false` when a step fails; for every configuration and
session the checker's `Valid` is the `CanReceive` of the session's response,
which it reports under `smtp_response`. -/
theorem tryRCPT_classification (code : Int) (msg text : String) :
    tryRCPT RcptOutcome.accepted =
        { Code := 250, Message := "Recipient accepted", CanReceive := true, IsMailbox := true,
          IsCatchAll := false } ∧
      (200 ≤ code ∧ code < 300 →
        tryRCPT (RcptOutcome.protocolError code msg) =
          { Code := code, Message := msg, CanReceive := true, IsMailbox := true,
            IsCatchAll := false }) ∧
      tryRCPT (RcptOutcome.protocolError 550 msg) =
        { Code := 550, Message := "Mailbox does not exist", CanReceive := false,
          IsMailbox := false, IsCatchAll := false } ∧
      tryRCPT (RcptOutcome.protocolError 551 msg) =
        { Code := 551, Message := "User not local", CanReceive := false,
          IsMailbox := false, IsCatchAll := false } ∧
      (400 ≤ code ∧ code < 500 →
        tryRCPT (RcptOutcome.protocolError code msg) =
          { Code := code, Message := "Temporary failure", CanReceive := false,
            IsMailbox := false, IsCatchAll := false }) ∧
      (¬ (200 ≤ code ∧ code < 300) → code ≠ 550 → code ≠ 551 → ¬ (400 ≤ code ∧ code < 500) →
        tryRCPT (RcptOutcome.protocolError code msg) =
          { Code := code, Message := msg, CanReceive := false, IsMailbox := false,
            IsCatchAll := false }) ∧
      tryRCPT (RcptOutcome.otherError text) =
        { Code := 0, Message := text, CanReceive := false, IsMailbox := false,
          IsCatchAll := false } ∧
      (∀ (config : SMTPConfig) (session : SMTPSession),
        (session.dial = none → session.newClient = none → session.hello = none →
          session.mail = none →
          (config.EnableRCPT = true → validateViaSMTP config session = tryRCPT session.rcpt) ∧
          (config.EnableRCPT = false →
            validateViaSMTP config session =
              { Code := 250, Message := "SMTP connection successful", CanReceive := true,
                IsMailbox := false, IsCatchAll := false })) ∧
        (session.dial ≠ none ∨ session.newClient ≠ none ∨ session.hello ≠ none ∨
            session.mail ≠ none →
          (validateViaSMTP config session).Code = 0 ∧
            (validateViaSMTP config session).CanReceive = false)) ∧
      (∀ (lib : Stdlib) (res : Resolver) (srt : SortSlice) (config : SMTPConfig)
          (session : SMTPSession) (elapsed : Int) (email : String) (records : List MX),
        res.LookupMX (extractDomain lib email) = Except.ok records →
          (SMTPValidator.Validate lib res srt config session elapsed email).Valid =
              (validateViaSMTP config session).CanReceive ∧
            mapGet (SMTPValidator.Validate lib res srt config session elapsed email).Details
                "smtp_response" =
              some (Detail.smtp (validateViaSMTP config session))) ∧
      (∀ (lib : Stdlib) (res : Resolver) (srt : SortSlice) (config : SMTPConfig)
          (session : SMTPSession) (elapsed : Int) (email err : String),
        res.LookupMX (extractDomain lib email) = Except.error err →
          (SMTPValidator.Validate lib res srt config session elapsed email).Valid = false ∧
            (SMTPValidator.Validate lib res srt config session elapsed email).Details = []) := by
  refine ⟨rfl, ?_, rfl, rfl, ?_, ?_, rfl, ?_, ?_, ?_⟩
  · intro h
    simp [tryRCPT, h.1, h.2]
  · intro h
    have h1 : ¬ (200 ≤ code ∧ code < 300) := by omega
    have h2 : code ≠ 550 := by omega
    have h3 : code ≠ 551 := by omega
    simp [tryRCPT, h1, h2, h3, h.1, h.2]
  · intro h1 h2 h3 h4
    simp only [tryRCPT, ge_iff_le, h1, h2, h3, h4, if_false]
  · intro config session
    obtain ⟨dial, newClient, hello, mail, rcpt⟩ := session
    refine ⟨?_, ?_⟩
    · intro hd hn hh hm
      simp only at hd hn hh hm
      subst hd hn hh hm
      refine ⟨?_, ?_⟩
      · intro hr
        simp [validateViaSMTP, hr]
      · intro hr
        simp [validateViaSMTP, hr]
    · intro hfail
      cases dial <;> cases newClient <;> cases hello <;> cases mail <;>
        simp [validateViaSMTP] at hfail ⊢
  · intro lib res srt config session elapsed email records hlook
    have hsorted := sorted_lookup_ne_nil res srt _ records hlook
    simp only [SMTPValidator.Validate, hlook]
    cases hs : srt.Slice mxLess records with
    | nil => exact absurd hs hsorted
    | cons primary rest => simp [mapGet]
  · intro lib res srt config session elapsed email err hlook
    simp [SMTPValidator.Validate, hlook]

theorem mxDetailsOf_host_priority (res : Resolver) (l : List MX) :
    (mxDetailsOf res l).map (fun d => (d.Host, d.Priority)) =
      l.map fun m => (m.Host, m.Pref) := by
  simp [mxDetailsOf, List.map_map, Function.comp_def]

theorem pairwise_mxDetailsOf (res : Resolver) (l : List MX)
    (h : l.Pairwise fun a b => a.Pref ≤ b.Pref) :
    (mxDetailsOf res l).Pairwise fun a b => a.Priority ≤ b.Priority := by
  simp only [mxDetailsOf, List.pairwise_map]
  exact h

/-- With the comparator of the source, the sorted slice is in non-decreasing
`Pref`. -/
theorem pairwise_Pref_Slice (srt : SortSlice) (l : List MX) :
    (srt.Slice mxLess l).Pairwise fun a b => a.Pref ≤ b.Pref := by
  have hsorted := srt.sorted mxLess l
    (by
      intro a b h
      simp only [mxLess, decide_eq_true_eq, decide_eq_false_iff_not] at h ⊢
      omega)
    (by
      intro a b c h1 h2
      simp only [mxLess, decide_eq_false_iff_not] at h1 h2 ⊢
      omega)
  refine hsorted.imp ?_
  intro a b h
  simp only [mxLess, decide_eq_false_iff_not] at h
  omega

/-- C23: when the MX lookup succeeds with at least one record, the mx checker
returns a result whose `mx_records` are, by host and priority, a permutation
of the looked-up records in non-decreasing priority, whose `mx_count` is the
number of records, and whose `primary_mx` is the host of a looked-up record of
minimal preference; the order comes from the comparator `Pref < Pref` that the
checker hands to `sort.Slice`. -/
theorem MXValidator_details (lib : Stdlib) (res : Resolver) (srt : SortSlice) (elapsed : Int)
    (email : String) (records : List MX)
    (hlook : res.LookupMX (extractDomain lib email) = Except.ok records)
    (hne : records ≠ []) :
    ∃ r details, MXValidator.Validate lib res srt elapsed email = some r ∧
      mapGet r.Details "mx_records" = some (Detail.mxRecords details) ∧
      (details.map fun d => (d.Host, d.Priority)).Perm (records.map fun m => (m.Host, m.Pref)) ∧
      (details.Pairwise fun a b => a.Priority ≤ b.Priority) ∧
      mapGet r.Details "mx_count" = some (Detail.num records.length) ∧
      ∃ m ∈ records, mapGet r.Details "primary_mx" = some (Detail.str m.Host) ∧
        ∀ m2 ∈ records, m.Pref ≤ m2.Pref := by
  have hperm := srt.perm mxLess records
  have hsorted := pairwise_Pref_Slice srt records
  cases hs : srt.Slice mxLess records with
  | nil =>
    rw [hs] at hperm
    exact absurd (List.Perm.nil_eq hperm).symm hne
  | cons primary rest =>
    rw [hs] at hperm hsorted
    refine ⟨{ Valid := true, Message := "Valid MX records found",
              Details :=
                [("mx_records", Detail.mxRecords (mxDetailsOf res (primary :: rest))),
                 ("mx_count", Detail.num (primary :: rest).length),
                 ("primary_mx", Detail.str primary.Host)],
              Duration := elapsed, Error := "" },
      mxDetailsOf res (primary :: rest), ?_, ?_, ?_, ?_, ?_, primary, ?_, ?_, ?_⟩
    · simp [MXValidator.Validate, hlook, hs, mxDetailsOf]
    · simp [mapGet]
    · rw [mxDetailsOf_host_priority]
      exact hperm.map _
    · exact pairwise_mxDetailsOf res _ hsorted
    · simp only [mapGet]
      simp [hperm.length_eq.symm]
    · exact hperm.subset (List.mem_cons_self _ _)
    · simp [mapGet, mxDetailsOf]
    · intro m2 hm2
      have hm2s : m2 ∈ primary :: rest := hperm.symm.subset hm2
      rcases List.mem_cons.1 hm2s with h | h
      · rw [h]
      · exact (List.pairwise_cons.1 hsorted).1 m2 h

theorem MXValidator_details_witness :
    ∃ r details, MXValidator.Validate exampleStdlib exampleResolver exampleSortSlice 0
        "admin@acme.com" = some r ∧
      mapGet r.Details "mx_records" = some (Detail.mxRecords details) ∧
      (details.map fun d => (d.Host, d.Priority)).Perm
        (([{ Host := "backup.acme.com.", Pref := 20 }, { Host := "mx.acme.com.", Pref := 10 }] :
          List MX).map fun m => (m.Host, m.Pref)) ∧
      (details.Pairwise fun a b => a.Priority ≤ b.Priority) ∧
      mapGet r.Details "mx_count" = some (Detail.num
        ([{ Host := "backup.acme.com.", Pref := 20 }, { Host := "mx.acme.com.", Pref := 10 }] :
          List MX).length) ∧
      ∃ m ∈ ([{ Host := "backup.acme.com.", Pref := 20 }, { Host := "mx.acme.com.", Pref := 10 }] :
          List MX),
        mapGet r.Details "primary_mx" = some (Detail.str m.Host) ∧
        ∀ m2 ∈ ([{ Host := "backup.acme.com.", Pref := 20 },
            { Host := "mx.acme.com.", Pref := 10 }] : List MX), m.Pref ≤ m2.Pref :=
  MXValidator_details exampleStdlib exampleResolver exampleSortSlice 0 "admin@acme.com"
    [{ Host := "backup.acme.com.", Pref := 20 }, { Host := "mx.acme.com.", Pref := 10 }]
    rfl (by decide)

/-- The mx checker on the worked example: the record of preference 10 comes
first and is the primary MX. -/
theorem MXValidator_example :
    (MXValidator.Validate exampleStdlib exampleResolver exampleSortSlice 0
        "admin@acme.com").map ValidationResult.Details =
      some [("mx_records", Detail.mxRecords
              [{ Host := "mx.acme.com.", Priority := 10, IP := "192.0.2.1" },
               { Host := "backup.acme.com.", Priority := 20, IP := "" }]),
            ("mx_count", Detail.num 2), ("primary_mx", Detail.str "mx.acme.com.")] := by
  decide

/-- C30: the mx checker returns a result on every outcome of the resolver. On
a lookup error it reports the A-record fallback and reads no element of
`mxDetails`; a lookup without error holds at least one record, so `mxDetails`
has an element at index 0 and `primary_mx` is its host, the first record of the
sorted slice. The source has no test of the length before `mxDetails[0]`; the
index is in range because the resolver reports an answer without MX records as
an error. -/
theorem MXValidator_total (lib : Stdlib) (res : Resolver) (srt : SortSlice) (elapsed : Int)
    (email : String) :
    (∃ r, MXValidator.Validate lib res srt elapsed email = some r) ∧
      (∀ records, res.LookupMX (extractDomain lib email) = Except.ok records →
        0 < (mxDetailsOf res (srt.Slice mxLess records)).length ∧
          ∃ first rest r, srt.Slice mxLess records = first :: rest ∧
            MXValidator.Validate lib res srt elapsed email = some r ∧
            r.Valid = true ∧
            mapGet r.Details "primary_mx" = some (Detail.str first.Host)) ∧
      (∀ err, res.LookupMX (extractDomain lib email) = Except.error err →
        ∃ r, MXValidator.Validate lib res srt elapsed email = some r ∧
          mapGet r.Details "primary_mx" = none) := by
  have hok : ∀ records, res.LookupMX (extractDomain lib email) = Except.ok records →
      0 < (mxDetailsOf res (srt.Slice mxLess records)).length ∧
        ∃ first rest r, srt.Slice mxLess records = first :: rest ∧
          MXValidator.Validate lib res srt elapsed email = some r ∧
          r.Valid = true ∧
          mapGet r.Details "primary_mx" = some (Detail.str first.Host) := by
    intro records hlook
    have hsorted := sorted_lookup_ne_nil res srt _ records hlook
    cases hs : srt.Slice mxLess records with
    | nil => exact absurd hs hsorted
    | cons first rest =>
      refine ⟨by simp [mxDetailsOf], first, rest,
        { Valid := true, Message := "Valid MX records found",
          Details :=
            [("mx_records", Detail.mxRecords (mxDetailsOf res (first :: rest))),
             ("mx_count", Detail.num (first :: rest).length),
             ("primary_mx", Detail.str first.Host)],
          Duration := elapsed, Error := "" }, rfl, ?_, rfl, ?_⟩
      · simp [MXValidator.Validate, hlook, hs, mxDetailsOf]
      · simp [mapGet]
  have herr : ∀ err, res.LookupMX (extractDomain lib email) = Except.error err →
      ∃ r, MXValidator.Validate lib res srt elapsed email = some r ∧
        mapGet r.Details "primary_mx" = none := by
    intro err hlook
    cases hip : res.LookupIPAddr (extractDomain lib email) with
    | error aErr =>
      have hres : MXValidator.Validate lib res srt elapsed email =
          some { Valid := false, Message := "No MX or A records found", Details := [],
                 Duration := elapsed, Error := err } := by
        simp only [MXValidator.Validate, hlook, hip]
      exact ⟨_, hres, by simp [mapGet]⟩
    | ok ips =>
      have hres : MXValidator.Validate lib res srt elapsed email =
          some { Valid := true
                 Message := "No MX record, but domain has A record (implicit MX)"
                 Details := [("implicit_mx", Detail.flag true),
                   ("a_records", Detail.num ips.length)]
                 Duration := elapsed
                 Error := "" } := by
        simp only [MXValidator.Validate, hlook, hip]
      exact ⟨_, hres, by simp [mapGet]⟩
  refine ⟨?_, hok, herr⟩
  cases hlook : res.LookupMX (extractDomain lib email) with
  | error err =>
    obtain ⟨r, hr, _⟩ := herr err hlook
    exact ⟨r, hr⟩
  | ok records =>
    obtain ⟨_, _, _, r, _, hr, _⟩ := hok records hlook
    exact ⟨r, hr⟩

/-! ## Claims on the batch summary -/

theorem foldl_countFlagStep_none (flag : CheckSummary → Bool) (l : List CheckResult) :
    l.foldl (countFlagStep flag) none = none := by
  induction l with
  | nil => rfl
  | cons r rest ih => simpa [countFlagStep] using ih

theorem foldl_countFlagStep_of_nil_summary (flag : CheckSummary → Bool)
    (l : List CheckResult) (count : Option Nat) (r : CheckResult) (hr : r ∈ l)
    (hnil : r.Summary = none) : l.foldl (countFlagStep flag) count = none := by
  induction l generalizing count with
  | nil => exact absurd hr (List.not_mem_nil _)
  | cons a rest ih =>
    rw [List.foldl_cons]
    rcases List.mem_cons.1 hr with h | h
    · subst h
      have hstep : countFlagStep flag count r = none := by
        cases count <;> simp [countFlagStep, hnil]
      rw [hstep, foldl_countFlagStep_none]
    · exact ih _ h

/-- C24 (evaluation of the code): the result for the rejected address
`not-an-email` carries no summary; `countValid` counts it, while
`countDisposable`, `countFree` and `countRole` read a field through the nil
`Summary` and panic, so the batch summary of any list that holds a rejected
result is not built. -/
theorem batch_summary_panics_on_rejected :
    (Check exampleStdlib exampleChecker (clockAt 0) exampleSched
        "not-an-email").result.Summary = none ∧
      countValid [(Check exampleStdlib exampleChecker (clockAt 0) exampleSched
        "not-an-email").result] = 0 ∧
      countDisposable [(Check exampleStdlib exampleChecker (clockAt 0) exampleSched
        "not-an-email").result] = none ∧
      countFree [(Check exampleStdlib exampleChecker (clockAt 0) exampleSched
        "not-an-email").result] = none ∧
      countRole [(Check exampleStdlib exampleChecker (clockAt 0) exampleSched
        "not-an-email").result] = none ∧
      batchSummary
        [(Check exampleStdlib exampleChecker (clockAt 0) exampleSched "a@b.com").result,
         (Check exampleStdlib exampleChecker (clockAt 0) exampleSched
           "not-an-email").result] = none ∧
      (∀ (results : List CheckResult) (r : CheckResult), r ∈ results → r.Summary = none →
        batchSummary results = none) := by
  refine ⟨by decide, by decide, by decide, by decide, by decide, by decide, ?_⟩
  intro results r hr hnil
  have hd : countDisposable results = none :=
    foldl_countFlagStep_of_nil_summary _ results _ r hr hnil
  simp [batchSummary, hd]

/-! ## Claims on the parameters of the cuckoo filter -/

/-- C29: `NewCuckooFilter` does not use its rate: for every capacity and every
two rates the two calls have the same outcome. For no item both panic in
`cuckoo.NewFilter`; for at least one item both return a filter with the same
recorded capacity, the same arguments to `cuckoo.NewFilter` and size 0. -/
theorem NewCuckooFilter_ignores_rate (ck : CuckooLib) (n : Nat) (p q : Rat) :
    NewCuckooFilter ck n p = NewCuckooFilter ck n q ∧
      (n = 0 → NewCuckooFilter ck n p = none ∧ NewCuckooFilter ck n q = none) ∧
      (0 < n →
        NewCuckooFilter ck n p =
            some { filter := ck.NewFilter (adjustCapacity n) 4 n, size := 0,
                   capacity := adjustCapacity n } ∧
          NewCuckooFilter ck n q =
            some { filter := ck.NewFilter (adjustCapacity n) 4 n, size := 0,
                   capacity := adjustCapacity n }) := by
  refine ⟨rfl, ?_, ?_⟩
  · intro h0
    subst h0
    exact ⟨NewCuckooFilter_zero ck p, NewCuckooFilter_zero ck q⟩
  · intro hn
    exact ⟨NewCuckooFilter_of_pos ck n p hn, NewCuckooFilter_of_pos ck n q hn⟩

/-! ## Lemmas on the collector loop -/

theorem mem_of_mapGet_eq_some {β : Type} (m : List (String × β)) (k : String) (v : β)
    (h : mapGet m k = some v) : (k, v) ∈ m := by
  induction m with
  | nil => simp [mapGet] at h
  | cons hd tl ih =>
    obtain ⟨k0, v0⟩ := hd
    by_cases hk : k0 = k
    · subst hk
      simp only [mapGet, if_true, Option.some.injEq] at h
      subst h
      exact List.mem_cons_self _ _
    · simp only [mapGet, hk, if_false] at h
      exact List.mem_cons_of_mem _ (ih h)

theorem mapGet_collect_of_forall (reports m : List (String × ValidationResult)) (k : String)
    (v : ValidationResult) (hall : ∀ r ∈ reports, r.1 = k → r.2 = v)
    (hex : mapGet m k = some v ∨ ∃ r ∈ reports, r.1 = k) :
    mapGet (collect m reports) k = some v := by
  induction reports generalizing m with
  | nil =>
    rcases hex with h | ⟨r, hr, _⟩
    · simpa [collect] using h
    · exact absurd hr (List.not_mem_nil _)
  | cons r rest ih =>
    have ih2 := ih (mapSet m r.1 r.2) (fun x hx => hall x (List.mem_cons_of_mem _ hx))
    simp only [collect, List.foldl_cons] at ih2 ⊢
    apply ih2
    by_cases hrk : r.1 = k
    · left
      rw [mapGet_mapSet, hrk, hall r (List.mem_cons_self _ _) hrk]
      simp
    · rcases hex with h | ⟨x, hx, hxk⟩
      · left
        have hne : ¬ k = r.1 := fun hh => hrk hh.symm
        rw [mapGet_mapSet, if_neg hne]
        exact h
      · rcases List.mem_cons.1 hx with hxr | hxr
        · exact absurd (hxr ▸ hxk) hrk
        · exact Or.inr ⟨x, hxr, hxk⟩

/-! ## Claims on the semaphore -/

/-- The invariant of the semaphore: the tokens in the channel are those of the
tasks that run a checker, and they do not exceed the capacity. -/
theorem FanOut_step_invariant (s next : FanOut) (ev : TaskEvent)
    (hinv : s.tasks.count TaskPhase.validating = s.tokens ∧ s.tokens ≤ s.capacity)
    (hstep : s.step ev = some next) :
    (next.tasks.count TaskPhase.validating = next.tokens ∧ next.tokens ≤ next.capacity) ∧
      next.capacity = s.capacity := by
  cases ev with
  | spawn =>
    simp only [FanOut.step, Option.some.injEq] at hstep
    subst hstep
    simpa using hinv
  | select i =>
    simp only [FanOut.step] at hstep
    split at hstep
    · rename_i hphase
      obtain ⟨hlt, hget⟩ := List.getElem?_eq_some_iff.1 hphase
      split at hstep
      · rename_i hroom
        simp only [Option.some.injEq] at hstep
        subst hstep
        simp only [List.count_set _ _ _ _ hlt, hget]
        refine ⟨⟨?_, ?_⟩, trivial⟩
        · simp [hinv.1]
        · omega
      · simp only [Option.some.injEq] at hstep
        subst hstep
        simp only [List.count_set _ _ _ _ hlt, hget]
        refine ⟨⟨?_, hinv.2⟩, trivial⟩
        simp [hinv.1]
    · exact absurd hstep (by simp)
  | exit i =>
    simp only [FanOut.step] at hstep
    split at hstep
    · rename_i hphase
      obtain ⟨hlt, hget⟩ := List.getElem?_eq_some_iff.1 hphase
      simp only [Option.some.injEq] at hstep
      subst hstep
      simp only [List.count_set _ _ _ _ hlt, hget]
      refine ⟨⟨?_, ?_⟩, trivial⟩
      · simp [hinv.1]
      · have := hinv.2
        omega
    · exact absurd hstep (by simp)

theorem FanOut_run_invariant (events : List TaskEvent) (s final : FanOut)
    (hinv : s.tasks.count TaskPhase.validating = s.tokens ∧ s.tokens ≤ s.capacity)
    (hrun : s.run events = some final) :
    (final.tasks.count TaskPhase.validating = final.tokens ∧
      final.tokens ≤ final.capacity) ∧ final.capacity = s.capacity := by
  induction events generalizing s with
  | nil =>
    simp only [FanOut.run, Option.some.injEq] at hrun
    subst hrun
    exact ⟨hinv, rfl⟩
  | cons ev rest ih =>
    simp only [FanOut.run] at hrun
    cases hstep : s.step ev with
    | none => simp [hstep] at hrun
    | some next =>
      rw [hstep] at hrun
      have h1 := FanOut_step_invariant s next ev hinv hstep
      have h2 := ih next h1.1 hrun
      exact ⟨h2.1, h2.2.trans h1.2⟩

/-- With a semaphore of capacity 0 no task ever sends on it. -/
theorem FanOut_step_no_token (s next : FanOut) (ev : TaskEvent) (hcap : s.capacity = 0)
    (hinv : TaskPhase.validating ∉ s.tasks ∧ TaskPhase.finished ∉ s.tasks)
    (hstep : s.step ev = some next) :
    next.capacity = 0 ∧ TaskPhase.validating ∉ next.tasks ∧ TaskPhase.finished ∉ next.tasks := by
  cases ev with
  | spawn =>
    simp only [FanOut.step, Option.some.injEq] at hstep
    subst hstep
    simp [hcap, hinv.1, hinv.2]
  | select i =>
    simp only [FanOut.step, hcap, Nat.not_lt_zero, if_false] at hstep
    split at hstep
    · simp only [Option.some.injEq] at hstep
      subst hstep
      refine ⟨rfl, ?_, ?_⟩
      · intro hmem
        rcases List.mem_or_eq_of_mem_set hmem with h | h
        · exact hinv.1 h
        · cases h
      · intro hmem
        rcases List.mem_or_eq_of_mem_set hmem with h | h
        · exact hinv.2 h
        · cases h
    · exact absurd hstep (by simp)
  | exit i =>
    simp only [FanOut.step] at hstep
    split at hstep
    · rename_i hphase
      exact absurd (List.getElem?_mem hphase) hinv.1
    · exact absurd hstep (by simp)

theorem FanOut_run_no_token (events : List TaskEvent) (s final : FanOut)
    (hcap : s.capacity = 0)
    (hinv : TaskPhase.validating ∉ s.tasks ∧ TaskPhase.finished ∉ s.tasks)
    (hrun : s.run events = some final) : ∀ i, final.granted i = false := by
  induction events generalizing s with
  | nil =>
    simp only [FanOut.run, Option.some.injEq] at hrun
    subst hrun
    intro i
    unfold FanOut.granted
    cases hphase : s.tasks[i]? with
    | none => rfl
    | some phase =>
      have hmem := List.getElem?_mem hphase
      cases phase with
      | spawned => rfl
      | skipped => rfl
      | validating => exact absurd hmem hinv.1
      | finished => exact absurd hmem hinv.2
  | cons ev rest ih =>
    simp only [FanOut.run] at hrun
    cases hstep : s.step ev with
    | none => simp [hstep] at hrun
    | some next =>
      rw [hstep] at hrun
      have h1 := FanOut_step_no_token s next ev hcap hinv hstep
      exact ih next h1.1 h1.2 hrun

/-- The checkers `runValidators` invokes are those of the tasks that got a
token. -/
theorem mem_invoked_iff (e : EmailChecker) (sched : Sched) (result : CheckResult)
    (names : List String) (name : String) :
    name ∈ (runValidators e sched result names).2 ↔
      ∃ i v, (i, (name, v)) ∈ (spawnedTasks e names).enum ∧ sched.acquire i = true := by
  simp only [runValidators, List.mem_map, List.mem_filter]
  constructor
  · rintro ⟨⟨i, n, v⟩, ⟨hmem, hacq⟩, rfl⟩
    exact ⟨i, v, hmem, hacq⟩
  · rintro ⟨i, v, hmem, hacq⟩
    exact ⟨(i, (name, v)), ⟨hmem, hacq⟩, rfl⟩

/-- C25: the semaphore of the engine has capacity `MaxConcurrentValidations`.
A task that finds it full (its `select` takes `default`) is marked skipped,
does not invoke its checker and reports the synthetic entry, with
`Valid = false`, the rate-limit message, no details and no error. A task whose
`select` finds room takes a token, invokes its checker, reports the checker's
answer, and gives the token back when it returns. In every state reached from
the start the number of running checkers is the number of tokens held and at
most `MaxConcurrentValidations`; a call of `runValidators` scheduled by such a
run invokes exactly the checkers of its tasks that took a token, and none when
`MaxConcurrentValidations` is 0. -/
theorem semaphore_caps_invocations (e : EmailChecker) (events : List TaskEvent)
    (final : FanOut) (hrun : e.semaphore.run events = some final) :
    (∀ (sched : Sched) (email : String) (task : Nat × String × Validator),
        sched.acquire task.1 = false → runTask sched email task = (task.2.1, rateLimited)) ∧
      rateLimited =
        { Valid := false, Message := "skipped due to rate limiting", Details := [],
          Duration := 0, Error := "" } ∧
      (∀ (sched : Sched) (email : String) (task : Nat × String × Validator),
        sched.acquire task.1 = true →
          runTask sched email task = (task.2.1, task.2.2.Validate email)) ∧
      (∀ (sched : Sched) (result : CheckResult) (names : List String) (name : String),
        name ∈ (runValidators e sched result names).2 ↔
          ∃ i v, (i, (name, v)) ∈ (spawnedTasks e names).enum ∧ sched.acquire i = true) ∧
      (∀ (s : FanOut) (i : Nat), s.tasks[i]? = some TaskPhase.spawned →
        s.tokens = s.capacity →
        s.step (TaskEvent.select i) = some { s with tasks := s.tasks.set i TaskPhase.skipped }) ∧
      (∀ (s : FanOut) (i : Nat), s.tasks[i]? = some TaskPhase.spawned →
        s.tokens < s.capacity →
        s.step (TaskEvent.select i) =
          some { s with tokens := s.tokens + 1,
                        tasks := s.tasks.set i TaskPhase.validating }) ∧
      (∀ (s : FanOut) (i : Nat), s.tasks[i]? = some TaskPhase.validating →
        s.step (TaskEvent.exit i) =
          some { s with tokens := s.tokens - 1, tasks := s.tasks.set i TaskPhase.finished }) ∧
      final.capacity = e.config.MaxConcurrentValidations ∧
      final.tasks.count TaskPhase.validating = final.tokens ∧
      final.tasks.count TaskPhase.validating ≤ e.config.MaxConcurrentValidations ∧
      (∀ (pos : Nat → Nat) (order : Sched) (result : CheckResult) (names : List String)
          (name : String),
        name ∈ (runValidators e (Sched.ofRun final pos order) result names).2 ↔
          ∃ i v, (i, (name, v)) ∈ (spawnedTasks e names).enum ∧
            (final.tasks[pos i]? = some TaskPhase.validating ∨
              final.tasks[pos i]? = some TaskPhase.finished)) ∧
      (e.config.MaxConcurrentValidations = 0 →
        ∀ (pos : Nat → Nat) (order : Sched) (result : CheckResult) (names : List String),
          (runValidators e (Sched.ofRun final pos order) result names).2 = [] ∧
            ∀ name, name ∈ mapKeys (runValidators e (Sched.ofRun final pos order)
                { result with Results := [] } names).1.Results →
              mapGet (runValidators e (Sched.ofRun final pos order)
                { result with Results := [] } names).1.Results name = some rateLimited) := by
  have hinv := FanOut_run_invariant events (FanOut.init e.config.MaxConcurrentValidations)
    final (by simp [FanOut.init]) hrun
  have hcap : final.capacity = e.config.MaxConcurrentValidations := hinv.2
  refine ⟨?_, rfl, ?_, mem_invoked_iff e, ?_, ?_, ?_, hcap, hinv.1.1, ?_, ?_, ?_⟩
  · intro sched email task h
    simp [runTask, h]
  · intro sched email task h
    simp [runTask, h]
  · intro s i hphase hfull
    simp [FanOut.step, hphase, hfull]
  · intro s i hphase hroom
    simp [FanOut.step, hphase, hroom]
  · intro s i hphase
    simp [FanOut.step, hphase]
  · rw [hinv.1.1, ← hcap]
    exact hinv.1.2
  · intro pos order result names name
    rw [mem_invoked_iff]
    have hgranted : ∀ i, (Sched.ofRun final pos order).acquire i = true ↔
        (final.tasks[pos i]? = some TaskPhase.validating ∨
          final.tasks[pos i]? = some TaskPhase.finished) := by
      intro i
      simp only [Sched.ofRun, FanOut.granted]
      cases hphase : final.tasks[pos i]? with
      | none => simp
      | some phase => cases phase <;> simp
    constructor
    · rintro ⟨i, v, hmem, hacq⟩
      exact ⟨i, v, hmem, (hgranted i).1 hacq⟩
    · rintro ⟨i, v, hmem, hacq⟩
      exact ⟨i, v, hmem, (hgranted i).2 hacq⟩
  · intro hzero pos order result names
    have hnone : ∀ i, final.granted i = false :=
      FanOut_run_no_token events (FanOut.init e.config.MaxConcurrentValidations) final
        (by simp [FanOut.init, hzero]) (by simp [FanOut.init]) hrun
    have hacq : ∀ i, (Sched.ofRun final pos order).acquire i = false := fun i => hnone (pos i)
    refine ⟨by simp [runValidators, hacq], ?_⟩
    intro name hname
    simp only [runValidators] at hname ⊢
    apply mapGet_collect_of_forall
    · intro r hr hrk
      have hr2 := ((Sched.ofRun final pos order).arrive_perm _).subset hr
      obtain ⟨task, _, rfl⟩ := List.mem_map.1 hr2
      simp [runTask, hacq]
    · right
      rw [mem_mapKeys_collect] at hname
      rcases hname with h | h
      · simp [mapKeys] at h
      · obtain ⟨r, hr, hrk⟩ := List.mem_map.1 h
        exact ⟨r, hr, hrk⟩

theorem semaphore_caps_invocations_witness :
    oneTokenChecker.semaphore.run oneTokenRun = some oneTokenFinal ∧
      oneTokenFinal.tasks.count TaskPhase.validating ≤
        oneTokenChecker.config.MaxConcurrentValidations ∧
      ("disposable" ∈ (runValidators oneTokenChecker (Sched.ofRun oneTokenFinal id exampleSched)
          exampleRequest []).2 ↔
        ∃ i v, (i, ("disposable", v)) ∈ (spawnedTasks oneTokenChecker []).enum ∧
          (oneTokenFinal.tasks[id i]? = some TaskPhase.validating ∨
            oneTokenFinal.tasks[id i]? = some TaskPhase.finished)) :=
  ⟨by decide,
    (semaphore_caps_invocations oneTokenChecker oneTokenRun oneTokenFinal
      (by decide)).2.2.2.2.2.2.2.2.2.1,
    (semaphore_caps_invocations oneTokenChecker oneTokenRun oneTokenFinal
      (by decide)).2.2.2.2.2.2.2.2.2.2.1 id exampleSched exampleRequest [] "disposable"⟩

/-- The one-token run on the example engine: the checkers of the first and
third task are invoked, the second task reports the synthetic entry. -/
theorem oneTokenRun_example :
    (runValidators oneTokenChecker (Sched.ofRun oneTokenFinal id exampleSched) exampleRequest
        ["syntax", "disposable", "role"]).2 = ["syntax", "role"] ∧
      mapGet (runValidators oneTokenChecker (Sched.ofRun oneTokenFinal id exampleSched)
        exampleRequest ["syntax", "disposable", "role"]).1.Results "disposable" =
        some rateLimited := by
  refine ⟨by decide, by decide⟩

/-! ## Claims on requests that select no checker, and on the cache across flag changes -/

theorem getValidatorsToRun_eq_nil (e : EmailChecker) (names : List String)
    (hne : names ≠ [])
    (hnone : ∀ n ∈ names, ∀ v, mapGet e.validators n = some v → v.enabled = false) :
    getValidatorsToRun e names = [] := by
  have hlen : names.length ≠ 0 := by simpa using hne
  simp only [getValidatorsToRun, hlen, if_false, List.filter_eq_nil_iff]
  intro n hn
  cases hget : mapGet e.validators n with
  | none => simp
  | some v => simp [hnone n hn v hget]

/-- C26 (counterexample): the result of `("a@b.com", ["role"])` is cached while
the role checker is enabled; after `SetValidatorEnabled("role", false)` no
requested name is registered and enabled, and the same request, five
nanoseconds later, returns the cached result with its `role` entry. -/
theorem no_enabled_checker_yet_cached_entries :
    (mapGet checkerRoleDisabledAfterRequest.validators "role").map Validator.enabled =
        some false ∧
      (∃ addr, exampleStdlib.ParseAddress (normalizeEmail exampleStdlib "a@b.com") =
        Except.ok addr) ∧
      mapKeys (CheckWithValidators exampleStdlib checkerRoleDisabledAfterRequest (clockAt 5)
        exampleSched "a@b.com" ["role"]).result.Results = ["role"] := by
  refine ⟨by decide, ⟨_, rfl⟩, by decide⟩

/-- C26 (amended): for an address the parser accepts, a non-empty requested
list none of whose names is a registered and enabled checker, and a cache
(of capacity at least one) without an unexpired entry under the request's
key, `CheckWithValidators` returns an empty results map with `IsValid = true`
and a summary whose three flags are false, and stores that result under the
request's key. -/
theorem no_enabled_checker_empty_result (lib : Stdlib) (e : EmailChecker) (clk : Clock)
    (sched : Sched) (email : String) (names : List String) (addr : MailAddress)
    (hsize : 0 < e.cache.size)
    (hparse : lib.ParseAddress (normalizeEmail lib email) = Except.ok addr)
    (hmiss : cacheFresh e clk.probe (requestKey lib email names) = false)
    (hne : names ≠ [])
    (hnone : ∀ n ∈ names, ∀ v, mapGet e.validators n = some v → v.enabled = false) :
    (CheckWithValidators lib e clk sched email names).result.Results = [] ∧
      (CheckWithValidators lib e clk sched email names).result.IsValid = true ∧
      (CheckWithValidators lib e clk sched email names).result.Summary =
        some { IsDisposable := false, IsFree := false, IsRole := false } ∧
      mapGet (CheckWithValidators lib e clk sched email names).checker.cache.items
          (requestKey lib email names) =
        some (CheckWithValidators lib e clk sched email names).result := by
  have hsel := getValidatorsToRun_eq_nil
    { e with cache := e.cache.Remove (requestKey lib email names) } names hne hnone
  have harrive : sched.arrive [] = [] := List.Perm.eq_nil (sched.arrive_perm [])
  rw [CheckWithValidators_of_not_fresh lib e clk sched email names hmiss]
  simp only [requestKey, normalizeEmail] at hsel hparse ⊢
  simp only [checkUncached, hparse, hsel, runValidators, spawnedTasks, List.filterMap_nil,
    List.enum_nil, List.map_nil, harrive, collect, List.foldl_nil, calculateSummary,
    summaryLoop, List.filter_nil]
  exact ⟨trivial, trivial, trivial, mapGet_LRU_Add _ _ _ hsize⟩

theorem no_enabled_checker_empty_result_witness :
    (CheckWithValidators exampleStdlib exampleChecker (clockAt 0) exampleSched
        "a@b.com" ["mx", "smtp"]).result.Results = [] ∧
      (CheckWithValidators exampleStdlib exampleChecker (clockAt 0) exampleSched
        "a@b.com" ["mx", "smtp"]).result.IsValid = true ∧
      (CheckWithValidators exampleStdlib exampleChecker (clockAt 0) exampleSched
        "a@b.com" ["mx", "smtp"]).result.Summary =
        some { IsDisposable := false, IsFree := false, IsRole := false } ∧
      mapGet (CheckWithValidators exampleStdlib exampleChecker (clockAt 0) exampleSched
          "a@b.com" ["mx", "smtp"]).checker.cache.items
          (requestKey exampleStdlib "a@b.com" ["mx", "smtp"]) =
        some (CheckWithValidators exampleStdlib exampleChecker (clockAt 0) exampleSched
          "a@b.com" ["mx", "smtp"]).result :=
  no_enabled_checker_empty_result exampleStdlib exampleChecker (clockAt 0) exampleSched
    "a@b.com" ["mx", "smtp"] { Name := "", Address := "a@b.com" }
    (by decide) rfl rfl (by decide) (by decide)

/-- C27: `SetValidatorEnabled` leaves the cache and the configuration as they
were, so a call for a key cached before the change, made while the entry is
younger than `CacheTimeout`, returns the cached `CheckResult` and invokes no
checker, whatever the flags are now. -/
theorem SetValidatorEnabled_keeps_cache (lib : Stdlib) (e : EmailChecker) (name : String)
    (b : Bool) (clk : Clock) (sched : Sched) (email : String) (names : List String)
    (cached : CheckResult)
    (hget : mapGet e.cache.items (requestKey lib email names) = some cached)
    (hage : clk.probe - cached.Timestamp < e.config.CacheTimeout) :
    (SetValidatorEnabled e name b).1.cache = e.cache ∧
      (SetValidatorEnabled e name b).1.config = e.config ∧
      (CheckWithValidators lib (SetValidatorEnabled e name b).1 clk sched email names).result =
        cached ∧
      (CheckWithValidators lib (SetValidatorEnabled e name b).1 clk sched email names).invoked =
        [] := by
  have hcache : (SetValidatorEnabled e name b).1.cache = e.cache := by
    unfold SetValidatorEnabled
    split <;> rfl
  have hconfig : (SetValidatorEnabled e name b).1.config = e.config := by
    unfold SetValidatorEnabled
    split <;> rfl
  refine ⟨hcache, hconfig, ?_⟩
  apply CheckWithValidators_of_fresh
  · rw [hcache]
    exact hget
  · rw [hconfig]
    exact hage

theorem SetValidatorEnabled_keeps_cache_witness :
    (SetValidatorEnabled checkerAfterRoleRequest "role" false).1.cache =
        checkerAfterRoleRequest.cache ∧
      (CheckWithValidators exampleStdlib (SetValidatorEnabled checkerAfterRoleRequest "role"
          false).1 (clockAt 5) exampleSched "a@b.com" ["role"]).result =
        (CheckWithValidators exampleStdlib exampleChecker (clockAt 0) exampleSched
          "a@b.com" ["role"]).result :=
  ⟨(SetValidatorEnabled_keeps_cache exampleStdlib checkerAfterRoleRequest "role" false
      (clockAt 5) exampleSched "a@b.com" ["role"]
      (CheckWithValidators exampleStdlib exampleChecker (clockAt 0) exampleSched
        "a@b.com" ["role"]).result (by decide) (by decide)).1,
    (SetValidatorEnabled_keeps_cache exampleStdlib checkerAfterRoleRequest "role" false
      (clockAt 5) exampleSched "a@b.com" ["role"]
      (CheckWithValidators exampleStdlib exampleChecker (clockAt 0) exampleSched
        "a@b.com" ["role"]).result (by decide) (by decide)).2.2.1⟩

/-! ## Claims on rate-limited checkers and the summary -/

theorem checkUncached_summary_of_ok (lib : Stdlib) (e : EmailChecker) (clk : Clock)
    (sched : Sched) (email key : String) (names : List String) (addr : MailAddress)
    (h : lib.ParseAddress email = Except.ok addr) :
    (checkUncached lib e clk sched email key names).result.IsValid =
        (summaryLoop (checkUncached lib e clk sched email key names).result.Results).1 ∧
      (checkUncached lib e clk sched email key names).result.Summary =
        some (summaryLoop (checkUncached lib e clk sched email key names).result.Results).2 := by
  simp [checkUncached, h, calculateSummary]

/-- C28: when the parser accepts the address, no fresh entry is cached, a
checker is in the effective selection and every task spawned for it is denied
a token, the entry under its name is the synthetic one, `IsValid` is false,
and the summary flag of that name (`disposable`, `free` or `role`) is true,
for every address and every list behind the checker. -/
theorem rate_limited_checker_sets_flag (lib : Stdlib) (e : EmailChecker) (clk : Clock)
    (sched : Sched) (email : String) (names : List String) (addr : MailAddress)
    (name : String)
    (hnd : (mapKeys e.validators).Nodup)
    (hparse : lib.ParseAddress (normalizeEmail lib email) = Except.ok addr)
    (hmiss : cacheFresh e clk.probe (requestKey lib email names) = false)
    (hselected : (∃ v, (name, v) ∈ e.validators ∧ v.enabled = true) ∧
      (names = [] ∨ name ∈ names))
    (hdenied : ∀ i v, (i, (name, v)) ∈ (spawnedTasks e (getValidatorsToRun e names)).enum →
      sched.acquire i = false) :
    mapGet (CheckWithValidators lib e clk sched email names).result.Results name =
        some rateLimited ∧
      (CheckWithValidators lib e clk sched email names).result.IsValid = false ∧
      ∃ s, (CheckWithValidators lib e clk sched email names).result.Summary = some s ∧
        (name = "disposable" → s.IsDisposable = true) ∧
        (name = "free" → s.IsFree = true) ∧
        (name = "role" → s.IsRole = true) := by
  have hresults := checkUncached_results_of_ok lib
    { e with cache := e.cache.Remove (requestKey lib email names) } clk sched
    (normalizeEmail lib email) (requestKey lib email names) names addr hparse
  have hsummary := checkUncached_summary_of_ok lib
    { e with cache := e.cache.Remove (requestKey lib email names) } clk sched
    (normalizeEmail lib email) (requestKey lib email names) names addr hparse
  have hcall := CheckWithValidators_of_not_fresh lib e clk sched email names hmiss
  simp only [requestKey, normalizeEmail] at hresults hsummary hcall hparse ⊢
  rw [hcall]
  have htasks : spawnedTasks
      { e with cache := e.cache.Remove (buildCacheKey (ToLower lib (TrimSpace email)) names) }
      (getValidatorsToRun
        { e with cache := e.cache.Remove (buildCacheKey (ToLower lib (TrimSpace email)) names) }
        names) = spawnedTasks e (getValidatorsToRun e names) := rfl
  rw [htasks] at hresults
  have hget : mapGet (checkUncached lib
      { e with cache := e.cache.Remove (buildCacheKey (ToLower lib (TrimSpace email)) names) }
      clk sched (ToLower lib (TrimSpace email))
      (buildCacheKey (ToLower lib (TrimSpace email)) names) names).result.Results name =
      some rateLimited := by
    rw [hresults]
    apply mapGet_collect_of_forall
    · intro r hr hrk
      have hr2 := (sched.arrive_perm _).subset hr
      obtain ⟨task, htask, rfl⟩ := List.mem_map.1 hr2
      obtain ⟨i, n, v⟩ := task
      have hn : n = name := by
        rw [runTask_fst] at hrk
        exact hrk
      subst hn
      have hden := hdenied i v htask
      simp [runTask, hden]
    · right
      have hkey : name ∈ (spawnedTasks e (getValidatorsToRun e names)).map Prod.fst := by
        rw [mem_spawnedTasks_keys, mem_getValidatorsToRun e names name hnd]
        obtain ⟨⟨v, hv, hen⟩, hreq⟩ := hselected
        exact ⟨⟨⟨v, hv, hen⟩, hreq⟩, v, (mapGet_eq_some_iff _ _ _ hnd).2 hv, hen⟩
      rw [← reports_keys sched (ToLower lib (TrimSpace email))] at hkey
      obtain ⟨r, hr, hrk⟩ := List.mem_map.1 hkey
      exact ⟨r, (sched.arrive_perm _).symm.subset hr, hrk⟩
  have hmem := mem_of_mapGet_eq_some _ _ _ hget
  refine ⟨hget, ?_, _, hsummary.2, ?_, ?_, ?_⟩
  · rw [hsummary.1]
    cases hv : (summaryLoop _).1 with
    | false => rfl
    | true =>
      have hall := (foldl_summaryStep_valid _ _).1 hv
      have := hall.2 _ hmem
      simp [rateLimited] at this
  · intro hname
    rw [summaryLoop, foldl_summaryStep_disposable]
    exact Or.inr ⟨_, hmem, hname, rfl⟩
  · intro hname
    rw [summaryLoop, foldl_summaryStep_free]
    exact Or.inr ⟨_, hmem, hname, rfl⟩
  · intro hname
    rw [summaryLoop, foldl_summaryStep_role]
    exact Or.inr ⟨_, hmem, hname, rfl⟩

theorem rate_limited_checker_sets_flag_witness :
    mapGet (CheckWithValidators exampleStdlib exampleChecker (clockAt 0) saturatedSched
        "a@b.com" ["disposable"]).result.Results "disposable" = some rateLimited ∧
      (CheckWithValidators exampleStdlib exampleChecker (clockAt 0) saturatedSched
        "a@b.com" ["disposable"]).result.IsValid = false ∧
      ∃ s, (CheckWithValidators exampleStdlib exampleChecker (clockAt 0) saturatedSched
          "a@b.com" ["disposable"]).result.Summary = some s ∧
        ("disposable" = "disposable" → s.IsDisposable = true) ∧
        ("disposable" = "free" → s.IsFree = true) ∧
        ("disposable" = "role" → s.IsRole = true) :=
  rate_limited_checker_sets_flag exampleStdlib exampleChecker (clockAt 0) saturatedSched
    "a@b.com" ["disposable"] { Name := "", Address := "a@b.com" } "disposable"
    (by decide) rfl rfl
    ⟨⟨exampleDisposable.adapter exampleStdlib 0,
        List.mem_cons_of_mem _ (List.mem_cons_self _ _), rfl⟩, Or.inr (by decide)⟩
    (fun _ _ _ => rfl)

/-! ## Claims on what the syntax gate rejects -/

/-- The parser of the worked examples rejects every string without `@`. -/
theorem exampleParseAddress_rejects_without_at (s : String) (h : s.data.count '@' = 0) :
    (exampleStdlib.ParseAddress s).isOk = false := by
  simp only [exampleStdlib, exampleParseAddress]
  split_ifs with h1 h2 h3 h4 h5 h6 h7 h8 h9 h10 <;>
    first
      | rfl
      | (subst_vars; exact absurd h (by decide))

/-- C13 (amended): on a call that finds no fresh cached entry, the syntax gate
rejects an address exactly when `mail.ParseAddress` rejects its normalized
form, and then the result is the single `syntax` entry with the parser's
message, invalid, without a summary, and no checker is invoked. Hence an
address without `@`, and an address with one `@` and an empty local part or
domain, both of which the parser rejects, are rejected by the gate; an address
the parser accepts passes the gate, also when it holds two or more `@` as in a
quoted local part. -/
theorem syntax_gate_rejects_iff_parser_rejects (lib : Stdlib) (e : EmailChecker)
    (clk : Clock) (sched : Sched) (email : String) (names : List String)
    (hmiss : cacheFresh e clk.probe (requestKey lib email names) = false) :
    ((CheckWithValidators lib e clk sched email names).result.Summary = none ↔
        (lib.ParseAddress (normalizeEmail lib email)).isOk = false) ∧
      (∀ msg, lib.ParseAddress (normalizeEmail lib email) = Except.error msg →
        (CheckWithValidators lib e clk sched email names).result.Results =
            [("syntax", syntaxRejection msg)] ∧
          (CheckWithValidators lib e clk sched email names).result.IsValid = false ∧
          (CheckWithValidators lib e clk sched email names).invoked = []) ∧
      ((∀ s : String, s.data.count '@' = 0 → (lib.ParseAddress s).isOk = false) →
        (normalizeEmail lib email).data.count '@' = 0 →
        (CheckWithValidators lib e clk sched email names).result.Summary = none) ∧
      ((∀ s : String, s.data.count '@' = 1 →
          extractLocalPart lib s = "" ∨ extractDomain lib s = "" →
          (lib.ParseAddress s).isOk = false) →
        (normalizeEmail lib email).data.count '@' = 1 →
        extractLocalPart lib (normalizeEmail lib email) = "" ∨
          extractDomain lib (normalizeEmail lib email) = "" →
        (CheckWithValidators lib e clk sched email names).result.Summary = none) ∧
      (∀ addr, lib.ParseAddress (normalizeEmail lib email) = Except.ok addr →
        (CheckWithValidators lib e clk sched email names).result.Summary ≠ none) := by
  have hiff : (CheckWithValidators lib e clk sched email names).result.Summary = none ↔
      (lib.ParseAddress (normalizeEmail lib email)).isOk = false := by
    cases hparse : lib.ParseAddress (normalizeEmail lib email) with
    | error msg =>
      rw [CheckWithValidators_of_rejected lib e clk sched email names msg hparse hmiss]
      simp [Except.isOk, Except.toBool]
    | ok addr =>
      have hsum := (checkUncached_summary_of_ok lib
        { e with cache := e.cache.Remove (requestKey lib email names) } clk sched
        (normalizeEmail lib email) (requestKey lib email names) names addr hparse).2
      have hcall := CheckWithValidators_of_not_fresh lib e clk sched email names hmiss
      simp only [requestKey, normalizeEmail] at hsum hcall ⊢
      rw [hcall, hsum]
      simp [Except.isOk, Except.toBool]
  refine ⟨hiff, ?_, ?_, ?_, ?_⟩
  · intro msg hparse
    rw [CheckWithValidators_of_rejected lib e clk sched email names msg hparse hmiss]
    exact ⟨rfl, rfl, rfl⟩
  · intro hparser hcount
    exact hiff.2 (hparser _ hcount)
  · intro hparser hcount hempty
    exact hiff.2 (hparser _ hcount hempty)
  · intro addr hparse hnone
    have := hiff.1 hnone
    rw [hparse] at this
    simp [Except.isOk, Except.toBool] at this

theorem syntax_gate_rejects_iff_parser_rejects_witness :
    (normalizeEmail exampleStdlib "Not-An-Email ").data.count '@' = 0 ∧
      (CheckWithValidators exampleStdlib exampleChecker (clockAt 0) exampleSched
        "Not-An-Email " []).result.Summary = none :=
  ⟨by decide,
    (syntax_gate_rejects_iff_parser_rejects exampleStdlib exampleChecker (clockAt 0)
      exampleSched "Not-An-Email " [] rfl).2.2.1 exampleParseAddress_rejects_without_at
      (by decide)⟩

end Bloombox
